import Mathlib

/-!
# revapost/imap-server: FETCH, SEARCH and AUTHENTICATE PLAIN handlers

A shallow embedding of `conn/command_fetch.go`, `conn/command_search.go` and
`conn/command_authenticate.go`.

* Go strings and byte slices are lists of bytes, `len` is the list length.
* A handler is a function from the connection to an `Outcome`: the connection
  afterwards, the ordered trace of its effects (response lines handed to
  `writeResponse`, transcript writes, calls into the storage collaborator) and
  whether the Go code ran into a run-time panic.
* Code of the repository that is not among the sources (`assertSelected`,
  `types.InterpretSequenceSet`, `util.SplitParams`, `util.MIMEHeaderToString`,
  the message store) is a field of `Env`, `Mailbox` or `Mailstore`.
-/

namespace ImapServer

/-! ## Byte strings -/

/-- A Go `string` / `[]byte`: a sequence of bytes. -/
abbrev Bytes := List UInt8

/-- The bytes (UTF-8) of a string literal of the source. -/
def str (s : String) : Bytes := s.toList.flatMap String.utf8EncodeChar

/-- Digits of `n`, most significant first, pushed in front of `ds`. -/
def decimalCore : Nat → Nat → Bytes → Bytes
  | 0, _, ds => ds
  | fuel + 1, n, ds =>
    let d := UInt8.ofNat (48 + n % 10)
    if n / 10 = 0 then d :: ds else decimalCore fuel (n / 10) (d :: ds)

/-- The verb `%d` of `fmt.Sprintf` on a non-negative integer. -/
def decimal (n : Nat) : Bytes := decimalCore (n + 1) n []

/-- The function `strings.Join`. -/
def Join : List Bytes → Bytes → Bytes
  | [], _ => []
  | [a], _ => a
  | a :: b :: rest, sep => a ++ sep ++ Join (b :: rest) sep

/-- The function `strings.Split` for a one-byte separator. -/
def Split : Bytes → UInt8 → List Bytes
  | [], _ => [[]]
  | b :: rest, sep =>
    if b = sep then [] :: Split rest sep
    else
      match Split rest sep with
      | [] => [[b]]
      | w :: ws => (b :: w) :: ws

/-- The function `strings.Contains`. -/
def Contains : Bytes → Bytes → Bool
  | [], sub => sub.isPrefixOf []
  | b :: rest, sub => sub.isPrefixOf (b :: rest) || Contains rest sub

/-- Upper-case one byte when it is an ASCII lower-case letter. -/
def upperByte (b : UInt8) : UInt8 :=
  if 97 ≤ b.toNat ∧ b.toNat ≤ 122 then UInt8.ofNat (b.toNat - 32) else b

/-- The function `strings.ToUpper`, up to the bytes outside ASCII of the result: ASCII
letters are upper-cased and the two runes outside ASCII whose upper case is an ASCII
letter are mapped to it, U+0131 (bytes 196 177) to `I` and U+017F (bytes 197 191) to `S`.
Every other rune, and every byte that is not valid UTF-8, gives bytes outside ASCII in Go;
here its bytes are kept, so the result equals an ASCII string exactly when Go's does. -/
def ToUpper : Bytes → Bytes
  | [] => []
  | [b] => [upperByte b]
  | b :: b' :: rest =>
    if b = 196 ∧ b' = 177 then 73 :: ToUpper rest
    else if b = 197 ∧ b' = 191 then 83 :: ToUpper rest
    else upperByte b :: ToUpper (b' :: rest)

/-! ## Regular expressions

The patterns of the source only use literals, greedy `?` on a group, greedy `+`
on a character class and capturing groups, so that is the syntax embedded here.
Matching is leftmost-first backtracking, the semantics of Go's `regexp`. All
classes of the source are sets of ASCII characters or complements of one, so a
match on bytes is the match on runes. -/

/-- Syntax of the regular expressions of the source. -/
inductive Regexp where
  | lit (bs : Bytes)
  | plus (cls : UInt8 → Bool)
  | opt (r : Regexp)
  | cap (i : Nat) (r : Regexp)
  | seq (r s : Regexp)

/-- Greedy `cls*` followed by the continuation `k`. -/
def starK (cls : UInt8 → Bool) :
    Bytes → List Bytes → (Bytes → List Bytes → Option (Bytes × List Bytes)) →
      Option (Bytes × List Bytes)
  | [], caps, k => k [] caps
  | b :: rest, caps, k =>
    if cls b then (starK cls rest caps k).orElse (fun _ => k (b :: rest) caps)
    else k (b :: rest) caps

/-- Match `r` at the start of the input, then the continuation `k` on what is
left; `caps` holds the text of the capturing groups. -/
def Regexp.matchK :
    Regexp → Bytes → List Bytes → (Bytes → List Bytes → Option (Bytes × List Bytes)) →
      Option (Bytes × List Bytes)
  | .lit bs, s, caps, k => if bs.isPrefixOf s then k (s.drop bs.length) caps else none
  | .plus cls, s, caps, k =>
    match s with
    | [] => none
    | b :: rest => if cls b then starK cls rest caps k else none
  | .opt r, s, caps, k => (r.matchK s caps k).orElse (fun _ => k s caps)
  | .cap i r, s, caps, k =>
    r.matchK s caps (fun s' caps' => k s' (caps'.set (i - 1) (s.take (s.length - s'.length))))
  | .seq r₁ r₂, s, caps, k => r₁.matchK s caps (fun s' caps' => r₂.matchK s' caps' k)

/-- Number of capturing groups. -/
def Regexp.numCap : Regexp → Nat
  | .lit _ => 0
  | .plus _ => 0
  | .opt r => r.numCap
  | .cap _ r => r.numCap + 1
  | .seq r s => r.numCap + s.numCap

/-- A match anchored at the start of `s`: the whole match and the groups. -/
def Regexp.matchAt (r : Regexp) (s : Bytes) : Option (List Bytes) :=
  match r.matchK s (List.replicate r.numCap []) (fun s' caps => some (s', caps)) with
  | some (s', caps) => some (s.take (s.length - s'.length) :: caps)
  | none => none

/-- The leftmost match of `r` in `s`. -/
def Regexp.find (r : Regexp) : Bytes → Option (List Bytes)
  | [] => r.matchAt []
  | b :: rest => (r.matchAt (b :: rest)).orElse (fun _ => r.find rest)

/-- The method `MatchString`. -/
def Regexp.MatchString (r : Regexp) (s : Bytes) : Bool := (r.find s).isSome

/-- The methods `FindStringSubmatch` and `FindSubmatch`: the whole match followed by
the groups, the empty (nil) slice when there is no match. -/
def Regexp.FindStringSubmatch (r : Regexp) (s : Bytes) : List Bytes := (r.find s).getD []

/-- The class `\s` of Go: tab, line feed, form feed, carriage return, space. -/
def isSpace (b : UInt8) : Bool := b = 9 || b = 10 || b = 12 || b = 13 || b = 32

/-- The range `A-z` (0x41 to 0x7A, which includes the six bytes between `Z` and `a`). -/
def isAtoz (b : UInt8) : Bool := decide (65 ≤ b.toNat) && decide (b.toNat ≤ 122)

/-- The range `0-9`. -/
def isDigit (b : UInt8) : Bool := decide (48 ≤ b.toNat) && decide (b.toNat ≤ 57)

/-! ## Base64 -/

/-- Value of a character of the standard base64 alphabet. -/
def b64Value (b : UInt8) : Option Nat :=
  let n := b.toNat
  if 65 ≤ n ∧ n ≤ 90 then some (n - 65)
  else if 97 ≤ n ∧ n ≤ 122 then some (n - 97 + 26)
  else if 48 ≤ n ∧ n ≤ 57 then some (n - 48 + 52)
  else if n = 43 then some 62
  else if n = 47 then some 63
  else none

/-- Decode quanta of four characters; padding only closes the last quantum. -/
def b64Quanta : Bytes → Option Bytes
  | [] => some []
  | [a, b, c, d] =>
    match b64Value a, b64Value b with
    | some x, some y =>
      let o₁ := UInt8.ofNat ((x * 4 + y / 16) % 256)
      if c = 61 then (if d = 61 then some [o₁] else none)
      else
        match b64Value c with
        | none => none
        | some z =>
          let o₂ := UInt8.ofNat ((y * 16 + z / 4) % 256)
          if d = 61 then some [o₁, o₂]
          else
            match b64Value d with
            | none => none
            | some w => some [o₁, o₂, UInt8.ofNat ((z * 64 + w) % 256)]
    | _, _ => none
  | a :: b :: c :: d :: e :: rest =>
    match b64Value a, b64Value b, b64Value c, b64Value d, b64Quanta (e :: rest) with
    | some x, some y, some z, some w, some tail =>
      some (UInt8.ofNat ((x * 4 + y / 16) % 256) :: UInt8.ofNat ((y * 16 + z / 4) % 256) ::
        UInt8.ofNat ((z * 64 + w) % 256) :: tail)
    | _, _, _, _, _ => none
  | _ => none

/-- The call `base64.StdEncoding.DecodeString`: standard alphabet, padding
required, carriage returns and line feeds in the input ignored; `none` is a
decoding error. -/
def DecodeString (s : Bytes) : Option Bytes :=
  b64Quanta (s.filter (fun b => b != 13 && b != 10))

/-! ## Data model -/

/-- The message flags the handlers name (`types.FlagRecent`). -/
inductive Flag where
  | FlagRecent
  deriving DecidableEq, Repr

/-- A `textproto.MIMEHeader` (`map[string][]string`): keys with their values. The
order of the entries carries no meaning. -/
abbrev MIMEHeader := List (Bytes × List Bytes)

/-- What the handlers observe of a `mailstore.Message`. -/
structure Message where
  /-- Result of `UID()`. -/
  UID : Nat
  /-- Result of `SequenceNumber()`. -/
  SequenceNumber : Nat
  /-- Result of `Flags().Strings()`. -/
  FlagStrings : List Bytes
  /-- Result of `Keywords()`. -/
  Keywords : List Bytes
  /-- Result of `Size()`. -/
  Size : Nat
  /-- Result of `InternalDate().Format(util.InternalDate)`. -/
  InternalDate : Bytes
  /-- Result of `Header()`. -/
  Header : MIMEHeader
  /-- Result of `Body()`. -/
  Body : Bytes
  /-- Result of `BodyStructure()`. -/
  BodyStructure : Bytes
  deriving DecidableEq

/-- One bound of a range: a number or `*`. -/
inductive SeqBound where
  | num (n : Nat)
  | largest
  deriving DecidableEq

/-- Modelled from the spec: `types.SequenceSet` is not among the sources; the data
model describes it as a list of inclusive ranges whose bounds are an integer or
the sentinel for the largest identifier. -/
abbrev SequenceSet := List (SeqBound × SeqBound)

/-- A `mailstore.User` handle. -/
structure User where
  name : Bytes
  deriving DecidableEq

/-- The selected `mailstore.Mailbox`: its two lookups. -/
structure Mailbox where
  MessageSetByUID : SequenceSet → List Message
  MessageSetBySequenceNumber : SequenceSet → List Message

/-- The `mailstore.Mailstore` of a connection. `Authenticate` returns the Go pair
`(User, error)`: the user (`none` is nil) and the error (`none` is nil). -/
structure Mailstore where
  Authenticate : Bytes → Bytes → Option User × Option Bytes

/-- Connection states. -/
inductive ConnState where
  | StateNotAuthenticated
  | StateAuthenticated
  | StateSelected
  | StateLoggedOut
  deriving DecidableEq, Repr

/-- Open mode of the selected mailbox. -/
inductive ReadWriteState where
  | readOnly
  | readWrite
  deriving DecidableEq, Repr

/-- The fields of `Conn` the handlers use. `RwcScanner` is the input still to be
read, one entry per line. -/
structure Conn where
  state : ConnState
  User : Option User
  SelectedMailbox : Option Mailbox
  mailboxWritable : ReadWriteState
  Mailstore : Mailstore
  RwcScanner : List Bytes

/-- Modelled from the spec: `Conn.SetState` is not among the sources; it replaces
the current state of the connection. -/
def Conn.SetState (c : Conn) (s : ConnState) : Conn := { c with state := s }

/-- The parsed command line: `ID()` is the tag, `Arg(i)` the i-th argument. -/
structure CommandArgs where
  ID : Bytes
  Arg : Nat → Bytes

/-- Effects of a handler, in the order they happen. -/
inductive Event where
  /-- The call `c.writeResponse(seq, command)`. -/
  | write (seq command : Bytes)
  /-- A write to `c.Transcript`. -/
  | transcript (text : Bytes)
  /-- The call `c.SelectedMailbox.MessageSetByUID(seqSet)`. -/
  | messageSetByUID (seqSet : SequenceSet)
  /-- The call `c.SelectedMailbox.MessageSetBySequenceNumber(seqSet)`. -/
  | messageSetBySequenceNumber (seqSet : SequenceSet)
  /-- The call `msg.RemoveFlags(flag)`. -/
  | removeFlags (msg : Message) (flag : Flag)
  /-- The call `msg.Save()`. -/
  | save (msg : Message)
  /-- The call `c.Mailstore.Authenticate(username, password)`. -/
  | authenticate (username password : Bytes)
  deriving DecidableEq

/-- Code the handlers call that is not among the sources. -/
structure Env where
  /-- The guard `c.assertSelected(id, mode)`: its verdict and what it wrote. -/
  assertSelected : Conn → Bytes → ReadWriteState → Bool × List Event
  /-- The parser `types.InterpretSequenceSet`: a set or the text of the error. -/
  InterpretSequenceSet : Bytes → Except Bytes SequenceSet
  /-- The tokenizer `util.SplitParams`. -/
  SplitParams : Bytes → List Bytes
  /-- The renderer `util.MIMEHeaderToString`. -/
  MIMEHeaderToString : MIMEHeader → Bytes
  /-- The function `textproto.CanonicalMIMEHeaderKey` used by `Get` and `Add`. -/
  CanonicalMIMEHeaderKey : Bytes → Bytes
  /-- The method `RemoveFlags` of a message. -/
  RemoveFlags : Message → Flag → Message
  /-- The method `Save` of a message: the Go pair `(Message, error)`. -/
  Save : Message → Option Message × Option Bytes

/-- What a handler leaves behind. -/
structure Outcome where
  conn : Conn
  trace : List Event
  panicked : Bool

/-- The error values a FETCH can meet: the package variable
`ErrUnrecognisedParameter`, or any other error. -/
inductive GoError where
  | ErrUnrecognisedParameter
  | other (text : Bytes)
  deriving DecidableEq

/-- Result of a Go function returning `(string, error)` that may also panic. -/
inductive Result (α : Type) where
  | ok (v : α)
  | err (e : GoError)
  | panic
  deriving DecidableEq

/-- The method `Get` of `textproto.MIMEHeader`: first value of the canonical key. -/
def MIMEHeader.Get (env : Env) (h : MIMEHeader) (key : Bytes) : Bytes :=
  match h.lookup (env.CanonicalMIMEHeaderKey key) with
  | some (v :: _) => v
  | _ => []

/-- Append `v` to the values of the key `k`. -/
def MIMEHeader.append : MIMEHeader → Bytes → Bytes → MIMEHeader
  | [], k, v => [(k, [v])]
  | (k', vs) :: rest, k, v =>
    if k' = k then (k', vs ++ [v]) :: rest else (k', vs) :: MIMEHeader.append rest k v

/-- The method `Add` of `textproto.MIMEHeader`. -/
def MIMEHeader.Add (env : Env) (h : MIMEHeader) (key value : Bytes) : MIMEHeader :=
  MIMEHeader.append h (env.CanonicalMIMEHeaderKey key) value

/-! ## `conn/command_fetch.go` -/

def fetchArgUID : Nat := 0
def fetchArgRange : Nat := 1
def fetchArgParams : Nat := 2

/-- A registered pair of pattern and handler. A handler returns `none` when the Go
code panics (an index out of range). -/
structure fetchParamDefinition where
  re : Regexp
  handler : Env → List Bytes → Conn → Message → Bool → Option Bytes

/-- The pattern `\.PEEK`. -/
def peekRE : Regexp := .lit (str ".PEEK")

/-- The handler `fetchUID`. -/
def fetchUID (_env : Env) (_args : List Bytes) (_c : Conn) (m : Message) (_peekOnly : Bool) :
    Option Bytes :=
  some (str "UID " ++ decimal m.UID)

/-- The handler `fetchFlags`. -/
def fetchFlags (_env : Env) (_args : List Bytes) (_c : Conn) (m : Message) (_peekOnly : Bool) :
    Option Bytes :=
  let flags := m.FlagStrings ++ m.Keywords
  let flagList := Join flags (str " ")
  some (str "FLAGS (" ++ flagList ++ str ")")

/-- The handler `fetchRfcSize`. -/
def fetchRfcSize (_env : Env) (_args : List Bytes) (_c : Conn) (m : Message) (_peekOnly : Bool) :
    Option Bytes :=
  some (str "RFC822.SIZE " ++ decimal m.Size)

/-- The handler `fetchInternalDate`. -/
def fetchInternalDate (_env : Env) (_args : List Bytes) (_c : Conn) (m : Message)
    (_peekOnly : Bool) : Option Bytes :=
  let dateStr := m.InternalDate
  some (str "INTERNALDATE \"" ++ dateStr ++ str "\"")

/-- The handler `fetchHeaders`. -/
def fetchHeaders (env : Env) (_args : List Bytes) (_c : Conn) (m : Message) (_peekOnly : Bool) :
    Option Bytes :=
  let hdr := env.MIMEHeaderToString m.Header ++ str "\r\n"
  let hdrLen := hdr.length
  let peekStr := str ""
  some (str "BODY" ++ peekStr ++ str "[HEADER] \x7b" ++ decimal hdrLen ++ str "\x7d\r\n" ++ hdr)

/-- The loop of `fetchHeaderSpecificFields` over the requested fields: the quoted
names and the headers copied over. -/
def fieldsLoop (env : Env) (hdrs : MIMEHeader) :
    List Bytes → List Bytes → MIMEHeader → List Bytes × MIMEHeader
  | [], replyFieldList, requestedHeaders => (replyFieldList, requestedHeaders)
  | key :: rest, replyFieldList, requestedHeaders =>
    let v := hdrs.Get env key
    fieldsLoop env hdrs rest (replyFieldList ++ [str "\"" ++ key ++ str "\""])
      (if v ≠ [] then requestedHeaders.Add env key v else requestedHeaders)

/-- The handler `fetchHeaderSpecificFields`. The diagnostic it prints on the
standard output of the server when `peekOnly` is false is not an effect on the
reply and is left out. -/
def fetchHeaderSpecificFields (env : Env) (args : List Bytes) (_c : Conn) (m : Message)
    (_peekOnly : Bool) : Option Bytes :=
  match args with
  | _ :: args1 :: _ =>
    let fields := Split args1 32
    let hdrs := m.Header
    let (replyFieldList, requestedHeaders) := fieldsLoop env hdrs fields [] []
    let hdr := env.MIMEHeaderToString requestedHeaders
    let hdrLen := hdr.length
    some (str "BODY[HEADER.FIELDS (" ++ Join replyFieldList (str " ") ++ str ")] \x7b" ++
      decimal hdrLen ++ str "\x7d\r\n" ++ hdr)
  | _ => none

/-- The handler `fetchBody`. -/
def fetchBody (_env : Env) (_args : List Bytes) (_c : Conn) (m : Message) (_peekOnly : Bool) :
    Option Bytes :=
  let body := m.Body ++ str "\r\n"
  let bodyLen := body.length
  some (str "BODY[TEXT] \x7b" ++ decimal bodyLen ++ str "\x7d\r\n" ++ body)

/-- The handler `fetchFullText`. -/
def fetchFullText (env : Env) (_args : List Bytes) (_c : Conn) (m : Message) (_peekOnly : Bool) :
    Option Bytes :=
  let mail := env.MIMEHeaderToString m.Header ++ m.Body ++ str "\r\n"
  let mailLen := mail.length
  some (str "BODY[] \x7b" ++ decimal mailLen ++ str "\x7d\r\n" ++ mail)

/-- The handler `fetchBodyStructure`. -/
def fetchBodyStructure (_env : Env) (_args : List Bytes) (_c : Conn) (m : Message)
    (_peekOnly : Bool) : Option Bytes :=
  let body := m.BodyStructure ++ str "\r\n"
  let bodyLen := body.length
  some (str "BODYSTRUCTURE \x7b" ++ decimal bodyLen ++ str "\x7d\r\n" ++ body)

/-- The sub-pattern `BODY(?:\.PEEK)?` followed by `rest`. -/
def bodyRE (rest : Regexp) : Regexp :=
  .seq (.lit (str "BODY")) (.seq (.opt (.lit (str ".PEEK"))) rest)

/-- The class `[A-z\s-]` of the field list. -/
def fieldClass (b : UInt8) : Bool := isAtoz b || isSpace b || b = 45

/-- The pattern `UID`. -/
def uidRE : Regexp := .lit (str "UID")

/-- The pattern `FLAGS`. -/
def flagsRE : Regexp := .lit (str "FLAGS")

/-- The pattern `RFC822\.SIZE`. -/
def rfcSizeRE : Regexp := .lit (str "RFC822.SIZE")

/-- The pattern `INTERNALDATE`. -/
def internalDateRE : Regexp := .lit (str "INTERNALDATE")

/-- The pattern `BODY(?:\.PEEK)?\[HEADER\]`. -/
def headersRE : Regexp := bodyRE (.lit (str "[HEADER]"))

/-- The pattern `BODY(?:\.PEEK)?\[HEADER\.FIELDS \(([A-z\s-]+)\)\]`. -/
def headerFieldsRE : Regexp :=
  bodyRE (.seq (.lit (str "[HEADER.FIELDS (")) (.seq (.cap 1 (.plus fieldClass))
    (.lit (str ")]"))))

/-- The pattern `BODY(?:\.PEEK)?\[TEXT\]`. -/
def bodyTextRE : Regexp := bodyRE (.lit (str "[TEXT]"))

/-- The pattern `BODY(?:\.PEEK)?\[\]`. -/
def fullTextRE : Regexp := bodyRE (.lit (str "[]"))

/-- The pattern `BODYSTRUCTURE`. -/
def bodyStructureRE : Regexp := .lit (str "BODYSTRUCTURE")

/-- The registry built by `init`, in registration order. -/
def registeredFetchParams : List fetchParamDefinition :=
  [ ⟨uidRE, fetchUID⟩,
    ⟨flagsRE, fetchFlags⟩,
    ⟨rfcSizeRE, fetchRfcSize⟩,
    ⟨internalDateRE, fetchInternalDate⟩,
    ⟨headersRE, fetchHeaders⟩,
    ⟨headerFieldsRE, fetchHeaderSpecificFields⟩,
    ⟨bodyTextRE, fetchBody⟩,
    ⟨fullTextRE, fetchFullText⟩,
    ⟨bodyStructureRE, fetchBodyStructure⟩ ]

/-- The search loop of `fetchParam` through the registry. -/
def fetchParamLoop (env : Env) (param : Bytes) (c : Conn) (m : Message) (peek : Bool) :
    List fetchParamDefinition → Result Bytes
  | [] => .err .ErrUnrecognisedParameter
  | element :: rest =>
    if element.re.MatchString param then
      match element.handler env (element.re.FindStringSubmatch param) c m peek with
      | some r => .ok r
      | none => .panic
    else fetchParamLoop env param c m peek rest

/-- The function `fetchParam`: match a single fetch parameter and return the data. -/
def fetchParam (env : Env) (param : Bytes) (c : Conn) (m : Message) : Result Bytes :=
  let peek := peekRE.MatchString param
  fetchParamLoop env param c m peek registeredFetchParams

/-- The loop of `fetch` over the parameter list. -/
def fetchLoop (env : Env) (c : Conn) (m : Message) :
    List Bytes → List Bytes → Result (List Bytes)
  | [], responseParams => .ok responseParams
  | param :: rest, responseParams =>
    match fetchParam env param c m with
    | .ok paramResponse => fetchLoop env c m rest (responseParams ++ [paramResponse])
    | .err e => .err e
    | .panic => .panic

/-- The function `fetch`: the requested params of a given message. -/
def fetch (env : Env) (params : Bytes) (c : Conn) (m : Message) : Result Bytes :=
  let paramList := env.SplitParams params
  match fetchLoop env c m paramList [] with
  | .ok responseParams => .ok (Join responseParams (str " "))
  | .err e => .err e
  | .panic => .panic

/-- The loop of `cmdFetch` over the messages, with the final tagged reply. `out`
is the trace so far. -/
def cmdFetchLoop (env : Env) (args : CommandArgs) (c : Conn) (fetchParamString : Bytes) :
    List Message → List Event → Outcome
  | [], out => ⟨c, out ++ [.write args.ID (str "OK FETCH Completed")], false⟩
  | msg :: rest, out =>
    match fetch env fetchParamString c msg with
    | .panic => ⟨c, out, true⟩
    | .err .ErrUnrecognisedParameter =>
      ⟨c, out ++ [.write args.ID (str "BAD Unrecognised Parameter")], false⟩
    | .err (.other _) => ⟨c, out ++ [.write args.ID (str "BAD")], false⟩
    | .ok fetchParams =>
      if c.mailboxWritable = .readWrite then
        let msg₁ := env.RemoveFlags msg .FlagRecent
        match (env.Save msg₁).1 with
        | none => ⟨c, out ++ [.removeFlags msg .FlagRecent, .save msg₁], true⟩
        | some msg₂ =>
          let fullReply := decimal msg₂.SequenceNumber ++ str " FETCH (" ++ fetchParams ++ str ")"
          cmdFetchLoop env args c fetchParamString rest
            (out ++ [.removeFlags msg .FlagRecent, .save msg₁, .write (str "") fullReply])
      else
        let fullReply := decimal msg.SequenceNumber ++ str " FETCH (" ++ fetchParams ++ str ")"
        cmdFetchLoop env args c fetchParamString rest (out ++ [.write (str "") fullReply])

/-- The handler `cmdFetch`. -/
def cmdFetch (env : Env) (args : CommandArgs) (c : Conn) : Outcome :=
  let guard := env.assertSelected c args.ID .readOnly
  if !guard.1 then ⟨c, guard.2, false⟩
  else
    match env.InterpretSequenceSet (args.Arg fetchArgRange) with
    | .error err => ⟨c, guard.2 ++ [.write args.ID (str "NO " ++ err)], false⟩
    | .ok seqSet =>
      let searchByUID := ToUpper (args.Arg fetchArgUID) = str "UID "
      match c.SelectedMailbox with
      | none => ⟨c, guard.2, true⟩
      | some mailbox =>
        let msgs :=
          if searchByUID then mailbox.MessageSetByUID seqSet
          else mailbox.MessageSetBySequenceNumber seqSet
        let lookup : Event :=
          if searchByUID then .messageSetByUID seqSet else .messageSetBySequenceNumber seqSet
        let fetchParamString :=
          (if searchByUID && !Contains (args.Arg fetchArgParams) (str "UID") then str "UID "
            else []) ++ args.Arg fetchArgParams
        cmdFetchLoop env args c fetchParamString msgs (guard.2 ++ [lookup])

/-! ## `conn/command_search.go` -/

def searchArgUID : Nat := 0
def searchArgRange : Nat := 1
def searchArgParams : Nat := 2

/-- The handler `cmdSearch`. -/
def cmdSearch (env : Env) (args : CommandArgs) (c : Conn) : Outcome :=
  let guard := env.assertSelected c args.ID .readOnly
  if !guard.1 then ⟨c, guard.2, false⟩
  else
    match env.InterpretSequenceSet (args.Arg searchArgRange) with
    | .error err => ⟨c, guard.2 ++ [.write args.ID (str "NO " ++ err)], false⟩
    | .ok seqSet =>
      let searchByUID := ToUpper (args.Arg searchArgUID) = str "UID "
      match c.SelectedMailbox with
      | none => ⟨c, guard.2, true⟩
      | some mailbox =>
        let msgs :=
          if searchByUID then mailbox.MessageSetByUID seqSet
          else mailbox.MessageSetBySequenceNumber seqSet
        let lookup : Event :=
          if searchByUID then .messageSetByUID seqSet else .messageSetBySequenceNumber seqSet
        let searchParamString := args.Arg searchArgParams
        let found : Option (List Bytes) :=
          if searchParamString = str "NOT DELETED" then some (msgs.map (fun msg => decimal msg.UID))
          else if searchParamString = str "DELETED" then some []
          else none
        match found with
        | none =>
          ⟨c, guard.2 ++ [lookup, .write args.ID (str "BAD Unrecognised Parameter")], false⟩
        | some foundUids =>
          let fullReply := str "SEARCH " ++ Join foundUids (str " ")
          ⟨c, guard.2 ++ [lookup, .write (str "*") fullReply,
            .write args.ID (str "OK SEARCH Completed")], false⟩

/-! ## `conn/command_authenticate.go` -/

/-- The class `[\S]`: everything but white space. -/
def notSpace (b : UInt8) : Bool := !isSpace b

/-- The class `[A-z0-9@._-]`. -/
def loginClass (b : UInt8) : Bool :=
  isAtoz b || isDigit b || b = 64 || b = 46 || b = 95 || b = 45

/-- The login pattern `(?:[\S]+)?\x00([A-z0-9@._-]+)\x00([\S]+)`. -/
def loginRE : Regexp :=
  .seq (.opt (.plus notSpace)) (.seq (.lit [0]) (.seq (.cap 1 (.plus loginClass))
    (.seq (.lit [0]) (.cap 2 (.plus notSpace)))))

/-- The handler `cmdAuthPlain`: the PLAIN text AUTHENTICATE command. -/
def cmdAuthPlain (args : CommandArgs) (c : Conn) : Outcome :=
  let out : List Event := [.write (str "+") (str "")]
  match c.RwcScanner with
  | [] => ⟨c, out, false⟩
  | authDetails :: pending =>
    let c := { c with RwcScanner := pending }
    let out := out ++ [.transcript (str "C: " ++ authDetails)]
    match DecodeString authDetails with
    | none => ⟨c, out ++ [.write (str "") (str "BAD Invalid auth details")], false⟩
    | some data =>
      let out := out ++ [.transcript (str " (decoded) " ++ data ++ str "\n")]
      match loginRE.FindStringSubmatch data with
      | [_, username, password] =>
        let r := c.Mailstore.Authenticate username password
        let c := { c with User := r.1 }
        let out := out ++ [.authenticate username password]
        match r.2 with
        | some _ => ⟨c, out ++ [.write args.ID (str "NO Incorrect username/password")], false⟩
        | none =>
          ⟨c.SetState .StateAuthenticated, out ++ [.write args.ID (str "OK Authenticated")], false⟩
      | _ => ⟨c, out ++ [.write args.ID (str "NO Incorrect username/password")], false⟩

/-- The lines written to the client, in order: the `writeResponse` calls. -/
def clientOutput : List Event → List (Bytes × Bytes)
  | [] => []
  | .write seq command :: rest => (seq, command) :: clientOutput rest
  | _ :: rest => clientOutput rest

/-- The bytes a writer `w` of response lines puts on the wire for a trace. -/
def wireOutput (w : Bytes → Bytes → Bytes) (trace : List Event) : Bytes :=
  (clientOutput trace).flatMap (fun line => w line.1 line.2)

/-! ## Literal framing -/

/-- The literal framing rule of the spec: the name, the byte length of the content
in braces, a line break, then the content. -/
def literal (name content : Bytes) : Bytes :=
  name ++ str " \x7b" ++ decimal content.length ++ str "\x7d\r\n" ++ content

/-- What follows the first occurrence of `pat` in the input, if there is one. -/
def afterFirst (pat : Bytes) : Bytes → Option Bytes
  | [] => if pat.isPrefixOf [] then some [] else none
  | b :: rest =>
    if pat.isPrefixOf (b :: rest) then some ((b :: rest).drop pat.length)
    else afterFirst pat rest

/-- The fragment `r` is the literal of `name` and `content`, and `content` is all that
follows the first closing brace and line break of the fragment. -/
def FramedAs (name content : Bytes) (r : Option Bytes) : Prop :=
  r = some (literal name content) ∧
    afterFirst (str "\x7d\r\n") (literal name content) = some content

/-- The quoted field names echoed by `fetchHeaderSpecificFields`. -/
def quotedFields (list : Bytes) : List Bytes :=
  (Split list 32).map (fun key => str "\"" ++ key ++ str "\"")

/-! ## A sample environment

Concrete collaborators on which the statements with hypotheses are instantiated. -/

/-- Modelled from the spec: `assertSelected` is not among the sources; the guard
passes silently in `Selected` state and otherwise writes a tagged `NO` line. -/
def sampleAssertSelected (c : Conn) (id : Bytes) (_mode : ReadWriteState) : Bool × List Event :=
  if c.state = .StateSelected then (true, [])
  else (false, [.write id (str "NO Mailbox not selected")])

/-- Value of a non-empty string of decimal digits. -/
def parseDecimal : Bytes → Option Nat
  | [] => none
  | b :: rest =>
    (b :: rest).foldl
      (fun acc d => match acc with
        | some n => if isDigit d then some (n * 10 + (d.toNat - 48)) else none
        | none => none)
      (some 0)

/-- One bound of a range: `*` or a decimal number. -/
def sampleBound (s : Bytes) : Option SeqBound :=
  if s = str "*" then some .largest else (parseDecimal s).map .num

/-- A sequence-set parser for one identifier or one range `N:M`. -/
def sampleInterpretSequenceSet (s : Bytes) : Except Bytes SequenceSet :=
  match (Split s 58).map sampleBound with
  | [some a] => .ok [(a, a)]
  | [some a, some b] => .ok [(a, b)]
  | _ => .error (str "Invalid sequence set")

/-- Split at the spaces outside parentheses; `depth` counts the open parentheses and
`cur` is the token being read. -/
def sampleSplitParamsAux : Bytes → Nat → Bytes → List Bytes
  | [], _, cur => if cur = [] then [] else [cur]
  | b :: rest, depth, cur =>
    if b = 32 ∧ depth = 0 then
      (if cur = [] then sampleSplitParamsAux rest 0 []
        else cur :: sampleSplitParamsAux rest 0 [])
    else
      sampleSplitParamsAux rest (if b = 40 then depth + 1 else if b = 41 then depth - 1 else depth)
        (cur ++ [b])

/-- One line `key: value` per value of each key. -/
def sampleMIMEHeaderToString (h : MIMEHeader) : Bytes :=
  h.flatMap (fun kv => kv.2.flatMap (fun v => kv.1 ++ str ": " ++ v ++ str "\r\n"))

/-- Lower-case one byte when it is an ASCII upper-case letter. -/
def lowerByte (b : UInt8) : UInt8 :=
  if 65 ≤ b.toNat ∧ b.toNat ≤ 90 then UInt8.ofNat (b.toNat + 32) else b

/-- Upper case at the start and after each dash, lower case elsewhere. -/
def sampleCanonicalAux : Bytes → Bool → Bytes
  | [], _ => []
  | b :: rest, upper =>
    (if upper then upperByte b else lowerByte b) :: sampleCanonicalAux rest (b = 45)

/-- The sample environment. -/
def sampleEnv : Env where
  assertSelected := sampleAssertSelected
  InterpretSequenceSet := sampleInterpretSequenceSet
  SplitParams := fun s => sampleSplitParamsAux s 0 []
  MIMEHeaderToString := sampleMIMEHeaderToString
  CanonicalMIMEHeaderKey := fun s => sampleCanonicalAux s true
  RemoveFlags := fun m _ => { m with FlagStrings := m.FlagStrings.filter (· ≠ str "\\Recent") }
  Save := fun m => (some m, none)

/-- A store that knows the user `alice` with the password `secret`. -/
def sampleMailstore : Mailstore where
  Authenticate := fun username password =>
    if username = str "alice" ∧ password = str "secret" then (some ⟨username⟩, none)
    else (none, some (str "Invalid credentials"))

/-- A sample message with the given identifiers. -/
def sampleMessage (uid seq : Nat) : Message where
  UID := uid
  SequenceNumber := seq
  FlagStrings := [str "\\Recent"]
  Keywords := []
  Size := 42
  InternalDate := str "04-Nov-2026 10:00:00 +0000"
  Header := [(str "From", [str "a@example.org"]), (str "Subject", [str "Hi"])]
  Body := str "Hello"
  BodyStructure := str "(\"TEXT\" \"PLAIN\")"

/-- Does the set hold the identifier `n`, when `top` is the largest identifier? -/
def sampleInSet (top n : Nat) (set : SequenceSet) : Bool :=
  set.any (fun r =>
    let lo := match r.1 with | .num k => k | .largest => top
    let hi := match r.2 with | .num k => k | .largest => top
    decide (lo ≤ n) && decide (n ≤ hi))

/-- A mailbox holding the given messages. -/
def sampleMailbox (msgs : List Message) : Mailbox where
  MessageSetByUID := fun set =>
    msgs.filter (fun m => sampleInSet ((msgs.map (·.UID)).foldl max 0) m.UID set)
  MessageSetBySequenceNumber := fun set =>
    msgs.filter (fun m => sampleInSet msgs.length m.SequenceNumber set)

/-- Three messages with the UIDs 101, 102 and 103. -/
def sampleMessages : List Message :=
  [sampleMessage 101 1, sampleMessage 102 2, sampleMessage 103 3]

/-- A connection in `Selected` state on the sample mailbox. -/
def sampleSelected (mode : ReadWriteState) : Conn where
  state := .StateSelected
  User := some ⟨str "alice"⟩
  SelectedMailbox := some (sampleMailbox sampleMessages)
  mailboxWritable := mode
  Mailstore := sampleMailstore
  RwcScanner := []

/-- A connection in the given state with no mailbox open and the given input. -/
def sampleConn (state : ConnState) (input : List Bytes) : Conn where
  state := state
  User := none
  SelectedMailbox := none
  mailboxWritable := .readOnly
  Mailstore := sampleMailstore
  RwcScanner := input

/-- The payload `\0alice\0secret`. -/
def alicePayload : Bytes := 0 :: str "alice" ++ 0 :: str "secret"

/-- The payload `\0alice\0secret` in base64. -/
def aliceLine : Bytes := str "AGFsaWNlAHNlY3JldA=="

/-- The payload `\0alice\0wrong`. -/
def wrongPayload : Bytes := 0 :: str "alice" ++ 0 :: str "wrong"

/-- The payload `\0alice\0wrong` in base64. -/
def wrongLine : Bytes := str "AGFsaWNlAHdyb25n"

/-- Command arguments from a tag and the three arguments. -/
def sampleArgs (id uid range params : String) : CommandArgs where
  ID := str id
  Arg := fun i => if i = 0 then str uid else if i = 1 then str range else str params

/-- The sample environment with a store whose `Save` fails: it returns the nil message
and an error. -/
def failingSaveEnv : Env :=
  { sampleEnv with Save := fun _ => (none, some (str "disk full")) }

/-- A connection that is already authenticated as `alice` and has the given input. -/
def sampleAuthenticated (input : List Bytes) : Conn where
  state := .StateAuthenticated
  User := some ⟨str "alice"⟩
  SelectedMailbox := none
  mailboxWritable := .readOnly
  Mailstore := sampleMailstore
  RwcScanner := input

/-- The pairs of key and value a header holds. -/
def headerEntries (h : MIMEHeader) : List (Bytes × Bytes) :=
  h.flatMap (fun kv => kv.2.map (fun v => (kv.1, v)))

/-- The payload `\0alice\0sec ret` in base64: a password with a space. -/
def spaceLine : Bytes := str "AGFsaWNlAHNlYyByZXQ="

/-- The payload `\0al!ce\0secret` in base64: a user name outside the class of the
pattern. -/
def bangLine : Bytes := str "AGFsIWNlAHNlY3JldA=="

/-- The payload `\0u\0p\0` in base64: a NUL after the password. -/
def nulLine : Bytes := str "AHUAcAA="

/-- What `fetchParam` returns when the handler it invoked returned `r`. -/
def answer (r : Option Bytes) : Result Bytes :=
  match r with
  | some v => .ok v
  | none => .panic

/-- A token `BODY[HEADER.FIELDS (list)]`, with the `.PEEK` modifier when `peek` is set. -/
def headerFieldsToken (peek : Bool) (list : Bytes) : Bytes :=
  str "BODY" ++ ((if peek then str ".PEEK" else []) ++
    (str "[HEADER.FIELDS (" ++ (list ++ str ")]")))

/-- The attribute string `cmdFetch` hands to `fetch`: the attribute list of the command,
preceded by `UID ` in UID mode when the list does not contain `UID`. -/
def attributeString (args : CommandArgs) : Bytes :=
  (if ToUpper (args.Arg fetchArgUID) = str "UID " ∧
      Contains (args.Arg fetchArgParams) (str "UID") = false then str "UID " else []) ++
    args.Arg fetchArgParams

/-- The messages `cmdFetch` resolves the sequence set to. -/
def resolvedMessages (args : CommandArgs) (mailbox : Mailbox) (seqSet : SequenceSet) :
    List Message :=
  if ToUpper (args.Arg fetchArgUID) = str "UID " then mailbox.MessageSetByUID seqSet
  else mailbox.MessageSetBySequenceNumber seqSet

/-- Modelled from the spec: the credential grammar `[authzid]\0authcid\0password` with
authcid and password non-empty and free of NUL. The pair is made of the two fields after
the last two NUL bytes of the payload, whatever stands before them as authzid; `none`
when the payload is not of that form. -/
def specCredentials (data : Bytes) : Option (Bytes × Bytes) :=
  match (Split data 0).reverse with
  | password :: authcid :: _ :: _ =>
    if authcid ≠ [] ∧ password ≠ [] then some (authcid, password) else none
  | _ => none

/-- A store that accepts every pair. -/
def acceptingMailstore : Mailstore where
  Authenticate := fun username _ => (some ⟨username⟩, none)

/-- A connection on the store that accepts every pair. -/
def acceptingConn (input : List Bytes) : Conn where
  state := .StateNotAuthenticated
  User := none
  SelectedMailbox := none
  mailboxWritable := .readOnly
  Mailstore := acceptingMailstore
  RwcScanner := input

/-- The payload `\0alice\0secret \0` in base64: a space and a NUL after the password. -/
def trailLine : Bytes := str "AGFsaWNlAHNlY3JldCAA"

/-- The payload `\0x\0y z\0alice\0secret` in base64: an authzid with NUL bytes and a
space. -/
def zLine : Bytes := str "AHgAeSB6AGFsaWNlAHNlY3JldA=="

/-- The message whose sequence number `cmdFetch` prints in the reply for `m`: `m` itself
on a mailbox open read-only, the message `Save` returned for it on one open read-write
(`none` is the nil message). -/
def replyMessage (env : Env) (c : Conn) (m : Message) : Option Message :=
  if c.mailboxWritable = .readWrite then (env.Save (env.RemoveFlags m .FlagRecent)).1
  else some m

/-! ## Lemmas on byte strings and patterns -/

theorem isPrefixOf_append_self (p r : Bytes) : p.isPrefixOf (p ++ r) = true := by
  induction p with
  | nil => simp [List.isPrefixOf]
  | cons a p ih => simp [List.isPrefixOf, ih]

theorem afterFirst_skip (b₀ : UInt8) (pt pre content : Bytes)
    (h : ∀ b ∈ pre, b ≠ b₀) :
    afterFirst (b₀ :: pt) (pre ++ (b₀ :: pt) ++ content) = some content := by
  induction pre with
  | nil =>
    have hp := isPrefixOf_append_self (b₀ :: pt) content
    simp only [List.nil_append, List.cons_append] at hp ⊢
    simp only [afterFirst, hp, if_true]
    simp
  | cons a pre ih =>
    have ha : a ≠ b₀ := h a (List.mem_cons_self _ _)
    have hne : (b₀ :: pt).isPrefixOf (a :: (pre ++ (b₀ :: pt) ++ content)) = false := by
      simp [List.isPrefixOf, Ne.symm ha]
    simp only [List.cons_append] at hne ⊢
    rw [afterFirst, hne]
    simp only [Bool.false_eq_true, if_false]
    have := ih (fun b hb => h b (List.mem_cons_of_mem _ hb))
    simpa using this

theorem decimalCore_digits (fuel n : Nat) (ds : Bytes)
    (h : ∀ b ∈ ds, 48 ≤ b.toNat ∧ b.toNat ≤ 57) :
    ∀ b ∈ decimalCore fuel n ds, 48 ≤ b.toNat ∧ b.toNat ≤ 57 := by
  induction fuel generalizing n ds with
  | zero => simpa [decimalCore] using h
  | succ fuel ih =>
    have hd : ∀ b ∈ UInt8.ofNat (48 + n % 10) :: ds, 48 ≤ b.toNat ∧ b.toNat ≤ 57 := by
      intro b hb
      rcases List.mem_cons.1 hb with rfl | hb
      · have : n % 10 < 10 := Nat.mod_lt _ (by decide)
        have e : (UInt8.ofNat (48 + n % 10)).toNat = 48 + n % 10 := by
          simp [UInt8.toNat, UInt8.ofNat, Fin.ofNat]
          omega
        omega
      · exact h b hb
    simp only [decimalCore]
    split
    · exact hd
    · exact ih _ _ hd

theorem decimal_digits (n : Nat) : ∀ b ∈ decimal n, 48 ≤ b.toNat ∧ b.toNat ≤ 57 :=
  decimalCore_digits _ _ _ (by simp)

/-- A name without a closing brace is followed, in its literal, by the content right
after the first closing brace and line break. -/
theorem literal_afterFirst (name content : Bytes) (h : ∀ b ∈ name, b ≠ 125) :
    afterFirst (str "\x7d\r\n") (literal name content) = some content := by
  have e : str "\x7d\r\n" = 125 :: [13, 10] := by decide
  rw [e]
  unfold literal
  rw [e]
  apply afterFirst_skip
  intro b hb
  simp only [List.mem_append] at hb
  rcases hb with (hb | hb) | hb
  · exact h b hb
  · have : ∀ x ∈ str " \x7b", x ≠ 125 := by decide
    exact this b hb
  · have := decimal_digits _ b hb
    intro hb'
    subst hb'
    revert this
    decide

theorem Join_mem (l : List Bytes) (sep : Bytes) (b : UInt8) (h : b ∈ Join l sep) :
    (∃ x ∈ l, b ∈ x) ∨ b ∈ sep := by
  induction l with
  | nil => simp [Join] at h
  | cons a l ih =>
    cases l with
    | nil => exact Or.inl ⟨a, by simp, by simpa [Join] using h⟩
    | cons a' l =>
      simp only [Join, List.mem_append] at h
      rcases h with (h | h) | h
      · exact Or.inl ⟨a, by simp, h⟩
      · exact Or.inr h
      · rcases ih h with ⟨x, hx, hbx⟩ | h
        · exact Or.inl ⟨x, List.mem_cons_of_mem _ hx, hbx⟩
        · exact Or.inr h

theorem Split_mem (s : Bytes) (sep : UInt8) :
    ∀ w ∈ Split s sep, ∀ b ∈ w, b ∈ s := by
  induction s with
  | nil => simp [Split]
  | cons a s ih =>
    intro w hw b hb
    simp only [Split] at hw
    split at hw
    · rcases List.mem_cons.1 hw with rfl | hw
      · simp at hb
      · exact List.mem_cons_of_mem _ (ih w hw b hb)
    · split at hw
      · simp only [List.mem_singleton] at hw
        subst hw
        simp only [List.mem_singleton] at hb
        subst hb
        exact List.mem_cons_self _ _
      · rename_i w₀ ws hs
        rcases List.mem_cons.1 hw with rfl | hw
        · rcases List.mem_cons.1 hb with rfl | hb
          · exact List.mem_cons_self _ _
          · exact List.mem_cons_of_mem _ (ih w₀ (by rw [hs]; exact List.mem_cons_self _ _) b hb)
        · exact List.mem_cons_of_mem _ (ih w (by rw [hs]; exact List.mem_cons_of_mem _ hw) b hb)

theorem fieldsLoop_fst (env : Env) (hdrs : MIMEHeader) (fields acc : List Bytes)
    (req : MIMEHeader) :
    (fieldsLoop env hdrs fields acc req).1 =
      acc ++ fields.map (fun key => str "\"" ++ key ++ str "\"") := by
  induction fields generalizing acc req with
  | nil => simp [fieldsLoop]
  | cons key rest ih => simp [fieldsLoop, ih]

theorem fieldClass_ne_brace (b : UInt8) (h : fieldClass b = true) : b ≠ 125 := by
  intro hb
  subst hb
  revert h
  decide

theorem starK_some (cls : UInt8 → Bool) (s : Bytes) (caps : List Bytes)
    (k : Bytes → List Bytes → Option (Bytes × List Bytes)) (res : Bytes × List Bytes)
    (h : starK cls s caps k = some res) :
    ∃ n, n ≤ s.length ∧ (∀ b ∈ s.take n, cls b = true) ∧ k (s.drop n) caps = some res := by
  induction s with
  | nil => exact ⟨0, by simp, by simp, by simpa [starK] using h⟩
  | cons a s ih =>
    simp only [starK] at h
    split at h
    · rename_i ha
      cases hs : starK cls s caps k with
      | some r =>
        rw [hs] at h
        simp only [Option.orElse] at h
        obtain ⟨n, hn, hall, hk⟩ := ih (by rw [hs, ← h])
        refine ⟨n + 1, by simpa using hn, ?_, by simpa using hk⟩
        intro b hb
        simp only [List.take_succ_cons, List.mem_cons] at hb
        rcases hb with rfl | hb
        · exact ha
        · exact hall b hb
      | none =>
        rw [hs] at h
        simp only [Option.orElse] at h
        exact ⟨0, by simp, by simp, by simpa using h⟩
    · exact ⟨0, by simp, by simp, by simpa using h⟩

theorem lit_inv (bs s : Bytes) (caps : List Bytes)
    (k : Bytes → List Bytes → Option (Bytes × List Bytes)) (res : Bytes × List Bytes)
    (h : (Regexp.lit bs).matchK s caps k = some res) :
    bs.isPrefixOf s = true ∧ k (s.drop bs.length) caps = some res := by
  rw [Regexp.matchK] at h
  split at h
  · exact ⟨by assumption, h⟩
  · simp at h

theorem opt_inv (r : Regexp) (s : Bytes) (caps : List Bytes)
    (k : Bytes → List Bytes → Option (Bytes × List Bytes)) (res : Bytes × List Bytes)
    (h : (Regexp.opt r).matchK s caps k = some res) :
    r.matchK s caps k = some res ∨ k s caps = some res := by
  rw [Regexp.matchK] at h
  cases hr : r.matchK s caps k with
  | some o =>
    rw [hr] at h
    simp only [Option.orElse] at h
    exact Or.inl (by rw [h])
  | none =>
    rw [hr] at h
    simp only [Option.orElse] at h
    exact Or.inr h

theorem seq_eq (r₁ r₂ : Regexp) (s : Bytes) (caps : List Bytes)
    (k : Bytes → List Bytes → Option (Bytes × List Bytes)) :
    (Regexp.seq r₁ r₂).matchK s caps k =
      r₁.matchK s caps (fun s' caps' => r₂.matchK s' caps' k) := by
  rw [Regexp.matchK]

theorem plus_inv (cls : UInt8 → Bool) (s : Bytes) (caps : List Bytes)
    (k : Bytes → List Bytes → Option (Bytes × List Bytes)) (res : Bytes × List Bytes)
    (h : (Regexp.plus cls).matchK s caps k = some res) :
    ∃ n, n < s.length ∧ (∀ b ∈ s.take (n + 1), cls b = true) ∧
      k (s.drop (n + 1)) caps = some res := by
  cases s with
  | nil => simp [Regexp.matchK] at h
  | cons a s =>
    simp only [Regexp.matchK] at h
    split at h
    · rename_i ha
      obtain ⟨n, hn, hall, hk⟩ := starK_some _ _ _ _ _ h
      refine ⟨n, by simpa using Nat.lt_succ_of_le hn, ?_, by simpa using hk⟩
      intro b hb
      simp only [List.take_succ_cons, List.mem_cons] at hb
      rcases hb with rfl | hb
      · exact ha
      · exact hall b hb
    · simp at h

theorem cap_eq (i : Nat) (r : Regexp) (s : Bytes) (caps : List Bytes)
    (k : Bytes → List Bytes → Option (Bytes × List Bytes)) :
    (Regexp.cap i r).matchK s caps k =
      r.matchK s caps
        (fun s' caps' => k s' (caps'.set (i - 1) (s.take (s.length - s'.length)))) := by
  rw [Regexp.matchK]

/-- The group of `(cls+)` followed by a literal: what is captured is a non-empty run of
the class. -/
theorem capPlus_some (cls : UInt8 → Bool) (s : Bytes) (c₀ : Bytes) (lit : Bytes)
    (res : Bytes × List Bytes)
    (h : (Regexp.seq (.cap 1 (.plus cls)) (.lit lit)).matchK s [c₀]
      (fun s' caps => some (s', caps)) = some res) :
    ∃ g, res.2 = [g] ∧ g ≠ [] ∧ ∀ b ∈ g, cls b = true := by
  rw [seq_eq, cap_eq] at h
  obtain ⟨n, hn, hall, hk⟩ := plus_inv _ _ _ _ _ h
  obtain ⟨-, hk⟩ := lit_inv _ _ _ _ _ hk
  simp only [Option.some.injEq] at hk
  subst hk
  have e : s.length - (List.drop (n + 1) s).length = n + 1 := by
    simp only [List.length_drop]
    omega
  rw [e]
  refine ⟨s.take (n + 1), by simp [List.set], ?_, hall⟩
  intro h0
  have := congrArg List.length h0
  simp only [List.length_take, List.length_nil] at this
  omega

theorem find_some (r : Regexp) (s : Bytes) (out : List Bytes) (h : r.find s = some out) :
    ∃ t, t <:+ s ∧ r.matchAt t = some out := by
  induction s with
  | nil => exact ⟨[], List.suffix_refl _, by simpa [Regexp.find] using h⟩
  | cons a s ih =>
    simp only [Regexp.find] at h
    cases hm : r.matchAt (a :: s) with
    | some o =>
      rw [hm] at h
      simp only [Option.orElse] at h
      exact ⟨a :: s, List.suffix_refl _, by rw [hm, h]⟩
    | none =>
      rw [hm] at h
      simp only [Option.orElse] at h
      obtain ⟨t, ht, hmt⟩ := ih h
      exact ⟨t, ht.trans (List.suffix_cons a s), hmt⟩

/-- Every match of the `HEADER.FIELDS` pattern captures one group, a non-empty run of
bytes of the class `[A-z\s-]`. -/
theorem headerFieldsRE_find (s : Bytes) (out : List Bytes)
    (h : headerFieldsRE.find s = some out) :
    ∃ whole g, out = [whole, g] ∧ g ≠ [] ∧ ∀ b ∈ g, fieldClass b = true := by
  obtain ⟨t, -, hm⟩ := find_some _ _ _ h
  simp only [Regexp.matchAt] at hm
  split at hm
  · rename_i s' caps hk
    simp only [Option.some.injEq] at hm
    subst hm
    have hn : List.replicate headerFieldsRE.numCap ([] : Bytes) = [[]] := by decide
    rw [hn] at hk
    have key : ∀ u, (Regexp.seq (.lit (str "[HEADER.FIELDS (")) (.seq (.cap 1 (.plus fieldClass))
        (.lit (str ")]")))).matchK u [[]] (fun s' caps => some (s', caps)) = some (s', caps) →
        ∃ g, caps = [g] ∧ g ≠ [] ∧ ∀ b ∈ g, fieldClass b = true := by
      intro u hu
      rw [seq_eq] at hu
      exact capPlus_some _ _ _ _ _ (lit_inv _ _ _ _ _ hu).2
    have : ∃ g, caps = [g] ∧ g ≠ [] ∧ ∀ b ∈ g, fieldClass b = true := by
      simp only [headerFieldsRE, bodyRE] at hk
      rw [seq_eq] at hk
      have h1 := (lit_inv _ _ _ _ _ hk).2
      rw [seq_eq] at h1
      rcases opt_inv _ _ _ _ _ h1 with h2 | h2
      · exact key _ (lit_inv _ _ _ _ _ h2).2
      · exact key _ h2
    obtain ⟨g, rfl, hg⟩ := this
    exact ⟨_, g, rfl, hg⟩
  · simp at hm


/-! ## Lemmas on the dispatch of FETCH attributes -/

/-- Every registered handler returns a fragment on the groups of a match of its own
pattern: the dispatch never panics. -/
theorem registered_handlers_total (d : fetchParamDefinition) (hd : d ∈ registeredFetchParams)
    (env : Env) (param : Bytes) (c : Conn) (m : Message) (peek : Bool)
    (hmatch : d.re.MatchString param = true) :
    ∃ r, d.handler env (d.re.FindStringSubmatch param) c m peek = some r := by
  simp only [registeredFetchParams, List.mem_cons, List.mem_singleton, List.not_mem_nil,
    or_false] at hd
  rcases hd with rfl | rfl | rfl | rfl | rfl | rfl | rfl | rfl | rfl
  · exact ⟨_, rfl⟩
  · exact ⟨_, rfl⟩
  · exact ⟨_, rfl⟩
  · exact ⟨_, rfl⟩
  · exact ⟨_, rfl⟩
  · cases hf : headerFieldsRE.find param with
    | none => simp [Regexp.MatchString, hf] at hmatch
    | some out =>
      obtain ⟨whole, list, rfl, -, -⟩ := headerFieldsRE_find _ _ hf
      have hsub : headerFieldsRE.FindStringSubmatch param = [whole, list] := by
        simp [Regexp.FindStringSubmatch, hf]
      simp only [hsub, fetchHeaderSpecificFields]
      exact ⟨_, rfl⟩
  · exact ⟨_, rfl⟩
  · exact ⟨_, rfl⟩
  · exact ⟨_, rfl⟩

/-- The search through a part of the registry ends with a fragment or with
`ErrUnrecognisedParameter`, the latter exactly when no pattern matches. -/
theorem fetchParamLoop_cases (env : Env) (param : Bytes) (c : Conn) (m : Message) (peek : Bool)
    (l : List fetchParamDefinition) (hl : ∀ d ∈ l, d ∈ registeredFetchParams) :
    ((∀ d ∈ l, d.re.MatchString param = false) ∧
        fetchParamLoop env param c m peek l = .err .ErrUnrecognisedParameter) ∨
      ((∃ d ∈ l, d.re.MatchString param = true) ∧
        ∃ r, fetchParamLoop env param c m peek l = .ok r) := by
  induction l with
  | nil => exact Or.inl ⟨by simp, rfl⟩
  | cons d l ih =>
    by_cases hmatch : d.re.MatchString param = true
    · obtain ⟨r, hr⟩ := registered_handlers_total d (hl d (List.mem_cons_self _ _)) env param c m
        peek hmatch
      exact Or.inr ⟨⟨d, List.mem_cons_self _ _, hmatch⟩, r, by simp [fetchParamLoop, hmatch, hr]⟩
    · have hfalse : d.re.MatchString param = false := by simpa using hmatch
      rcases ih (fun d' hd' => hl d' (List.mem_cons_of_mem _ hd')) with ⟨hall, he⟩ | ⟨⟨d', hd', hm'⟩, r, hr⟩
      · refine Or.inl ⟨?_, by simp [fetchParamLoop, hfalse, he]⟩
        intro d' hd'
        rcases List.mem_cons.1 hd' with rfl | hd'
        · exact hfalse
        · exact hall d' hd'
      · exact Or.inr ⟨⟨d', List.mem_cons_of_mem _ hd', hm'⟩, r,
          by simp [fetchParamLoop, hfalse, hr]⟩

/-- Outcome of `fetchParam`: the error when no registered pattern matches the token, a
fragment otherwise. -/
theorem fetchParam_cases (env : Env) (param : Bytes) (c : Conn) (m : Message) :
    ((∀ d ∈ registeredFetchParams, d.re.MatchString param = false) ∧
        fetchParam env param c m = .err .ErrUnrecognisedParameter) ∨
      ((∃ d ∈ registeredFetchParams, d.re.MatchString param = true) ∧
        ∃ r, fetchParam env param c m = .ok r) :=
  fetchParamLoop_cases env param c m _ registeredFetchParams (fun _ h => h)

/-- A token that no registered pattern matches makes the loop of `fetch` fail. -/
theorem fetchLoop_unrecognised (env : Env) (c : Conn) (m : Message) (toks acc : List Bytes)
    (t : Bytes) (ht : t ∈ toks)
    (hno : ∀ d ∈ registeredFetchParams, d.re.MatchString t = false) :
    fetchLoop env c m toks acc = .err .ErrUnrecognisedParameter := by
  induction toks generalizing acc with
  | nil => simp at ht
  | cons p rest ih =>
    rcases fetchParam_cases env p c m with ⟨-, he⟩ | ⟨⟨d, hd, hm⟩, r, hr⟩
    · simp [fetchLoop, he]
    · have hne : p ≠ t := by
        rintro rfl
        rw [hno d hd] at hm
        exact Bool.noConfusion hm
      have ht' : t ∈ rest := by
        rcases List.mem_cons.1 ht with h | h
        · exact absurd h.symm hne
        · exact h
      simp only [fetchLoop, hr]
      exact ih _ ht'

/-- On a non-empty message list, an attribute list with a token that no registered
pattern matches ends `cmdFetch` at the first message with the tagged
`BAD Unrecognised Parameter`. -/
theorem cmdFetchLoop_unrecognised (env : Env) (args : CommandArgs) (c : Conn) (params : Bytes)
    (msg : Message) (rest : List Message) (out : List Event) (t : Bytes)
    (ht : t ∈ env.SplitParams params)
    (hno : ∀ d ∈ registeredFetchParams, d.re.MatchString t = false) :
    cmdFetchLoop env args c params (msg :: rest) out =
      ⟨c, out ++ [.write args.ID (str "BAD Unrecognised Parameter")], false⟩ := by
  simp [cmdFetchLoop, fetch, fetchLoop_unrecognised env c msg _ [] t ht hno]

/-- On a mailbox open read-only the loop of `cmdFetch` only adds response lines to the
trace: it calls neither `RemoveFlags` nor `Save`. -/
theorem cmdFetchLoop_readOnly (env : Env) (args : CommandArgs) (c : Conn) (params : Bytes)
    (hro : c.mailboxWritable = .readOnly) (msgs : List Message) (out : List Event) :
    ∀ e ∈ (cmdFetchLoop env args c params msgs out).trace,
      e ∈ out ∨ ∃ seq command, e = .write seq command := by
  induction msgs generalizing out with
  | nil =>
    intro e he
    simp only [cmdFetchLoop, List.mem_append, List.mem_singleton] at he
    rcases he with he | he
    · exact Or.inl he
    · exact Or.inr ⟨_, _, he⟩
  | cons msg rest ih =>
    intro e he
    simp only [cmdFetchLoop, hro] at he
    split at he
    · exact Or.inl he
    · simp only [List.mem_append, List.mem_singleton] at he
      rcases he with he | he
      · exact Or.inl he
      · exact Or.inr ⟨_, _, he⟩
    · simp only [List.mem_append, List.mem_singleton] at he
      rcases he with he | he
      · exact Or.inl he
      · exact Or.inr ⟨_, _, he⟩
    · simp only [reduceCtorEq, if_false] at he
      rcases ih _ e he with h | h
      · simp only [List.mem_append, List.mem_singleton] at h
        rcases h with h | h
        · exact Or.inl h
        · exact Or.inr ⟨_, _, h⟩
      · exact Or.inr h

/-! ## Claims -/

/-- C1: every literal-returning FETCH handler (`fetchHeaders`, `fetchBody`,
`fetchFullText`, `fetchBodyStructure`, and `fetchHeaderSpecificFields` on the groups its
pattern captures from a token) returns `NAME {n}\r\n` followed by the content, where
`n` is the byte length of the content and the content is everything that follows the
first closing brace and line break, for any header renderer, body and structure. -/
theorem fetch_literal_framing (env : Env) (c : Conn) (m : Message) (peekOnly : Bool)
    (args : List Bytes) (param : Bytes) (h : headerFieldsRE.MatchString param = true) :
    FramedAs (str "BODY[HEADER]") (env.MIMEHeaderToString m.Header ++ str "\r\n")
        (fetchHeaders env args c m peekOnly) ∧
      FramedAs (str "BODY[TEXT]") (m.Body ++ str "\r\n") (fetchBody env args c m peekOnly) ∧
      FramedAs (str "BODY[]") (env.MIMEHeaderToString m.Header ++ m.Body ++ str "\r\n")
        (fetchFullText env args c m peekOnly) ∧
      FramedAs (str "BODYSTRUCTURE") (m.BodyStructure ++ str "\r\n")
        (fetchBodyStructure env args c m peekOnly) ∧
      ∃ whole list, headerFieldsRE.FindStringSubmatch param = [whole, list] ∧
        FramedAs (str "BODY[HEADER.FIELDS (" ++ Join (quotedFields list) (str " ") ++ str ")]")
          (env.MIMEHeaderToString (fieldsLoop env m.Header (Split list 32) [] []).2)
          (fetchHeaderSpecificFields env (headerFieldsRE.FindStringSubmatch param) c m
            peekOnly) := by
  refine ⟨⟨?_, literal_afterFirst _ _ (by decide)⟩, ⟨?_, literal_afterFirst _ _ (by decide)⟩,
    ⟨?_, literal_afterFirst _ _ (by decide)⟩, ⟨?_, literal_afterFirst _ _ (by decide)⟩, ?_⟩
  · have e : str "BODY" ++ str "" ++ str "[HEADER] \x7b" = str "BODY[HEADER]" ++ str " \x7b" := by
      decide
    simp only [fetchHeaders, literal, e]
  · have e : str "BODY[TEXT] \x7b" = str "BODY[TEXT]" ++ str " \x7b" := by decide
    simp only [fetchBody, literal, e]
  · have e : str "BODY[] \x7b" = str "BODY[]" ++ str " \x7b" := by decide
    simp only [fetchFullText, literal, e]
  · have e : str "BODYSTRUCTURE \x7b" = str "BODYSTRUCTURE" ++ str " \x7b" := by decide
    simp only [fetchBodyStructure, literal, e]
  · cases hf : headerFieldsRE.find param with
    | none => simp [Regexp.MatchString, hf] at h
    | some out =>
      obtain ⟨whole, list, rfl, -, hcls⟩ := headerFieldsRE_find _ _ hf
      have hsub : headerFieldsRE.FindStringSubmatch param = [whole, list] := by
        simp [Regexp.FindStringSubmatch, hf]
      refine ⟨whole, list, hsub, ?_, literal_afterFirst _ _ ?_⟩
      · have e : str ")] \x7b" = str ")]" ++ str " \x7b" := by decide
        rw [hsub]
        simp only [fetchHeaderSpecificFields, literal, quotedFields, fieldsLoop_fst, e,
          List.nil_append, List.append_assoc]
      · intro b hb
        simp only [List.mem_append] at hb
        rcases hb with (hb | hb) | hb
        · have : ∀ x ∈ str "BODY[HEADER.FIELDS (", x ≠ 125 := by decide
          exact this b hb
        · rcases Join_mem _ _ _ hb with ⟨x, hx, hbx⟩ | hb
          · simp only [quotedFields, List.mem_map] at hx
            obtain ⟨key, hkey, rfl⟩ := hx
            simp only [List.mem_append] at hbx
            rcases hbx with (hbx | hbx) | hbx
            · have : ∀ x ∈ str "\"", x ≠ 125 := by decide
              exact this b hbx
            · exact fieldClass_ne_brace b (hcls b (Split_mem _ _ key hkey b hbx))
            · have : ∀ x ∈ str "\"", x ≠ 125 := by decide
              exact this b hbx
          · have : ∀ x ∈ str " ", x ≠ 125 := by decide
            exact this b hb
        · have : ∀ x ∈ str ")]", x ≠ 125 := by decide
          exact this b hb

/-- C1 at the token `BODY.PEEK[HEADER.FIELDS (From To)]` on a sample message. -/
theorem fetch_literal_framing_witness :
    headerFieldsRE.MatchString (str "BODY.PEEK[HEADER.FIELDS (From To)]") = true ∧
      (FramedAs (str "BODY[HEADER]")
          (sampleEnv.MIMEHeaderToString (sampleMessage 101 1).Header ++ str "\r\n")
          (fetchHeaders sampleEnv [] (sampleSelected .readOnly) (sampleMessage 101 1) true) ∧
        FramedAs (str "BODY[TEXT]") ((sampleMessage 101 1).Body ++ str "\r\n")
          (fetchBody sampleEnv [] (sampleSelected .readOnly) (sampleMessage 101 1) true) ∧
        FramedAs (str "BODY[]")
          (sampleEnv.MIMEHeaderToString (sampleMessage 101 1).Header ++
            (sampleMessage 101 1).Body ++ str "\r\n")
          (fetchFullText sampleEnv [] (sampleSelected .readOnly) (sampleMessage 101 1) true) ∧
        FramedAs (str "BODYSTRUCTURE") ((sampleMessage 101 1).BodyStructure ++ str "\r\n")
          (fetchBodyStructure sampleEnv [] (sampleSelected .readOnly) (sampleMessage 101 1)
            true) ∧
        ∃ whole list,
          headerFieldsRE.FindStringSubmatch (str "BODY.PEEK[HEADER.FIELDS (From To)]") =
            [whole, list] ∧
          FramedAs
            (str "BODY[HEADER.FIELDS (" ++ Join (quotedFields list) (str " ") ++ str ")]")
            (sampleEnv.MIMEHeaderToString
              (fieldsLoop sampleEnv (sampleMessage 101 1).Header (Split list 32) [] []).2)
            (fetchHeaderSpecificFields sampleEnv
              (headerFieldsRE.FindStringSubmatch (str "BODY.PEEK[HEADER.FIELDS (From To)]"))
              (sampleSelected .readOnly) (sampleMessage 101 1) true)) :=
  ⟨by decide, fetch_literal_framing _ _ _ _ _ _ (by decide)⟩

/-- C2 as stated fails: with the sample renderer the fragment of `fetchHeaders` is not
the header block `H` followed by two line breaks under the declared length `L+2`, neither
when `H` is the rendered block nor when `H` is the block without the line break that ends
its last line. -/
theorem fetchHeaders_two_breaks_counterexample :
    fetchHeaders sampleEnv [] (sampleSelected .readOnly) (sampleMessage 101 1) false ≠
      some (str "BODY[HEADER] \x7b" ++
        decimal ((sampleEnv.MIMEHeaderToString (sampleMessage 101 1).Header).length + 2) ++
        str "\x7d\r\n" ++ sampleEnv.MIMEHeaderToString (sampleMessage 101 1).Header ++
        str "\r\n\r\n") ∧
      fetchHeaders sampleEnv [] (sampleSelected .readOnly) (sampleMessage 101 1) false ≠
        some (str "BODY[HEADER] \x7b" ++
          decimal ((sampleEnv.MIMEHeaderToString
            (sampleMessage 101 1).Header).dropLast.dropLast.length + 2) ++
          str "\x7d\r\n" ++
          (sampleEnv.MIMEHeaderToString (sampleMessage 101 1).Header).dropLast.dropLast ++
          str "\r\n\r\n") := by
  decide

/-- C2 (amended): for a rendered header block `H` of byte length `L`, `fetchHeaders`,
also when reached through the tokens `BODY[HEADER]` and `BODY.PEEK[HEADER]`, returns
exactly `BODY[HEADER] {L+2}\r\n` followed by `H` and one line break, and `L+2` is the
number of bytes after that prefix. -/
theorem fetchHeaders_fragment (env : Env) (c : Conn) (m : Message) (peekOnly : Bool)
    (args : List Bytes) :
    fetchHeaders env args c m peekOnly =
        some (str "BODY[HEADER] \x7b" ++ decimal ((env.MIMEHeaderToString m.Header).length + 2) ++
          str "\x7d\r\n" ++ (env.MIMEHeaderToString m.Header ++ str "\r\n")) ∧
      fetchParam env (str "BODY[HEADER]") c m =
        .ok (str "BODY[HEADER] \x7b" ++ decimal ((env.MIMEHeaderToString m.Header).length + 2) ++
          str "\x7d\r\n" ++ (env.MIMEHeaderToString m.Header ++ str "\r\n")) ∧
      fetchParam env (str "BODY.PEEK[HEADER]") c m =
        .ok (str "BODY[HEADER] \x7b" ++ decimal ((env.MIMEHeaderToString m.Header).length + 2) ++
          str "\x7d\r\n" ++ (env.MIMEHeaderToString m.Header ++ str "\r\n")) ∧
      (env.MIMEHeaderToString m.Header ++ str "\r\n").length =
        (env.MIMEHeaderToString m.Header).length + 2 := by
  have hlen : (env.MIMEHeaderToString m.Header ++ str "\r\n").length =
      (env.MIMEHeaderToString m.Header).length + 2 := by
    rw [List.length_append]
    rfl
  have hfrag : ∀ (a : List Bytes) (p : Bool), fetchHeaders env a c m p =
      some (str "BODY[HEADER] \x7b" ++ decimal ((env.MIMEHeaderToString m.Header).length + 2) ++
        str "\x7d\r\n" ++ (env.MIMEHeaderToString m.Header ++ str "\r\n")) := by
    intro a p
    have e : str "BODY" ++ str "" ++ str "[HEADER] \x7b" = str "BODY[HEADER] \x7b" := by decide
    simp only [fetchHeaders, e, hlen]
  refine ⟨hfrag _ _, ?_, ?_, hlen⟩
  · have h1 : uidRE.MatchString (str "BODY[HEADER]") = false := by decide
    have h2 : flagsRE.MatchString (str "BODY[HEADER]") = false := by decide
    have h3 : rfcSizeRE.MatchString (str "BODY[HEADER]") = false := by decide
    have h4 : internalDateRE.MatchString (str "BODY[HEADER]") = false := by decide
    have h5 : headersRE.MatchString (str "BODY[HEADER]") = true := by decide
    simp only [fetchParam, registeredFetchParams, fetchParamLoop, h1, h2, h3, h4, h5, hfrag,
      Bool.false_eq_true, if_false, if_true]
  · have h1 : uidRE.MatchString (str "BODY.PEEK[HEADER]") = false := by decide
    have h2 : flagsRE.MatchString (str "BODY.PEEK[HEADER]") = false := by decide
    have h3 : rfcSizeRE.MatchString (str "BODY.PEEK[HEADER]") = false := by decide
    have h4 : internalDateRE.MatchString (str "BODY.PEEK[HEADER]") = false := by decide
    have h5 : headersRE.MatchString (str "BODY.PEEK[HEADER]") = true := by decide
    simp only [fetchParam, registeredFetchParams, fetchParamLoop, h1, h2, h3, h4, h5, hfrag,
      Bool.false_eq_true, if_false, if_true]

/-- C3 at a failing input: the token `FOO` matches no registered pattern, the sequence
set `7` resolves to no message of the sample mailbox, and `cmdFetch` ends with the tagged
`OK FETCH Completed`, not with `BAD Unrecognised Parameter`. -/
theorem cmdFetch_unrecognised_empty_set :
    (∀ d ∈ registeredFetchParams, d.re.MatchString (str "FOO") = false) ∧
      sampleEnv.SplitParams (str "FOO") = [str "FOO"] ∧
      (cmdFetch sampleEnv (sampleArgs "a1" "" "7" "FOO") (sampleSelected .readOnly)).trace =
        [.messageSetBySequenceNumber [(.num 7, .num 7)],
          .write (str "a1") (str "OK FETCH Completed")] := by
  decide

/-- A payload the login pattern does not match fails the test `len(match) != 3`. -/
theorem cmdAuthPlain_no_match (args : CommandArgs) (c : Conn) (line : Bytes)
    (pending : List Bytes) (data : Bytes)
    (hin : c.RwcScanner = line :: pending) (hdec : DecodeString line = some data)
    (hre : (loginRE.FindStringSubmatch data).length ≠ 3) :
    cmdAuthPlain args c =
      ⟨{ c with RwcScanner := pending },
        [.write (str "+") (str ""), .transcript (str "C: " ++ line),
          .transcript (str " (decoded) " ++ data ++ str "\n"),
          .write args.ID (str "NO Incorrect username/password")], false⟩ := by
  simp only [cmdAuthPlain, hin, hdec]
  split
  · rename_i heq
    rw [heq] at hre
    simp at hre
  · simp

/-- C5 (amended): with the same tag, a payload in which the login pattern finds no match
(the test `len(match) != 3` of the code) and a payload in which it finds one whose groups
`Authenticate` rejects give the same lines to the client, the continuation and the tagged
`NO Incorrect username/password`, hence the same bytes under every writer of response
lines. -/
theorem cmdAuthPlain_failures_indistinguishable (args : CommandArgs) (c₁ c₂ : Conn)
    (line₁ line₂ : Bytes) (pending₁ pending₂ : List Bytes)
    (data₁ data₂ whole username password : Bytes)
    (hin₁ : c₁.RwcScanner = line₁ :: pending₁) (hin₂ : c₂.RwcScanner = line₂ :: pending₂)
    (hdec₁ : DecodeString line₁ = some data₁) (hdec₂ : DecodeString line₂ = some data₂)
    (hbad : (loginRE.FindStringSubmatch data₁).length ≠ 3)
    (hre : loginRE.FindStringSubmatch data₂ = [whole, username, password])
    (hrej : (c₂.Mailstore.Authenticate username password).2 ≠ none) :
    clientOutput (cmdAuthPlain args c₁).trace =
        [(str "+", str ""), (args.ID, str "NO Incorrect username/password")] ∧
      clientOutput (cmdAuthPlain args c₂).trace =
        [(str "+", str ""), (args.ID, str "NO Incorrect username/password")] ∧
      ∀ w : Bytes → Bytes → Bytes,
        wireOutput w (cmdAuthPlain args c₁).trace = wireOutput w (cmdAuthPlain args c₂).trace := by
  have h₁ : clientOutput (cmdAuthPlain args c₁).trace =
      [(str "+", str ""), (args.ID, str "NO Incorrect username/password")] := by
    rw [cmdAuthPlain_no_match args c₁ line₁ pending₁ data₁ hin₁ hdec₁ hbad]
    simp [clientOutput]
  have h₂ : clientOutput (cmdAuthPlain args c₂).trace =
      [(str "+", str ""), (args.ID, str "NO Incorrect username/password")] := by
    cases hr : (c₂.Mailstore.Authenticate username password).2 with
    | none => exact absurd hr hrej
    | some e => simp [cmdAuthPlain, hin₂, hdec₂, hre, hr, clientOutput]
  exact ⟨h₁, h₂, fun w => by simp only [wireOutput, h₁, h₂]⟩

/-- C5 (amended) on the sample store: the line `aGVsbG8=` (`hello`) fails the pattern,
the line of `\0alice\0wrong` matches it and is rejected. -/
theorem cmdAuthPlain_failures_indistinguishable_witness :
    (sampleConn .StateNotAuthenticated [str "aGVsbG8="]).RwcScanner = str "aGVsbG8=" :: [] ∧
      (sampleConn .StateNotAuthenticated [wrongLine]).RwcScanner = wrongLine :: [] ∧
      DecodeString (str "aGVsbG8=") = some (str "hello") ∧
      DecodeString wrongLine = some wrongPayload ∧
      (loginRE.FindStringSubmatch (str "hello")).length ≠ 3 ∧
      loginRE.FindStringSubmatch wrongPayload = [wrongPayload, str "alice", str "wrong"] ∧
      ((sampleConn .StateNotAuthenticated [wrongLine]).Mailstore.Authenticate (str "alice")
        (str "wrong")).2 ≠ none ∧
      (clientOutput (cmdAuthPlain (sampleArgs "a1" "PLAIN" "" "")
          (sampleConn .StateNotAuthenticated [str "aGVsbG8="])).trace =
          [(str "+", str ""),
            ((sampleArgs "a1" "PLAIN" "" "").ID, str "NO Incorrect username/password")] ∧
        clientOutput (cmdAuthPlain (sampleArgs "a1" "PLAIN" "" "")
          (sampleConn .StateNotAuthenticated [wrongLine])).trace =
          [(str "+", str ""),
            ((sampleArgs "a1" "PLAIN" "" "").ID, str "NO Incorrect username/password")] ∧
        ∀ w : Bytes → Bytes → Bytes,
          wireOutput w (cmdAuthPlain (sampleArgs "a1" "PLAIN" "" "")
            (sampleConn .StateNotAuthenticated [str "aGVsbG8="])).trace =
          wireOutput w (cmdAuthPlain (sampleArgs "a1" "PLAIN" "" "")
            (sampleConn .StateNotAuthenticated [wrongLine])).trace) :=
  ⟨rfl, rfl, by decide, by decide, by decide, by decide, by decide,
    cmdAuthPlain_failures_indistinguishable (sampleArgs "a1" "PLAIN" "" "")
      (sampleConn .StateNotAuthenticated [str "aGVsbG8="])
      (sampleConn .StateNotAuthenticated [wrongLine]) (str "aGVsbG8=") wrongLine [] []
      (str "hello") wrongPayload wrongPayload (str "alice") (str "wrong") rfl rfl
      (by decide) (by decide) (by decide) (by decide) (by decide)⟩

/-- C6 at a failing input: for the tag `a1` and the continuation line `!!!`, which is
not base64, `cmdAuthPlain` passes the empty tag to `writeResponse` for the `BAD` line,
not the tag of the command; `Authenticate` is not called and the state is kept. -/
theorem cmdAuthPlain_bad_is_untagged :
    DecodeString (str "!!!") = none ∧
      (cmdAuthPlain (sampleArgs "a1" "PLAIN" "" "")
          (sampleConn .StateNotAuthenticated [str "!!!"])).trace =
        [.write (str "+") (str ""), .transcript (str "C: !!!"),
          .write (str "") (str "BAD Invalid auth details")] ∧
      (sampleArgs "a1" "PLAIN" "" "").ID ≠ str "" ∧
      (cmdAuthPlain (sampleArgs "a1" "PLAIN" "" "")
          (sampleConn .StateNotAuthenticated [str "!!!"])).conn.state =
        .StateNotAuthenticated := by
  decide

/-- C7: when `assertSelected` reports failure, `cmdFetch` and `cmdSearch` return at once:
the connection is the one they were given and the trace is what the guard wrote, with no
lookup, no message call and no response line of their own. -/
theorem guard_failure_returns (env : Env) (args : CommandArgs) (c : Conn)
    (h : (env.assertSelected c args.ID .readOnly).1 = false) :
    cmdFetch env args c = ⟨c, (env.assertSelected c args.ID .readOnly).2, false⟩ ∧
      cmdSearch env args c = ⟨c, (env.assertSelected c args.ID .readOnly).2, false⟩ := by
  constructor
  · simp [cmdFetch, h]
  · simp [cmdSearch, h]

/-- C7 on a connection that is `Authenticated` with no mailbox open. -/
theorem guard_failure_returns_witness :
    (sampleEnv.assertSelected (sampleConn .StateAuthenticated []) (sampleArgs "a1" "" "1:*" "UID").ID
        .readOnly).1 = false ∧
      (cmdFetch sampleEnv (sampleArgs "a1" "" "1:*" "UID") (sampleConn .StateAuthenticated []) =
          ⟨sampleConn .StateAuthenticated [],
            (sampleEnv.assertSelected (sampleConn .StateAuthenticated [])
              (sampleArgs "a1" "" "1:*" "UID").ID .readOnly).2, false⟩ ∧
        cmdSearch sampleEnv (sampleArgs "a1" "" "1:*" "UID") (sampleConn .StateAuthenticated []) =
          ⟨sampleConn .StateAuthenticated [],
            (sampleEnv.assertSelected (sampleConn .StateAuthenticated [])
              (sampleArgs "a1" "" "1:*" "UID").ID .readOnly).2, false⟩) :=
  ⟨by decide, guard_failure_returns sampleEnv (sampleArgs "a1" "" "1:*" "UID")
    (sampleConn .StateAuthenticated []) (by decide)⟩

/-- C8: past the guard and with a well-formed sequence set, `cmdSearch` on the predicate
`NOT DELETED` writes the untagged line `SEARCH ` followed by the decimal UIDs of the
resolved messages, in order and separated by single spaces, and on `DELETED` the untagged
line `SEARCH ` with no identifier; both are followed by the tagged `OK SEARCH Completed`
and nothing else. -/
theorem cmdSearch_results (env : Env) (args : CommandArgs) (c : Conn) (seqSet : SequenceSet)
    (mailbox : Mailbox)
    (hg : (env.assertSelected c args.ID .readOnly).1 = true)
    (hs : env.InterpretSequenceSet (args.Arg searchArgRange) = .ok seqSet)
    (hm : c.SelectedMailbox = some mailbox)
    (hp : args.Arg searchArgParams = str "NOT DELETED" ∨
      args.Arg searchArgParams = str "DELETED") :
    (cmdSearch env args c).trace =
      (env.assertSelected c args.ID .readOnly).2 ++
        [if ToUpper (args.Arg searchArgUID) = str "UID " then .messageSetByUID seqSet
            else .messageSetBySequenceNumber seqSet,
          .write (str "*") (str "SEARCH " ++
            (if args.Arg searchArgParams = str "NOT DELETED" then
              Join ((if ToUpper (args.Arg searchArgUID) = str "UID "
                  then mailbox.MessageSetByUID seqSet
                  else mailbox.MessageSetBySequenceNumber seqSet).map
                (fun msg => decimal msg.UID)) (str " ")
              else [])),
          .write args.ID (str "OK SEARCH Completed")] := by
  have hne : str "DELETED" ≠ str "NOT DELETED" := by decide
  rcases hp with hp | hp
  · simp [cmdSearch, hg, hs, hm, hp]
  · simp [cmdSearch, hg, hs, hm, hp, hne, Join]

/-- C8 on the sample mailbox: the UIDs 101, 102, 103 give `* SEARCH 101 102 103`. -/
theorem cmdSearch_results_witness :
    (sampleEnv.assertSelected (sampleSelected .readOnly)
        (sampleArgs "a1" "" "1:*" "NOT DELETED").ID .readOnly).1 = true ∧
      sampleEnv.InterpretSequenceSet ((sampleArgs "a1" "" "1:*" "NOT DELETED").Arg searchArgRange) =
        .ok [(.num 1, .largest)] ∧
      (cmdSearch sampleEnv (sampleArgs "a1" "" "1:*" "NOT DELETED")
          (sampleSelected .readOnly)).trace =
        [.messageSetBySequenceNumber [(.num 1, .largest)],
          .write (str "*") (str "SEARCH 101 102 103"),
          .write (str "a1") (str "OK SEARCH Completed")] :=
  ⟨by decide, by rfl,
    (cmdSearch_results sampleEnv (sampleArgs "a1" "" "1:*" "NOT DELETED")
      (sampleSelected .readOnly) [(.num 1, .largest)] (sampleMailbox sampleMessages)
      (by decide) (by rfl) rfl (Or.inl (by decide))).trans (by decide)⟩

/-- The text of a `BAD` reply is not an untagged `SEARCH` result. -/
theorem bad_ne_search (ids : Bytes) :
    str "BAD Unrecognised Parameter" ≠ str "SEARCH " ++ ids := by
  intro h
  have e₁ : str "BAD Unrecognised Parameter" = 66 :: str "AD Unrecognised Parameter" := by decide
  have e₂ : str "SEARCH " = 83 :: str "EARCH " := by decide
  rw [e₁, e₂, List.cons_append] at h
  have := (List.cons.inj h).1
  revert this
  decide

/-- C9: past the guard and with a well-formed sequence set, what `cmdSearch` adds after
the lookup holds an untagged `SEARCH` result if and only if the predicate text is exactly
`NOT DELETED` or exactly `DELETED`; for every other text it is the single tagged line
`BAD Unrecognised Parameter`. -/
theorem cmdSearch_vocabulary (env : Env) (args : CommandArgs) (c : Conn) (seqSet : SequenceSet)
    (mailbox : Mailbox)
    (hg : (env.assertSelected c args.ID .readOnly).1 = true)
    (hs : env.InterpretSequenceSet (args.Arg searchArgRange) = .ok seqSet)
    (hm : c.SelectedMailbox = some mailbox) :
    ∃ own : List Event,
      (cmdSearch env args c).trace =
        (env.assertSelected c args.ID .readOnly).2 ++
          (if ToUpper (args.Arg searchArgUID) = str "UID " then Event.messageSetByUID seqSet
            else Event.messageSetBySequenceNumber seqSet) :: own ∧
      ((∃ ids, Event.write (str "*") (str "SEARCH " ++ ids) ∈ own) ↔
        (args.Arg searchArgParams = str "NOT DELETED" ∨
          args.Arg searchArgParams = str "DELETED")) ∧
      (¬ (args.Arg searchArgParams = str "NOT DELETED" ∨
          args.Arg searchArgParams = str "DELETED") →
        own = [.write args.ID (str "BAD Unrecognised Parameter")]) := by
  by_cases h₁ : args.Arg searchArgParams = str "NOT DELETED"
  · refine ⟨_, by simp only [cmdSearch, hg, hs, hm, h₁]; simp; rfl, ?_, ?_⟩
    · exact ⟨fun _ => Or.inl h₁, fun _ => ⟨_, List.mem_cons_self _ _⟩⟩
    · intro hn
      exact absurd (Or.inl h₁) hn
  · by_cases h₂ : args.Arg searchArgParams = str "DELETED"
    · refine ⟨_, by simp only [cmdSearch, hg, hs, hm, h₁, h₂]; simp; rfl, ?_, ?_⟩
      · exact ⟨fun _ => Or.inr h₂, fun _ => ⟨_, List.mem_cons_self _ _⟩⟩
      · intro hn
        exact absurd (Or.inr h₂) hn
    · refine ⟨[.write args.ID (str "BAD Unrecognised Parameter")],
        by simp [cmdSearch, hg, hs, hm, h₁, h₂], ?_, fun _ => rfl⟩
      constructor
      · rintro ⟨ids, hmem⟩
        simp only [List.mem_singleton, Event.write.injEq] at hmem
        exact absurd hmem.2.symm (bad_ne_search ids)
      · rintro (h | h)
        · exact absurd h h₁
        · exact absurd h h₂

/-- C9 on the sample mailbox with the predicate `deleted` in lower case. -/
theorem cmdSearch_vocabulary_witness :
    (sampleEnv.assertSelected (sampleSelected .readOnly)
        (sampleArgs "a1" "" "1:*" "deleted").ID .readOnly).1 = true ∧
      sampleEnv.InterpretSequenceSet ((sampleArgs "a1" "" "1:*" "deleted").Arg searchArgRange) =
        .ok [(.num 1, .largest)] ∧
      (sampleSelected .readOnly).SelectedMailbox = some (sampleMailbox sampleMessages) ∧
      (cmdSearch sampleEnv (sampleArgs "a1" "" "1:*" "deleted") (sampleSelected .readOnly)).trace =
        [.messageSetBySequenceNumber [(.num 1, .largest)],
          .write (str "a1") (str "BAD Unrecognised Parameter")] ∧
      ∃ own : List Event,
        (cmdSearch sampleEnv (sampleArgs "a1" "" "1:*" "deleted")
            (sampleSelected .readOnly)).trace =
          (sampleEnv.assertSelected (sampleSelected .readOnly)
              (sampleArgs "a1" "" "1:*" "deleted").ID .readOnly).2 ++
            (if ToUpper ((sampleArgs "a1" "" "1:*" "deleted").Arg searchArgUID) = str "UID "
              then Event.messageSetByUID [(.num 1, .largest)]
              else Event.messageSetBySequenceNumber [(.num 1, .largest)]) :: own ∧
        ((∃ ids, Event.write (str "*") (str "SEARCH " ++ ids) ∈ own) ↔
          ((sampleArgs "a1" "" "1:*" "deleted").Arg searchArgParams = str "NOT DELETED" ∨
            (sampleArgs "a1" "" "1:*" "deleted").Arg searchArgParams = str "DELETED")) ∧
        (¬ ((sampleArgs "a1" "" "1:*" "deleted").Arg searchArgParams = str "NOT DELETED" ∨
            (sampleArgs "a1" "" "1:*" "deleted").Arg searchArgParams = str "DELETED") →
          own = [.write (sampleArgs "a1" "" "1:*" "deleted").ID
            (str "BAD Unrecognised Parameter")]) :=
  ⟨by decide, by rfl, rfl, by decide,
    cmdSearch_vocabulary sampleEnv (sampleArgs "a1" "" "1:*" "deleted")
      (sampleSelected .readOnly) [(.num 1, .largest)] (sampleMailbox sampleMessages)
      (by decide) (by rfl) rfl⟩

/-- C10 at a failing input: on the read-write sample mailbox, a FETCH of `UID` alone and a
FETCH of `BODY.PEEK[HEADER] UID` both call `RemoveFlags` with the Recent flag and `Save` on
the message, although no body attribute without `.PEEK` is asked for. -/
theorem cmdFetch_peek_clears_recent :
    (cmdFetch sampleEnv (sampleArgs "a1" "" "1" "UID") (sampleSelected .readWrite)).trace =
        [.messageSetBySequenceNumber [(.num 1, .num 1)],
          .removeFlags (sampleMessage 101 1) .FlagRecent,
          .save (sampleEnv.RemoveFlags (sampleMessage 101 1) .FlagRecent),
          .write (str "") (str "1 FETCH (UID 101)"),
          .write (str "a1") (str "OK FETCH Completed")] ∧
      peekRE.MatchString (str "BODY.PEEK[HEADER]") = true ∧
      Event.removeFlags (sampleMessage 101 1) .FlagRecent ∈
        (cmdFetch sampleEnv (sampleArgs "a1" "" "1" "BODY.PEEK[HEADER] UID")
          (sampleSelected .readWrite)).trace ∧
      Event.save (sampleEnv.RemoveFlags (sampleMessage 101 1) .FlagRecent) ∈
        (cmdFetch sampleEnv (sampleArgs "a1" "" "1" "BODY.PEEK[HEADER] UID")
          (sampleSelected .readWrite)).trace := by
  decide

/-- C11 at a failing input: on the read-write sample mailbox with a store whose `Save`
returns the nil message and an error, `cmdFetch` of `UID` stops at the first message
after `Save`: the code reads the sequence number from the value `Save` returned, so no
FETCH reply is written for the message, the other messages are not processed and no
tagged `OK FETCH Completed` follows. -/
theorem cmdFetch_save_failure_stops :
    (failingSaveEnv.Save (failingSaveEnv.RemoveFlags (sampleMessage 101 1) .FlagRecent)) =
        (none, some (str "disk full")) ∧
      (cmdFetch failingSaveEnv (sampleArgs "a1" "" "1:*" "UID") (sampleSelected .readWrite)).trace =
        [.messageSetBySequenceNumber [(.num 1, .largest)],
          .removeFlags (sampleMessage 101 1) .FlagRecent,
          .save (failingSaveEnv.RemoveFlags (sampleMessage 101 1) .FlagRecent)] ∧
      (cmdFetch failingSaveEnv (sampleArgs "a1" "" "1:*" "UID")
        (sampleSelected .readWrite)).panicked = true := by
  decide

/-- C12: past the guard, when `InterpretSequenceSet` returns an error, `cmdFetch` and
`cmdSearch` write the tagged line `NO ` followed by the text of the error and return: no
lookup, no other line, the connection as it was, whatever the attribute list or the
predicate. -/
theorem sequence_set_error_reply (env : Env) (args : CommandArgs) (c : Conn) (e : Bytes)
    (hg : (env.assertSelected c args.ID .readOnly).1 = true)
    (hs : env.InterpretSequenceSet (args.Arg 1) = .error e) :
    cmdFetch env args c =
        ⟨c, (env.assertSelected c args.ID .readOnly).2 ++ [.write args.ID (str "NO " ++ e)],
          false⟩ ∧
      cmdSearch env args c =
        ⟨c, (env.assertSelected c args.ID .readOnly).2 ++ [.write args.ID (str "NO " ++ e)],
          false⟩ := by
  constructor
  · simp [cmdFetch, hg, fetchArgRange, hs]
  · simp [cmdSearch, hg, searchArgRange, hs]

/-- C12 on the sample connection with the range `1:x`. -/
theorem sequence_set_error_reply_witness :
    (sampleEnv.assertSelected (sampleSelected .readOnly) (sampleArgs "a1" "" "1:x" "FOO").ID
        .readOnly).1 = true ∧
      sampleEnv.InterpretSequenceSet ((sampleArgs "a1" "" "1:x" "FOO").Arg 1) =
        .error (str "Invalid sequence set") ∧
      (cmdFetch sampleEnv (sampleArgs "a1" "" "1:x" "FOO") (sampleSelected .readOnly) =
          ⟨sampleSelected .readOnly,
            (sampleEnv.assertSelected (sampleSelected .readOnly)
              (sampleArgs "a1" "" "1:x" "FOO").ID .readOnly).2 ++
              [.write (sampleArgs "a1" "" "1:x" "FOO").ID
                (str "NO " ++ str "Invalid sequence set")], false⟩ ∧
        cmdSearch sampleEnv (sampleArgs "a1" "" "1:x" "FOO") (sampleSelected .readOnly) =
          ⟨sampleSelected .readOnly,
            (sampleEnv.assertSelected (sampleSelected .readOnly)
              (sampleArgs "a1" "" "1:x" "FOO").ID .readOnly).2 ++
              [.write (sampleArgs "a1" "" "1:x" "FOO").ID
                (str "NO " ++ str "Invalid sequence set")], false⟩) :=
  ⟨by decide, by rfl,
    sequence_set_error_reply sampleEnv (sampleArgs "a1" "" "1:x" "FOO")
      (sampleSelected .readOnly) (str "Invalid sequence set") (by decide) (by rfl)⟩

/-- C18 at a failing input: on a connection already bound to the user `alice`, an
AUTHENTICATE PLAIN with a wrong password ends with `NO Incorrect username/password` and
leaves the `User` field nil: the code assigns the result of `Authenticate` to `c.User`
before it looks at the error. -/
theorem cmdAuthPlain_failure_rebinds_user :
    (sampleAuthenticated [wrongLine]).User = some ⟨str "alice"⟩ ∧
      clientOutput (cmdAuthPlain (sampleArgs "a2" "PLAIN" "" "")
          (sampleAuthenticated [wrongLine])).trace =
        [(str "+", str ""), (str "a2", str "NO Incorrect username/password")] ∧
      (cmdAuthPlain (sampleArgs "a2" "PLAIN" "" "") (sampleAuthenticated [wrongLine])).conn.User =
        none := by
  decide

/-! ## Lemmas on the loop of `cmdFetch` -/

theorem clientOutput_append (a b : List Event) :
    clientOutput (a ++ b) = clientOutput a ++ clientOutput b := by
  induction a with
  | nil => rfl
  | cons e a ih => cases e <;> simp [clientOutput, ih]

theorem decimalCore_suffix (fuel n : Nat) (ds : Bytes) :
    ∃ pre, decimalCore fuel n ds = pre ++ ds := by
  induction fuel generalizing n ds with
  | zero => exact ⟨[], rfl⟩
  | succ fuel ih =>
    simp only [decimalCore]
    split
    · exact ⟨[_], rfl⟩
    · obtain ⟨pre, h⟩ := ih (n / 10) (UInt8.ofNat (48 + n % 10) :: ds)
      exact ⟨pre ++ [UInt8.ofNat (48 + n % 10)], by rw [h]; simp⟩

/-- The decimal form of a number starts with a digit. -/
theorem decimal_head (n : Nat) :
    ∃ d rest, decimal n = d :: rest ∧ 48 ≤ d.toNat ∧ d.toNat ≤ 57 := by
  have hne : decimal n ≠ [] := by
    unfold decimal
    simp only [decimalCore]
    split
    · simp
    · obtain ⟨pre, h⟩ := decimalCore_suffix n (n / 10) [UInt8.ofNat (48 + n % 10)]
      rw [h]
      simp
  cases hd : decimal n with
  | nil => exact absurd hd hne
  | cons d rest =>
    exact ⟨d, rest, rfl, decimal_digits n d (by rw [hd]; exact List.mem_cons_self _ _)⟩

/-- A FETCH reply line is not the text of a `BAD` reply. -/
theorem fetch_line_ne_bad (n : Nat) (r : Bytes) :
    decimal n ++ str " FETCH (" ++ r ++ str ")" ≠ str "BAD Unrecognised Parameter" := by
  obtain ⟨d, rest, hd, h₁, h₂⟩ := decimal_head n
  intro h
  have e : str "BAD Unrecognised Parameter" = 66 :: str "AD Unrecognised Parameter" := by decide
  rw [hd, e] at h
  simp only [List.cons_append] at h
  have := (List.cons.inj h).1
  subst this
  revert h₂
  decide

/-- With every token matched by a registered pattern the loop of `fetch` returns its
fragments, for every connection and message. -/
theorem fetchLoop_recognised (env : Env) (c : Conn) (m : Message) (toks acc : List Bytes)
    (h : ∀ t ∈ toks, ∃ d ∈ registeredFetchParams, d.re.MatchString t = true) :
    ∃ frs, fetchLoop env c m toks acc = .ok frs := by
  induction toks generalizing acc with
  | nil => exact ⟨acc, rfl⟩
  | cons p rest ih =>
    rcases fetchParam_cases env p c m with ⟨hno, -⟩ | ⟨-, r, hr⟩
    · obtain ⟨d, hd, hm⟩ := h p (List.mem_cons_self _ _)
      rw [hno d hd] at hm
      exact Bool.noConfusion hm
    · simp only [fetchLoop, hr]
      exact ih _ (fun t ht => h t (List.mem_cons_of_mem _ ht))

/-- The outcome of `fetch` is decided by the attribute string alone: either it succeeds
for every connection and message, or it returns `ErrUnrecognisedParameter` for every
connection and message. -/
theorem fetch_dichotomy (env : Env) (params : Bytes) :
    (∀ c m, ∃ r, fetch env params c m = .ok r) ∨
      (∀ c m, fetch env params c m = .err .ErrUnrecognisedParameter) := by
  by_cases h : ∃ t ∈ env.SplitParams params,
      ∀ d ∈ registeredFetchParams, d.re.MatchString t = false
  · obtain ⟨t, ht, hno⟩ := h
    exact Or.inr (fun c m => by simp [fetch, fetchLoop_unrecognised env c m _ [] t ht hno])
  · refine Or.inl (fun c m => ?_)
    have hall : ∀ t ∈ env.SplitParams params,
        ∃ d ∈ registeredFetchParams, d.re.MatchString t = true := by
      intro t ht
      by_contra hcon
      refine h ⟨t, ht, fun d hd => ?_⟩
      cases hm : d.re.MatchString t with
      | false => rfl
      | true => exact absurd ⟨d, hd, hm⟩ hcon
    obtain ⟨frs, hfrs⟩ := fetchLoop_recognised env c m _ [] hall
    exact ⟨Join frs (str " "), by simp [fetch, hfrs]⟩

/-- Shape of what the loop of `cmdFetch` adds to the trace: calls on messages and
untagged FETCH lines of fetched messages, closed by at most one tagged line. -/
theorem cmdFetchLoop_shape (env : Env) (args : CommandArgs) (c : Conn) (params : Bytes)
    (msgs : List Message) (out : List Event) :
    ∃ body tail, (cmdFetchLoop env args c params msgs out).trace = out ++ body ++ tail ∧
      (tail = [] ∨ ∃ text, tail = [.write args.ID text]) ∧
      ∀ seq text, Event.write seq text ∈ body →
        seq = str "" ∧ ∃ m ∈ msgs, ∃ r seqno, fetch env params c m = .ok r ∧
          text = decimal seqno ++ str " FETCH (" ++ r ++ str ")" := by
  induction msgs generalizing out with
  | nil => exact ⟨[], _, by simp [cmdFetchLoop]; rfl, Or.inr ⟨_, rfl⟩, by simp⟩
  | cons msg rest ih =>
    cases hf : fetch env params c msg with
    | panic => exact ⟨[], [], by simp [cmdFetchLoop, hf], Or.inl rfl, by simp⟩
    | err e =>
      cases e with
      | ErrUnrecognisedParameter =>
        exact ⟨[], _, by simp [cmdFetchLoop, hf]; rfl, Or.inr ⟨_, rfl⟩, by simp⟩
      | other t => exact ⟨[], _, by simp [cmdFetchLoop, hf]; rfl, Or.inr ⟨_, rfl⟩, by simp⟩
    | ok r =>
      by_cases hrw : c.mailboxWritable = .readWrite
      · cases hsave : (env.Save (env.RemoveFlags msg .FlagRecent)).1 with
        | none =>
          refine ⟨[.removeFlags msg .FlagRecent, .save (env.RemoveFlags msg .FlagRecent)], [],
            by simp [cmdFetchLoop, hf, hrw, hsave], Or.inl rfl, ?_⟩
          intro seq text hmem
          simp at hmem
        | some msg₂ =>
          obtain ⟨body, tail, htr, htail, hbody⟩ := ih (out ++ [.removeFlags msg .FlagRecent,
            .save (env.RemoveFlags msg .FlagRecent),
            .write (str "") (decimal msg₂.SequenceNumber ++ str " FETCH (" ++ r ++ str ")")])
          have e : cmdFetchLoop env args c params (msg :: rest) out =
              cmdFetchLoop env args c params rest (out ++ [.removeFlags msg .FlagRecent,
                .save (env.RemoveFlags msg .FlagRecent),
                .write (str "") (decimal msg₂.SequenceNumber ++ str " FETCH (" ++ r ++ str ")")]) := by
            simp only [cmdFetchLoop, hf, hrw, hsave, if_true]
          refine ⟨[.removeFlags msg .FlagRecent, .save (env.RemoveFlags msg .FlagRecent),
            .write (str "") (decimal msg₂.SequenceNumber ++ str " FETCH (" ++ r ++ str ")")] ++
            body, tail, by rw [e, htr]; simp only [List.append_assoc], htail, ?_⟩
          intro seq text hmem
          simp only [List.cons_append, List.nil_append, List.mem_cons, reduceCtorEq,
            Event.write.injEq, false_or] at hmem
          rcases hmem with ⟨rfl, rfl⟩ | hmem
          · exact ⟨rfl, msg, List.mem_cons_self _ _, r, _, hf, rfl⟩
          · obtain ⟨h₁, m, hm, h₂⟩ := hbody seq text hmem
            exact ⟨h₁, m, List.mem_cons_of_mem _ hm, h₂⟩
      · obtain ⟨body, tail, htr, htail, hbody⟩ := ih (out ++
          [.write (str "") (decimal msg.SequenceNumber ++ str " FETCH (" ++ r ++ str ")")])
        have e : cmdFetchLoop env args c params (msg :: rest) out =
            cmdFetchLoop env args c params rest (out ++
              [.write (str "") (decimal msg.SequenceNumber ++ str " FETCH (" ++ r ++ str ")")]) := by
          simp only [cmdFetchLoop, hf, hrw, if_false]
        refine ⟨[.write (str "") (decimal msg.SequenceNumber ++ str " FETCH (" ++ r ++ str ")")] ++
          body, tail, by rw [e, htr]; simp only [List.append_assoc], htail, ?_⟩
        intro seq text hmem
        simp only [List.cons_append, List.nil_append, List.mem_cons, Event.write.injEq] at hmem
        rcases hmem with ⟨rfl, rfl⟩ | hmem
        · exact ⟨rfl, msg, List.mem_cons_self _ _, r, _, hf, rfl⟩
        · obtain ⟨h₁, m, hm, h₂⟩ := hbody seq text hmem
          exact ⟨h₁, m, List.mem_cons_of_mem _ hm, h₂⟩

/-- When every message is fetched and, on a read-write mailbox, `Save` hands back a
message with the sequence number of the one it was given, the loop of `cmdFetch` writes
one untagged line per message, in order, then the tagged `OK FETCH Completed`. -/
theorem cmdFetchLoop_lines (env : Env) (args : CommandArgs) (c : Conn) (params : Bytes)
    (frs : Message → Bytes) (msgs : List Message) (out : List Event)
    (hok : ∀ m ∈ msgs, fetch env params c m = .ok (frs m))
    (hst : c.mailboxWritable = .readWrite → ∀ m ∈ msgs,
      ∃ m', (env.Save (env.RemoveFlags m .FlagRecent)).1 = some m' ∧
        m'.SequenceNumber = m.SequenceNumber) :
    clientOutput (cmdFetchLoop env args c params msgs out).trace =
        clientOutput out ++
          msgs.map (fun m =>
            (str "", decimal m.SequenceNumber ++ str " FETCH (" ++ frs m ++ str ")")) ++
          [(args.ID, str "OK FETCH Completed")] ∧
      (cmdFetchLoop env args c params msgs out).panicked = false := by
  induction msgs generalizing out with
  | nil => simp [cmdFetchLoop, clientOutput_append, clientOutput]
  | cons msg rest ih =>
    have hf := hok msg (List.mem_cons_self _ _)
    have ih' := fun o => ih o (fun m hm => hok m (List.mem_cons_of_mem _ hm))
      (fun h m hm => hst h m (List.mem_cons_of_mem _ hm))
    by_cases hrw : c.mailboxWritable = .readWrite
    · obtain ⟨m', hsave, hseq⟩ := hst hrw msg (List.mem_cons_self _ _)
      have e : cmdFetchLoop env args c params (msg :: rest) out =
          cmdFetchLoop env args c params rest (out ++ [.removeFlags msg .FlagRecent,
            .save (env.RemoveFlags msg .FlagRecent),
            .write (str "") (decimal m'.SequenceNumber ++ str " FETCH (" ++ frs msg ++ str ")")]) := by
        simp only [cmdFetchLoop, hf, hrw, hsave, if_true]
      rw [e]
      obtain ⟨h₁, h₂⟩ := ih' (out ++ [.removeFlags msg .FlagRecent,
        .save (env.RemoveFlags msg .FlagRecent),
        .write (str "") (decimal m'.SequenceNumber ++ str " FETCH (" ++ frs msg ++ str ")")])
      refine ⟨?_, h₂⟩
      rw [h₁, hseq]
      simp [clientOutput_append, clientOutput]
    · have e : cmdFetchLoop env args c params (msg :: rest) out =
          cmdFetchLoop env args c params rest (out ++
            [.write (str "") (decimal msg.SequenceNumber ++ str " FETCH (" ++ frs msg ++ str ")")]) := by
        simp only [cmdFetchLoop, hf, hrw, if_false]
      rw [e]
      obtain ⟨h₁, h₂⟩ := ih' (out ++
        [.write (str "") (decimal msg.SequenceNumber ++ str " FETCH (" ++ frs msg ++ str ")")])
      refine ⟨?_, h₂⟩
      rw [h₁]
      simp [clientOutput_append, clientOutput]

/-- When `fetch` succeeds on every message, what the loop of `cmdFetch` adds to the trace
is not empty and holds no tagged `BAD Unrecognised Parameter`. -/
theorem cmdFetchLoop_no_bad (env : Env) (args : CommandArgs) (c : Conn) (params : Bytes)
    (hall : ∀ m, ∃ r, fetch env params c m = .ok r) (msgs : List Message) (out : List Event) :
    ∃ added, (cmdFetchLoop env args c params msgs out).trace = out ++ added ∧ added ≠ [] ∧
      Event.write args.ID (str "BAD Unrecognised Parameter") ∉ added := by
  have hokbad : str "OK FETCH Completed" ≠ str "BAD Unrecognised Parameter" := by decide
  induction msgs generalizing out with
  | nil =>
    refine ⟨[.write args.ID (str "OK FETCH Completed")], by simp [cmdFetchLoop], by simp, ?_⟩
    simp only [List.mem_singleton, Event.write.injEq, true_and]
    exact fun h => hokbad h.symm
  | cons msg rest ih =>
    obtain ⟨r, hf⟩ := hall msg
    by_cases hrw : c.mailboxWritable = .readWrite
    · cases hsave : (env.Save (env.RemoveFlags msg .FlagRecent)).1 with
      | none =>
        exact ⟨[.removeFlags msg .FlagRecent, .save (env.RemoveFlags msg .FlagRecent)],
          by simp [cmdFetchLoop, hf, hrw, hsave], by simp, by simp⟩
      | some msg₂ =>
        have e : cmdFetchLoop env args c params (msg :: rest) out =
            cmdFetchLoop env args c params rest (out ++ [.removeFlags msg .FlagRecent,
              .save (env.RemoveFlags msg .FlagRecent),
              .write (str "") (decimal msg₂.SequenceNumber ++ str " FETCH (" ++ r ++ str ")")]) := by
          simp only [cmdFetchLoop, hf, hrw, hsave, if_true]
        obtain ⟨added, htr, -, hno⟩ := ih (out ++ [.removeFlags msg .FlagRecent,
          .save (env.RemoveFlags msg .FlagRecent),
          .write (str "") (decimal msg₂.SequenceNumber ++ str " FETCH (" ++ r ++ str ")")])
        refine ⟨[.removeFlags msg .FlagRecent, .save (env.RemoveFlags msg .FlagRecent),
          .write (str "") (decimal msg₂.SequenceNumber ++ str " FETCH (" ++ r ++ str ")")] ++
          added, by rw [e, htr]; simp only [List.append_assoc], by simp, ?_⟩
        simp only [List.cons_append, List.nil_append, List.mem_cons, reduceCtorEq,
          Event.write.injEq, false_or, not_or]
        exact ⟨fun h => fetch_line_ne_bad _ _ h.2.symm, hno⟩
    · have e : cmdFetchLoop env args c params (msg :: rest) out =
          cmdFetchLoop env args c params rest (out ++
            [.write (str "") (decimal msg.SequenceNumber ++ str " FETCH (" ++ r ++ str ")")]) := by
        simp only [cmdFetchLoop, hf, hrw, if_false]
      obtain ⟨added, htr, -, hno⟩ := ih (out ++
        [.write (str "") (decimal msg.SequenceNumber ++ str " FETCH (" ++ r ++ str ")")])
      refine ⟨[.write (str "") (decimal msg.SequenceNumber ++ str " FETCH (" ++ r ++ str ")")] ++
        added, by rw [e, htr]; simp only [List.append_assoc], by simp, ?_⟩
      simp only [List.cons_append, List.nil_append, List.mem_cons, Event.write.injEq, not_or]
      exact ⟨fun h => fetch_line_ne_bad _ _ h.2.symm, hno⟩

/-- C20: whether `fetch` returns `ErrUnrecognisedParameter` depends on the attribute
string only, not on the connection or the message; and a FETCH past the guard whose last
event is the tagged `BAD Unrecognised Parameter` has done nothing else after the lookup:
no FETCH line, no `RemoveFlags`, no `Save`. -/
theorem fetch_error_atomic (env : Env) (args : CommandArgs) (c : Conn) (seqSet : SequenceSet)
    (mailbox : Mailbox)
    (hg : (env.assertSelected c args.ID .readOnly).1 = true)
    (hs : env.InterpretSequenceSet (args.Arg fetchArgRange) = .ok seqSet)
    (hm : c.SelectedMailbox = some mailbox)
    (hbad : (cmdFetch env args c).trace.getLast? =
      some (.write args.ID (str "BAD Unrecognised Parameter"))) :
    (∀ (params : Bytes) (c₁ c₂ : Conn) (m₁ m₂ : Message),
        fetch env params c₁ m₁ = .err .ErrUnrecognisedParameter ↔
          fetch env params c₂ m₂ = .err .ErrUnrecognisedParameter) ∧
      (cmdFetch env args c).trace =
        (env.assertSelected c args.ID .readOnly).2 ++
          [if ToUpper (args.Arg fetchArgUID) = str "UID " then .messageSetByUID seqSet
            else .messageSetBySequenceNumber seqSet,
            .write args.ID (str "BAD Unrecognised Parameter")] := by
  have hind : ∀ (params : Bytes) (c₁ c₂ : Conn) (m₁ m₂ : Message),
      fetch env params c₁ m₁ = .err .ErrUnrecognisedParameter →
        fetch env params c₂ m₂ = .err .ErrUnrecognisedParameter := by
    intro params c₁ c₂ m₁ m₂ h
    rcases fetch_dichotomy env params with hok | herr
    · obtain ⟨r, hr⟩ := hok c₁ m₁
      rw [hr] at h
      exact Result.noConfusion h
    · exact herr c₂ m₂
  refine ⟨fun params c₁ c₂ m₁ m₂ => ⟨hind params c₁ c₂ m₁ m₂, hind params c₂ c₁ m₂ m₁⟩, ?_⟩
  have hokbad : str "OK FETCH Completed" ≠ str "BAD Unrecognised Parameter" := by decide
  simp only [cmdFetch, hg, hs, hm, Bool.not_true, Bool.false_eq_true, if_false] at hbad ⊢
  generalize hmsgs : (if ToUpper (args.Arg fetchArgUID) = str "UID "
    then mailbox.MessageSetByUID seqSet else mailbox.MessageSetBySequenceNumber seqSet) = msgs
    at hbad ⊢
  generalize hps : ((if (decide (ToUpper (args.Arg fetchArgUID) = str "UID ") &&
      !Contains (args.Arg fetchArgParams) (str "UID")) = true then str "UID " else []) ++
      args.Arg fetchArgParams) = params at hbad ⊢
  cases msgs with
  | nil =>
    simp only [cmdFetchLoop] at hbad
    rw [List.getLast?_concat] at hbad
    simp only [Option.some.injEq, Event.write.injEq, true_and] at hbad
    exact absurd hbad hokbad
  | cons msg rest =>
    rcases fetch_dichotomy env params with hok | herr
    · obtain ⟨added, htr, hne, hno⟩ := cmdFetchLoop_no_bad env args c params (fun m => hok c m)
        (msg :: rest) ((env.assertSelected c args.ID .readOnly).2 ++
          [if ToUpper (args.Arg fetchArgUID) = str "UID " then .messageSetByUID seqSet
            else .messageSetBySequenceNumber seqSet])
      rw [htr, List.getLast?_append_of_ne_nil _ hne] at hbad
      exact absurd (List.mem_of_getLast?_eq_some hbad) hno
    · simp [cmdFetchLoop, herr c msg]

/-- C20 on the sample mailbox: `FLAGS FOO` on the set `1:*`. -/
theorem fetch_error_atomic_witness :
    (sampleEnv.assertSelected (sampleSelected .readWrite) (sampleArgs "a1" "" "1:*" "FLAGS FOO").ID
        .readOnly).1 = true ∧
      sampleEnv.InterpretSequenceSet ((sampleArgs "a1" "" "1:*" "FLAGS FOO").Arg fetchArgRange) =
        .ok [(.num 1, .largest)] ∧
      (sampleSelected .readWrite).SelectedMailbox = some (sampleMailbox sampleMessages) ∧
      (cmdFetch sampleEnv (sampleArgs "a1" "" "1:*" "FLAGS FOO")
          (sampleSelected .readWrite)).trace.getLast? =
        some (.write (sampleArgs "a1" "" "1:*" "FLAGS FOO").ID
          (str "BAD Unrecognised Parameter")) ∧
      ((∀ (params : Bytes) (c₁ c₂ : Conn) (m₁ m₂ : Message),
          fetch sampleEnv params c₁ m₁ = .err .ErrUnrecognisedParameter ↔
            fetch sampleEnv params c₂ m₂ = .err .ErrUnrecognisedParameter) ∧
        (cmdFetch sampleEnv (sampleArgs "a1" "" "1:*" "FLAGS FOO")
            (sampleSelected .readWrite)).trace =
          (sampleEnv.assertSelected (sampleSelected .readWrite)
              (sampleArgs "a1" "" "1:*" "FLAGS FOO").ID .readOnly).2 ++
            [if ToUpper ((sampleArgs "a1" "" "1:*" "FLAGS FOO").Arg fetchArgUID) = str "UID "
              then .messageSetByUID [(.num 1, .largest)]
              else .messageSetBySequenceNumber [(.num 1, .largest)],
              .write (sampleArgs "a1" "" "1:*" "FLAGS FOO").ID
                (str "BAD Unrecognised Parameter")]) :=
  ⟨by decide, by rfl, rfl, by decide,
    fetch_error_atomic sampleEnv (sampleArgs "a1" "" "1:*" "FLAGS FOO")
      (sampleSelected .readWrite) [(.num 1, .largest)] (sampleMailbox sampleMessages)
      (by decide) (by rfl) rfl (by decide)⟩

/-! ## Lemmas on literal patterns -/

theorem lit_matchAt_isSome (bs s : Bytes) :
    ((Regexp.lit bs).matchAt s).isSome = bs.isPrefixOf s := by
  simp only [Regexp.matchAt, Regexp.matchK]
  cases h : bs.isPrefixOf s <;> simp

/-- A literal pattern matches a string exactly when the string contains the literal. -/
theorem lit_MatchString (bs s : Bytes) : (Regexp.lit bs).MatchString s = Contains s bs := by
  unfold Regexp.MatchString
  induction s with
  | nil => simp only [Regexp.find, Contains, lit_matchAt_isSome]
  | cons b rest ih =>
    simp only [Regexp.find, Contains]
    rw [← ih, ← lit_matchAt_isSome]
    cases (Regexp.lit bs).matchAt (b :: rest) <;> simp [Option.orElse]

/-- A token that contains `UID` is answered by `fetchUID`, the first registered handler. -/
theorem fetchParam_uid (env : Env) (t : Bytes) (c : Conn) (m : Message)
    (h : Contains t (str "UID") = true) :
    fetchParam env t c m = .ok (str "UID " ++ decimal m.UID) := by
  have hm : uidRE.MatchString t = true := by rw [uidRE, lit_MatchString]; exact h
  simp [fetchParam, registeredFetchParams, fetchParamLoop, hm, fetchUID]

/-- The fragments `fetch` joins: one per token, after those already collected. -/
theorem fetchLoop_ok_mem (env : Env) (c : Conn) (m : Message) (toks acc frs : List Bytes)
    (h : fetchLoop env c m toks acc = .ok frs) :
    (∀ a ∈ acc, a ∈ frs) ∧ ∀ t ∈ toks, ∃ fr ∈ frs, fetchParam env t c m = .ok fr := by
  induction toks generalizing acc with
  | nil =>
    simp only [fetchLoop, Result.ok.injEq] at h
    subst h
    exact ⟨fun a ha => ha, by simp⟩
  | cons p rest ih =>
    cases hp : fetchParam env p c m with
    | ok r =>
      simp only [fetchLoop, hp] at h
      obtain ⟨hacc, hrest⟩ := ih _ h
      refine ⟨fun a ha => hacc a (List.mem_append_left _ ha), ?_⟩
      intro t ht
      rcases List.mem_cons.1 ht with rfl | ht
      · exact ⟨r, hacc r (by simp), hp⟩
      · exact hrest t ht
    | err e => simp [fetchLoop, hp] at h
    | panic => simp [fetchLoop, hp] at h

theorem contains_uid_prefixed (s : Bytes) : Contains (str "UID " ++ s) (str "UID") = true := by
  have e₁ : str "UID " = [85, 73, 68, 32] := by decide
  have e₂ : str "UID" = [85, 73, 68] := by decide
  rw [e₁, e₂]
  simp [Contains, List.isPrefixOf]

theorem contains_nil_uid : Contains [] (str "UID") = false := by decide

/-- An occurrence of `UID` does not straddle a space. -/
theorem contains_uid_space (u v : Bytes) (h : Contains (u ++ 32 :: v) (str "UID") = true) :
    Contains u (str "UID") = true ∨ Contains v (str "UID") = true := by
  have e : str "UID" = [85, 73, 68] := by decide
  rw [e] at h ⊢
  induction u with
  | nil =>
    simp only [List.nil_append, Contains, Bool.or_eq_true] at h
    rcases h with h | h
    · simp [List.isPrefixOf] at h
    · exact Or.inr h
  | cons a u ih =>
    simp only [List.cons_append, Contains, Bool.or_eq_true] at h ⊢
    rcases h with h | h
    · left
      left
      match u, h with
      | [], h => simp [List.isPrefixOf] at h
      | [x], h => simp [List.isPrefixOf] at h
      | x :: y :: u', h => simpa [List.isPrefixOf] using h
    · rcases ih h with h' | h'
      · exact Or.inl (Or.inr h')
      · exact Or.inr h'

/-- The sample tokenizer keeps an occurrence of `UID` inside one token. -/
theorem sampleSplitParamsAux_keeps_uid (s : Bytes) (depth : Nat) (cur : Bytes)
    (h : Contains (cur ++ s) (str "UID") = true) :
    ∃ t ∈ sampleSplitParamsAux s depth cur, Contains t (str "UID") = true := by
  induction s generalizing depth cur with
  | nil =>
    simp only [List.append_nil] at h
    have hne : cur ≠ [] := by
      rintro rfl
      rw [contains_nil_uid] at h
      exact Bool.noConfusion h
    exact ⟨cur, by simp [sampleSplitParamsAux, hne], h⟩
  | cons b rest ih =>
    simp only [sampleSplitParamsAux]
    split
    · rename_i hb
      obtain ⟨rfl, -⟩ := hb
      rcases contains_uid_space cur rest h with hc | hr
      · have hne : cur ≠ [] := by
          rintro rfl
          rw [contains_nil_uid] at hc
          exact Bool.noConfusion hc
        exact ⟨cur, by simp [hne], hc⟩
      · obtain ⟨t, ht, htc⟩ := ih 0 [] (by simpa using hr)
        refine ⟨t, ?_, htc⟩
        split
        · exact ht
        · exact List.mem_cons_of_mem _ ht
    · exact ih _ (cur ++ [b]) (by simpa using h)

theorem sampleEnv_keeps_uid (s : Bytes) (h : Contains s (str "UID") = true) :
    ∃ t ∈ sampleEnv.SplitParams s, Contains t (str "UID") = true :=
  sampleSplitParamsAux_keeps_uid s 0 [] (by simpa using h)

/-! ## Lemmas on `fetchHeaderSpecificFields` -/

theorem Split_no_sep (a : Bytes) (sep : UInt8) (h : sep ∉ a) : Split a sep = [a] := by
  induction a with
  | nil => rfl
  | cons x a ih =>
    have hx : x ≠ sep := fun e => h (by rw [e]; exact List.mem_cons_self _ _)
    have ha : sep ∉ a := fun hm => h (List.mem_cons_of_mem _ hm)
    simp [Split, hx, ih ha]

theorem Split_append_sep (a t : Bytes) (sep : UInt8) (h : sep ∉ a) :
    Split (a ++ sep :: t) sep = a :: Split t sep := by
  induction a with
  | nil => simp [Split]
  | cons x a ih =>
    have hx : x ≠ sep := fun e => h (by rw [e]; exact List.mem_cons_self _ _)
    have ha : sep ∉ a := fun hm => h (List.mem_cons_of_mem _ hm)
    simp [Split, hx, ih ha]

/-- Names without a space, joined by single spaces, are split back into the names. -/
theorem Split_Join (fs : List Bytes) (hne : fs ≠ []) (hsp : ∀ f ∈ fs, (32 : UInt8) ∉ f) :
    Split (Join fs (str " ")) 32 = fs := by
  have e : str " " = [32] := by decide
  rw [e]
  induction fs with
  | nil => exact absurd rfl hne
  | cons a rest ih =>
    cases rest with
    | nil => simpa [Join] using Split_no_sep a 32 (hsp a (List.mem_cons_self _ _))
    | cons b rest =>
      have ih' := ih (by simp) (fun f hf => hsp f (List.mem_cons_of_mem _ hf))
      simp only [Join, List.append_assoc, List.singleton_append]
      rw [Split_append_sep _ _ _ (hsp a (List.mem_cons_self _ _)), ih']

theorem append_keys (h : MIMEHeader) (k v : Bytes) :
    ∀ kv ∈ MIMEHeader.append h k v, kv.1 = k ∨ ∃ kv' ∈ h, kv'.1 = kv.1 := by
  induction h with
  | nil =>
    intro kv hkv
    simp only [MIMEHeader.append, List.mem_singleton] at hkv
    exact Or.inl (by rw [hkv])
  | cons e h ih =>
    intro kv hkv
    simp only [MIMEHeader.append] at hkv
    split at hkv
    · rename_i hk
      rcases List.mem_cons.1 hkv with rfl | hkv
      · exact Or.inl hk
      · exact Or.inr ⟨kv, List.mem_cons_of_mem _ hkv, rfl⟩
    · rcases List.mem_cons.1 hkv with rfl | hkv
      · exact Or.inr ⟨_, List.mem_cons_self _ _, rfl⟩
      · rcases ih kv hkv with h₁ | ⟨kv', hkv', h₂⟩
        · exact Or.inl h₁
        · exact Or.inr ⟨kv', List.mem_cons_of_mem _ hkv', h₂⟩

theorem append_entries (h : MIMEHeader) (k v : Bytes) (p : Bytes × Bytes) :
    p ∈ headerEntries (MIMEHeader.append h k v) ↔ p ∈ headerEntries h ∨ p = (k, v) := by
  induction h with
  | nil => simp [MIMEHeader.append, headerEntries]
  | cons e h ih =>
    simp only [MIMEHeader.append]
    split
    · rename_i hk
      simp only [headerEntries, List.flatMap_cons, List.mem_append, List.mem_map,
        List.map_append, List.map_cons, List.map_nil, List.mem_cons, List.not_mem_nil, or_false]
      rw [hk]
      constructor
      · rintro ((h₁ | h₁) | h₁)
        · exact Or.inl (Or.inl h₁)
        · exact Or.inr h₁
        · exact Or.inl (Or.inr h₁)
      · rintro ((h₁ | h₁) | h₁)
        · exact Or.inl (Or.inl h₁)
        · exact Or.inr h₁
        · exact Or.inl (Or.inr h₁)
    · have ih' : p ∈ headerEntries (MIMEHeader.append h k v) ↔
          p ∈ headerEntries h ∨ p = (k, v) := ih
      simp only [headerEntries, List.flatMap_cons, List.mem_append] at ih' ⊢
      rw [ih']
      tauto

theorem fieldsLoop_keys (env : Env) (hdrs : MIMEHeader) (fields acc : List Bytes)
    (req : MIMEHeader) :
    ∀ kv ∈ (fieldsLoop env hdrs fields acc req).2,
      (∃ kv' ∈ req, kv'.1 = kv.1) ∨
        ∃ f ∈ fields, kv.1 = env.CanonicalMIMEHeaderKey f ∧ hdrs.Get env f ≠ [] := by
  induction fields generalizing acc req with
  | nil =>
    intro kv hkv
    exact Or.inl ⟨kv, hkv, rfl⟩
  | cons f rest ih =>
    intro kv hkv
    simp only [fieldsLoop] at hkv
    rcases ih _ _ kv hkv with ⟨kv', hkv', hk⟩ | ⟨f', hf', h₁, h₂⟩
    · split at hkv'
      · rename_i hget
        rcases append_keys req _ _ kv' hkv' with h₁ | ⟨kv'', hkv'', h₁⟩
        · exact Or.inr ⟨f, List.mem_cons_self _ _, by rw [← hk, h₁], hget⟩
        · exact Or.inl ⟨kv'', hkv'', by rw [h₁, hk]⟩
      · exact Or.inl ⟨kv', hkv', hk⟩
    · exact Or.inr ⟨f', List.mem_cons_of_mem _ hf', h₁, h₂⟩

theorem fieldsLoop_entries (env : Env) (hdrs : MIMEHeader) (fields acc : List Bytes)
    (req : MIMEHeader) (p : Bytes × Bytes) :
    p ∈ headerEntries (fieldsLoop env hdrs fields acc req).2 ↔
      p ∈ headerEntries req ∨
        ∃ f ∈ fields, hdrs.Get env f ≠ [] ∧ p = (env.CanonicalMIMEHeaderKey f, hdrs.Get env f) := by
  induction fields generalizing acc req with
  | nil => simp [fieldsLoop]
  | cons f rest ih =>
    simp only [fieldsLoop]
    rw [ih]
    by_cases hget : hdrs.Get env f = []
    · simp [hget]
    · simp only [hget, ne_eq, not_false_eq_true, if_true, MIMEHeader.Add, append_entries,
        List.mem_cons, exists_eq_or_imp, true_and]
      tauto

/-- C16: on the captured list `f1 f2 ... fn` (names without a space, joined by single
spaces) `fetchHeaderSpecificFields` returns `BODY[HEADER.FIELDS (` followed by the names,
each once, quoted, in order, then `)] {`, the length and the rendering of a header that
holds only requested headers the message has: its pairs of key and value are exactly
those of the requested names for which the message has a value. -/
theorem fetchHeaderSpecificFields_fields (env : Env) (c : Conn) (m : Message)
    (peekOnly : Bool) (whole : Bytes) (fs : List Bytes) (hne : fs ≠ [])
    (hsp : ∀ f ∈ fs, (32 : UInt8) ∉ f) :
    ∃ requested : MIMEHeader,
      fetchHeaderSpecificFields env [whole, Join fs (str " ")] c m peekOnly =
        some (str "BODY[HEADER.FIELDS (" ++
          Join (fs.map (fun f => str "\"" ++ f ++ str "\"")) (str " ") ++ str ")] \x7b" ++
          decimal (env.MIMEHeaderToString requested).length ++ str "\x7d\r\n" ++
          env.MIMEHeaderToString requested) ∧
      (∀ kv ∈ requested,
        ∃ f ∈ fs, kv.1 = env.CanonicalMIMEHeaderKey f ∧ m.Header.Get env f ≠ []) ∧
      ∀ k v, (k, v) ∈ headerEntries requested ↔
        ∃ f ∈ fs, m.Header.Get env f ≠ [] ∧ k = env.CanonicalMIMEHeaderKey f ∧
          v = m.Header.Get env f := by
  refine ⟨(fieldsLoop env m.Header fs [] []).2, ?_, ?_, ?_⟩
  · simp only [fetchHeaderSpecificFields, Split_Join fs hne hsp, fieldsLoop_fst,
      List.nil_append]
  · intro kv hkv
    rcases fieldsLoop_keys env m.Header fs [] [] kv hkv with ⟨kv', hkv', -⟩ | h
    · simp at hkv'
    · exact h
  · intro k v
    rw [fieldsLoop_entries]
    simp [headerEntries]

/-- C16 on the sample message, which has `From` and lacks `To`. -/
theorem fetchHeaderSpecificFields_fields_witness :
    [str "From", str "To"] ≠ [] ∧
      (∀ f ∈ [str "From", str "To"], (32 : UInt8) ∉ f) ∧
      fetchHeaderSpecificFields sampleEnv
          [str "BODY[HEADER.FIELDS (From To)]", Join [str "From", str "To"] (str " ")]
          (sampleSelected .readOnly) (sampleMessage 101 1) false =
        some (str "BODY[HEADER.FIELDS (\"From\" \"To\")] \x7b21\x7d\r\nFrom: a@example.org\r\n") ∧
      ∃ requested : MIMEHeader,
        fetchHeaderSpecificFields sampleEnv
            [str "BODY[HEADER.FIELDS (From To)]", Join [str "From", str "To"] (str " ")]
            (sampleSelected .readOnly) (sampleMessage 101 1) false =
          some (str "BODY[HEADER.FIELDS (" ++
            Join ([str "From", str "To"].map (fun f => str "\"" ++ f ++ str "\"")) (str " ") ++
            str ")] \x7b" ++
            decimal (sampleEnv.MIMEHeaderToString requested).length ++ str "\x7d\r\n" ++
            sampleEnv.MIMEHeaderToString requested) ∧
        (∀ kv ∈ requested,
          ∃ f ∈ [str "From", str "To"], kv.1 = sampleEnv.CanonicalMIMEHeaderKey f ∧
            (sampleMessage 101 1).Header.Get sampleEnv f ≠ []) ∧
        ∀ k v, (k, v) ∈ headerEntries requested ↔
          ∃ f ∈ [str "From", str "To"], (sampleMessage 101 1).Header.Get sampleEnv f ≠ [] ∧
            k = sampleEnv.CanonicalMIMEHeaderKey f ∧
            v = (sampleMessage 101 1).Header.Get sampleEnv f :=
  ⟨by decide, by decide, by decide,
    fetchHeaderSpecificFields_fields sampleEnv (sampleSelected .readOnly) (sampleMessage 101 1)
      false (str "BODY[HEADER.FIELDS (From To)]") [str "From", str "To"] (by decide)
      (by decide)⟩

/-! ## Lemmas on greedy matching -/

/-- Greedy repetition fails when the continuation fails on every suffix. -/
theorem starK_none (cls : UInt8 → Bool) (s : Bytes) (caps : List Bytes)
    (k : Bytes → List Bytes → Option (Bytes × List Bytes))
    (h : ∀ v, v <:+ s → k v caps = none) : starK cls s caps k = none := by
  induction s with
  | nil => simpa [starK] using h [] (List.suffix_refl _)
  | cons b rest ih =>
    have h₁ := ih (fun v hv => h v (hv.trans (List.suffix_cons b rest)))
    have h₂ := h (b :: rest) (List.suffix_refl _)
    simp only [starK, h₁, h₂]
    split <;> rfl

/-- Greedy repetition runs to the end of a run of the class when the continuation
accepts what follows the run. -/
theorem starK_run (cls : UInt8 → Bool) (run rest : Bytes) (caps : List Bytes)
    (k : Bytes → List Bytes → Option (Bytes × List Bytes)) (res : Bytes × List Bytes)
    (hrun : ∀ b ∈ run, cls b = true)
    (hrest : ∀ x r, rest = x :: r → cls x = false)
    (hk : k rest caps = some res) : starK cls (run ++ rest) caps k = some res := by
  induction run with
  | nil =>
    cases rest with
    | nil => simpa [starK] using hk
    | cons x r => simp [starK, hrest x r rfl, hk]
  | cons a run ih =>
    have h₁ := ih (fun b hb => hrun b (List.mem_cons_of_mem _ hb))
    simp [starK, hrun a (List.mem_cons_self _ _), h₁, Option.orElse]

/-- Greedy repetition over a run of the class gives back what it must: it stops at the
longest prefix after which the continuation succeeds. -/
theorem starK_mid (cls : UInt8 → Bool) (u v : Bytes) (caps : List Bytes)
    (k : Bytes → List Bytes → Option (Bytes × List Bytes)) (res : Bytes × List Bytes)
    (hu : ∀ b ∈ u, cls b = true)
    (hfail : ∀ w, w <:+ v → w ≠ v → k w caps = none)
    (hk : k v caps = some res) : starK cls (u ++ v) caps k = some res := by
  induction u with
  | nil =>
    cases v with
    | nil => simpa [starK] using hk
    | cons x r =>
      have h₁ : starK cls r caps k = none := by
        apply starK_none
        intro w hw
        refine hfail w (hw.trans (List.suffix_cons x r)) ?_
        intro e
        have := hw.length_le
        rw [e] at this
        simp at this
      simp only [List.nil_append, starK, h₁, hk, Option.orElse]
      split <;> rfl
  | cons a u ih =>
    have h₁ := ih (fun b hb => hu b (List.mem_cons_of_mem _ hb))
    simp [starK, hu a (List.mem_cons_self _ _), h₁, Option.orElse]

theorem lit_matchK_append (bs rest : Bytes) (caps : List Bytes)
    (k : Bytes → List Bytes → Option (Bytes × List Bytes)) :
    (Regexp.lit bs).matchK (bs ++ rest) caps k = k rest caps := by
  simp [Regexp.matchK, isPrefixOf_append_self]

/-- A literal that starts with a byte the input does not start with does not match. -/
theorem lit_matchK_head (b : UInt8) (bs s : Bytes) (caps : List Bytes)
    (k : Bytes → List Bytes → Option (Bytes × List Bytes))
    (h : ∀ x r, s = x :: r → x ≠ b) : (Regexp.lit (b :: bs)).matchK s caps k = none := by
  cases s with
  | nil => simp [Regexp.matchK, List.isPrefixOf]
  | cons x r =>
    have := h x r rfl
    simp [Regexp.matchK, List.isPrefixOf, this.symm]

/-- The group `(cls+)` on a non-empty run of the class followed by something outside the
class captures the run. -/
theorem capPlus_run (i : Nat) (cls : UInt8 → Bool) (run rest : Bytes) (caps : List Bytes)
    (k : Bytes → List Bytes → Option (Bytes × List Bytes)) (res : Bytes × List Bytes)
    (hne : run ≠ []) (hrun : ∀ b ∈ run, cls b = true)
    (hrest : ∀ x r, rest = x :: r → cls x = false)
    (hk : k rest (caps.set (i - 1) run) = some res) :
    (Regexp.cap i (.plus cls)).matchK (run ++ rest) caps k = some res := by
  rw [cap_eq]
  cases run with
  | nil => exact absurd rfl hne
  | cons a run =>
    simp only [List.cons_append, Regexp.matchK, hrun a (List.mem_cons_self _ _), if_true]
    apply starK_run cls run rest caps _ res (fun b hb => hrun b (List.mem_cons_of_mem _ hb)) hrest
    have e : (a :: (run ++ rest)).length - rest.length = (a :: run).length := by
      simp only [List.length_cons, List.length_append]
      omega
    rw [e]
    have e₂ : List.take (a :: run).length (a :: (run ++ rest)) = a :: run := by
      rw [← List.cons_append, List.take_left]
    rw [e₂]
    exact hk

/-! ## Lemmas on the login pattern -/

theorem plus_cons (cls : UInt8 → Bool) (b : UInt8) (rest : Bytes) (caps : List Bytes)
    (k : Bytes → List Bytes → Option (Bytes × List Bytes)) :
    (Regexp.plus cls).matchK (b :: rest) caps k =
      if cls b then starK cls rest caps k else none := by
  rw [Regexp.matchK]

/-- The pattern after the optional prefix: `\x00([A-z0-9@._-]+)\x00([\S]+)`. -/
theorem loginRE_unfold (s : Bytes) (caps : List Bytes)
    (k : Bytes → List Bytes → Option (Bytes × List Bytes)) :
    loginRE.matchK s caps k =
      (Regexp.opt (.plus notSpace)).matchK s caps (fun s' caps' =>
        (Regexp.seq (.lit [0]) (.seq (.cap 1 (.plus loginClass))
          (.seq (.lit [0]) (.cap 2 (.plus notSpace))))).matchK s' caps' k) := by
  rw [loginRE, seq_eq]

/-- The tail of the login pattern fails on an input that does not start with NUL. -/
theorem loginTail_none (v : Bytes) (caps : List Bytes)
    (k : Bytes → List Bytes → Option (Bytes × List Bytes))
    (h : ∀ x r, v = x :: r → x ≠ 0) :
    (Regexp.seq (.lit [0]) (.seq (.cap 1 (.plus loginClass))
      (.seq (.lit [0]) (.cap 2 (.plus notSpace))))).matchK v caps k = none := by
  rw [seq_eq]
  exact lit_matchK_head 0 [] v caps _ h

/-- The tail of the login pattern on `NUL authcid NUL password`. -/
theorem loginTail_some (A W : Bytes) (c₁ c₂ : Bytes)
    (hA : A ≠ []) (hAc : ∀ b ∈ A, loginClass b = true)
    (hW : W ≠ []) (hWc : ∀ b ∈ W, notSpace b = true) :
    (Regexp.seq (.lit [0]) (.seq (.cap 1 (.plus loginClass))
      (.seq (.lit [0]) (.cap 2 (.plus notSpace))))).matchK ([0] ++ (A ++ ([0] ++ (W ++ []))))
        [c₁, c₂] (fun s' caps => some (s', caps)) = some ([], [A, W]) := by
  rw [seq_eq, lit_matchK_append, seq_eq]
  apply capPlus_run 1 loginClass A _ _ _ _ hA hAc
  · intro x r e
    simp only [List.singleton_append, List.cons.injEq] at e
    rw [← e.1]
    decide
  · rw [seq_eq, lit_matchK_append]
    apply capPlus_run 2 notSpace W [] _ _ _ hW hWc
    · intro x r e
      exact List.noConfusion e
    · simp

/-- A suffix of `authcid NUL password` on which the tail of the login pattern could start
does not exist: the tail fails on all of them. -/
theorem loginTail_suffix_none (A W v : Bytes) (caps : List Bytes)
    (k : Bytes → List Bytes → Option (Bytes × List Bytes))
    (hAc : ∀ b ∈ A, loginClass b = true) (hW0 : ∀ b ∈ W, b ≠ 0)
    (hv : v <:+ A ++ ([0] ++ (W ++ []))) :
    (Regexp.seq (.lit [0]) (.seq (.cap 1 (.plus loginClass))
      (.seq (.lit [0]) (.cap 2 (.plus notSpace))))).matchK v caps k = none := by
  simp only [List.append_nil] at hv
  induction A with
  | nil =>
    simp only [List.nil_append, List.singleton_append] at hv
    rcases List.suffix_cons_iff.1 hv with rfl | hv
    · rw [seq_eq]
      have e : (0 : UInt8) :: W = [0] ++ W := rfl
      rw [e, lit_matchK_append, seq_eq, cap_eq]
      cases W with
      | nil => simp [Regexp.matchK]
      | cons w W =>
        simp only [Regexp.matchK]
        split
        · apply starK_none
          intro x hx
          have hx0 : ∀ y r, x = y :: r → y ≠ 0 := by
            intro y r e
            exact hW0 y (List.mem_cons_of_mem _ (hx.subset (by rw [e]; exact List.mem_cons_self _ _)))
          cases x with
          | nil => simp [List.isPrefixOf]
          | cons y r =>
            have := hx0 y r rfl
            simp [List.isPrefixOf, this.symm]
        · rfl
    · apply loginTail_none
      intro x r e
      exact hW0 x (hv.subset (by rw [e]; exact List.mem_cons_self _ _))
  | cons a A ih =>
    rcases List.suffix_cons_iff.1 hv with rfl | hv
    · apply loginTail_none
      intro x r e
      simp only [List.cons_append, List.cons.injEq] at e
      rw [← e.1]
      intro h0
      have := hAc a (List.mem_cons_self _ _)
      rw [h0] at this
      revert this
      decide
    · exact ih (fun b hb => hAc b (List.mem_cons_of_mem _ hb)) hv

/-- On a payload `[authzid] NUL authcid NUL password` whose authzid and password hold
neither white space nor NUL and whose authcid is in the class of the pattern, the login
pattern matches the whole payload and captures authcid and password. -/
theorem loginRE_on_form (Z A W : Bytes)
    (hZ : ∀ b ∈ Z, notSpace b = true)
    (hA : A ≠ []) (hAc : ∀ b ∈ A, loginClass b = true)
    (hW : W ≠ []) (hWc : ∀ b ∈ W, notSpace b = true) (hW0 : ∀ b ∈ W, b ≠ 0) :
    loginRE.FindStringSubmatch (Z ++ [0] ++ A ++ [0] ++ W) = [Z ++ [0] ++ A ++ [0] ++ W, A, W] := by
  have hshape : Z ++ [0] ++ A ++ [0] ++ W = Z ++ ([0] ++ (A ++ ([0] ++ (W ++ [])))) := by simp
  have hcaps : List.replicate loginRE.numCap ([] : Bytes) = [[], []] := by decide
  have hk : loginRE.matchK (Z ++ ([0] ++ (A ++ ([0] ++ (W ++ []))))) [[], []]
      (fun s' caps => some (s', caps)) = some ([], [A, W]) := by
    rw [loginRE_unfold, Regexp.matchK]
    cases Z with
    | nil =>
      have h₁ : (Regexp.plus notSpace).matchK ([] ++ ([0] ++ (A ++ ([0] ++ (W ++ []))))) [[], []]
          (fun s' caps' => (Regexp.seq (.lit [0]) (.seq (.cap 1 (.plus loginClass))
            (.seq (.lit [0]) (.cap 2 (.plus notSpace))))).matchK s' caps'
              (fun s' caps => some (s', caps))) = none := by
        simp only [List.nil_append, List.singleton_append, plus_cons]
        split
        · apply starK_none
          intro v hv
          exact loginTail_suffix_none A W v _ _ hAc hW0 (by simpa using hv)
        · rfl
      rw [h₁]
      simp only [Option.orElse, List.nil_append]
      exact loginTail_some A W [] [] hA hAc hW hWc
    | cons z Z =>
      have hz : notSpace z = true := hZ z (List.mem_cons_self _ _)
      have h₁ : (Regexp.plus notSpace).matchK (z :: Z ++ ([0] ++ (A ++ ([0] ++ (W ++ []))))) [[], []]
          (fun s' caps' => (Regexp.seq (.lit [0]) (.seq (.cap 1 (.plus loginClass))
            (.seq (.lit [0]) (.cap 2 (.plus notSpace))))).matchK s' caps'
              (fun s' caps => some (s', caps))) = some ([], [A, W]) := by
        simp only [List.cons_append, plus_cons, hz, if_true]
        apply starK_mid notSpace Z _ _ _ _ (fun b hb => hZ b (List.mem_cons_of_mem _ hb))
        · intro w hw hne
          rcases List.suffix_cons_iff.1 hw with rfl | hw
          · exact absurd rfl hne
          · exact loginTail_suffix_none A W w _ _ hAc hW0 hw
        · exact loginTail_some A W [] [] hA hAc hW hWc
      rw [h₁]
      rfl
  have hmatch : loginRE.matchAt (Z ++ ([0] ++ (A ++ ([0] ++ (W ++ []))))) =
      some [Z ++ ([0] ++ (A ++ ([0] ++ (W ++ [])))), A, W] := by
    simp only [Regexp.matchAt, hcaps, hk]
    simp
  rw [hshape]
  unfold Regexp.FindStringSubmatch
  cases hp : Z ++ ([0] ++ (A ++ ([0] ++ (W ++ [])))) with
  | nil => simp at hp
  | cons p ps =>
    rw [hp] at hmatch
    simp [Regexp.find, hmatch, Option.orElse]

/-- The group `(cls+)` captures a non-empty run of the class and hands the rest on. -/
theorem capPlus_inv (i : Nat) (cls : UInt8 → Bool) (s : Bytes) (caps : List Bytes)
    (k : Bytes → List Bytes → Option (Bytes × List Bytes)) (res : Bytes × List Bytes)
    (h : (Regexp.cap i (.plus cls)).matchK s caps k = some res) :
    ∃ g rest, s = g ++ rest ∧ g ≠ [] ∧ (∀ b ∈ g, cls b = true) ∧
      k rest (caps.set (i - 1) g) = some res := by
  rw [cap_eq] at h
  obtain ⟨n, hn, hall, hk⟩ := plus_inv _ _ _ _ _ h
  have e : s.length - (List.drop (n + 1) s).length = n + 1 := by
    simp only [List.length_drop]
    omega
  rw [e] at hk
  refine ⟨s.take (n + 1), s.drop (n + 1), (List.take_append_drop _ _).symm, ?_, hall, hk⟩
  intro h0
  have := congrArg List.length h0
  simp only [List.length_take, List.length_nil] at this
  omega

/-- Every match of the login pattern captures two groups: a non-empty run of the class
`[A-z0-9@._-]` and a non-empty run without white space. -/
theorem loginRE_find (s : Bytes) (out : List Bytes) (h : loginRE.find s = some out) :
    ∃ whole u p, out = [whole, u, p] ∧ u ≠ [] ∧ (∀ b ∈ u, loginClass b = true) ∧
      p ≠ [] ∧ ∀ b ∈ p, notSpace b = true := by
  obtain ⟨t, -, hm⟩ := find_some _ _ _ h
  simp only [Regexp.matchAt] at hm
  split at hm
  · rename_i s' caps hk
    simp only [Option.some.injEq] at hm
    subst hm
    have hcaps : List.replicate loginRE.numCap ([] : Bytes) = [[], []] := by decide
    rw [hcaps, loginRE_unfold] at hk
    have key : ∀ v, (Regexp.seq (.lit [0]) (.seq (.cap 1 (.plus loginClass))
        (.seq (.lit [0]) (.cap 2 (.plus notSpace))))).matchK v [[], []]
          (fun s' caps => some (s', caps)) = some (s', caps) →
        ∃ u p, caps = [u, p] ∧ u ≠ [] ∧ (∀ b ∈ u, loginClass b = true) ∧
          p ≠ [] ∧ ∀ b ∈ p, notSpace b = true := by
      intro v hv
      rw [seq_eq] at hv
      have h₁ := (lit_inv _ _ _ _ _ hv).2
      rw [seq_eq] at h₁
      obtain ⟨u, r₁, -, hu, huc, h₂⟩ := capPlus_inv _ _ _ _ _ _ h₁
      rw [seq_eq] at h₂
      have h₃ := (lit_inv _ _ _ _ _ h₂).2
      obtain ⟨p, r₂, -, hp, hpc, h₄⟩ := capPlus_inv _ _ _ _ _ _ h₃
      simp only [Option.some.injEq, Prod.mk.injEq] at h₄
      exact ⟨u, p, by rw [← h₄.2]; simp [List.set], hu, huc, hp, hpc⟩
    have : ∃ u p, caps = [u, p] ∧ u ≠ [] ∧ (∀ b ∈ u, loginClass b = true) ∧
        p ≠ [] ∧ ∀ b ∈ p, notSpace b = true := by
      rcases opt_inv _ _ _ _ _ hk with h₁ | h₁
      · obtain ⟨n, -, -, h₂⟩ := plus_inv _ _ _ _ _ h₁
        exact key _ h₂
      · exact key _ h₁
    obtain ⟨u, p, rfl, hrest⟩ := this
    exact ⟨_, u, p, rfl, hrest⟩
  · simp at hm

/-! ## Lemmas on first-match dispatch -/

theorem opt_eq (r : Regexp) (s : Bytes) (caps : List Bytes)
    (k : Bytes → List Bytes → Option (Bytes × List Bytes)) :
    (Regexp.opt r).matchK s caps k = (r.matchK s caps k).orElse (fun _ => k s caps) := by
  rw [Regexp.matchK]

/-- The pattern of `HEADER.FIELDS` on a token of that form whose list is a non-empty run
of the class `[A-z\s-]`: the match is the whole token and the group is the list. -/
theorem headerFieldsRE_on_token (peek : Bool) (list : Bytes) (hne : list ≠ [])
    (hcls : ∀ b ∈ list, fieldClass b = true) :
    headerFieldsRE.FindStringSubmatch (headerFieldsToken peek list) =
      [headerFieldsToken peek list, list] := by
  have hcaps : List.replicate headerFieldsRE.numCap ([] : Bytes) = [[]] := by decide
  have htail : (Regexp.seq (.lit (str "[HEADER.FIELDS (")) (.seq (.cap 1 (.plus fieldClass))
      (.lit (str ")]")))).matchK (str "[HEADER.FIELDS (" ++ (list ++ str ")]")) [[]]
        (fun s' caps => some (s', caps)) = some ([], [list]) := by
    rw [seq_eq, lit_matchK_append, seq_eq]
    apply capPlus_run 1 fieldClass list _ _ _ _ hne hcls
    · intro x r e
      have e' : str ")]" = [41, 93] := by decide
      rw [e'] at e
      simp only [List.cons.injEq] at e
      rw [← e.1]
      decide
    · have h := lit_matchK_append (str ")]") [] ([[]].set (1 - 1) list)
        (fun s' caps => some (s', caps))
      simp only [List.append_nil] at h
      rw [h]
      simp
  have hk : headerFieldsRE.matchK (headerFieldsToken peek list) [[]]
      (fun s' caps => some (s', caps)) = some ([], [list]) := by
    rw [headerFieldsRE, bodyRE, headerFieldsToken, seq_eq, lit_matchK_append, seq_eq, opt_eq]
    cases peek with
    | true =>
      simp only [if_true]
      rw [lit_matchK_append, htail]
      rfl
    | false =>
      have e : str ".PEEK" = 46 :: str "PEEK" := by decide
      have e₂ : str "[HEADER.FIELDS (" = 91 :: str "HEADER.FIELDS (" := by decide
      have hnone : (Regexp.lit (str ".PEEK")).matchK
          ([] ++ (str "[HEADER.FIELDS (" ++ (list ++ str ")]"))) [[]]
          (fun s' caps' => (Regexp.seq (.lit (str "[HEADER.FIELDS ("))
            (.seq (.cap 1 (.plus fieldClass)) (.lit (str ")]")))).matchK s' caps'
              (fun s' caps => some (s', caps))) = none := by
        rw [e]
        apply lit_matchK_head
        intro x r hx
        rw [e₂] at hx
        simp only [List.nil_append, List.cons_append, List.cons.injEq] at hx
        rw [← hx.1]
        decide
      simp only [Bool.false_eq_true, if_false]
      rw [hnone]
      simp only [Option.orElse, List.nil_append]
      exact htail
  have hmatch : headerFieldsRE.matchAt (headerFieldsToken peek list) =
      some [headerFieldsToken peek list, list] := by
    simp only [Regexp.matchAt, hcaps, hk]
    simp
  unfold Regexp.FindStringSubmatch
  cases hp : headerFieldsToken peek list with
  | nil =>
    have e : str "BODY" = 66 :: str "ODY" := by decide
    rw [headerFieldsToken, e] at hp
    simp at hp
  | cons p ps =>
    rw [hp] at hmatch
    simp [Regexp.find, hmatch, Option.orElse]

/-- First-match lookup: the entry after a part of the registry that does not match
answers the token. -/
theorem fetchParamLoop_first (env : Env) (tok : Bytes) (c : Conn) (m : Message) (peek : Bool)
    (pre post : List fetchParamDefinition) (d : fetchParamDefinition)
    (hpre : ∀ e ∈ pre, e.re.MatchString tok = false) (hd : d.re.MatchString tok = true) :
    fetchParamLoop env tok c m peek (pre ++ d :: post) =
      answer (d.handler env (d.re.FindStringSubmatch tok) c m peek) := by
  induction pre with
  | nil =>
    simp only [List.nil_append, fetchParamLoop, hd, if_true, answer]
  | cons e pre ih =>
    simp only [List.cons_append, fetchParamLoop, hpre e (List.mem_cons_self _ _),
      Bool.false_eq_true, if_false]
    exact ih (fun e' he' => hpre e' (List.mem_cons_of_mem _ he'))

/-- The answer of `fetchParam` to a token whose first matching pattern is entry `i` of
the registry. -/
theorem fetchParam_first (env : Env) (tok : Bytes) (c : Conn) (m : Message) (i : Nat)
    (d : fetchParamDefinition)
    (hi : registeredFetchParams = registeredFetchParams.take i ++
      d :: registeredFetchParams.drop (i + 1))
    (hpre : ∀ e ∈ registeredFetchParams.take i, e.re.MatchString tok = false)
    (hd : d.re.MatchString tok = true) :
    fetchParam env tok c m =
      answer (d.handler env (d.re.FindStringSubmatch tok) c m (peekRE.MatchString tok)) := by
  unfold fetchParam
  rw [hi]
  exact fetchParamLoop_first env tok c m _ _ _ d hpre hd

theorem fetchParam_exact (env : Env) (tok : Bytes) (c : Conn) (m : Message) (i : Nat)
    (d : fetchParamDefinition) (groups : List Bytes) (peek : Bool)
    (hi : registeredFetchParams = registeredFetchParams.take i ++
      d :: registeredFetchParams.drop (i + 1))
    (hpre : ∀ e ∈ registeredFetchParams.take i, e.re.MatchString tok = false)
    (hd : d.re.MatchString tok = true)
    (hg : d.re.FindStringSubmatch tok = groups) (hp : peekRE.MatchString tok = peek) :
    fetchParam env tok c m = answer (d.handler env groups c m peek) := by
  rw [fetchParam_first env tok c m i d hi hpre hd, hg, hp]

/-- C14 as stated fails: `XUIDX` is not one of the supported forms yet is answered by
`fetchUID`; the token `BODY[HEADER.FIELDS (X-UID)]` is answered by `fetchUID`, not by
`fetchHeaderSpecificFields`, although the `HEADER.FIELDS` pattern matches it; and the
token `BODY[HEADER.FIELDS (X-Priority1)]` is answered by no handler. -/
theorem fetchParam_dispatch_counterexample :
    fetchParam sampleEnv (str "XUIDX") (sampleSelected .readOnly) (sampleMessage 101 1) =
        .ok (str "UID 101") ∧
      headerFieldsRE.MatchString (str "BODY[HEADER.FIELDS (X-UID)]") = true ∧
      fetchParam sampleEnv (str "BODY[HEADER.FIELDS (X-UID)]") (sampleSelected .readOnly)
          (sampleMessage 101 1) = .ok (str "UID 101") ∧
      fetchParam sampleEnv (str "BODY[HEADER.FIELDS (X-Priority1)]") (sampleSelected .readOnly)
          (sampleMessage 101 1) = .err .ErrUnrecognisedParameter := by
  decide

/-- C14 (amended): lookup is first-match in registration order on patterns that match
anywhere in the token. The tokens that are exactly `UID`, `FLAGS`, `RFC822.SIZE`,
`INTERNALDATE`, `BODYSTRUCTURE`, and `BODY` or `BODY.PEEK` followed by `[HEADER]`,
`[TEXT]` or `[]` are answered by the handler of their form; a token
`BODY[HEADER.FIELDS (list)]` or `BODY.PEEK[HEADER.FIELDS (list)]` whose list is a
non-empty run of `[A-z\s-]` and that none of the five patterns registered before matches
is answered by `fetchHeaderSpecificFields` with the list as group 1; and a token yields
`ErrUnrecognisedParameter` exactly when no registered pattern matches it. -/
theorem fetchParam_dispatch (env : Env) (c : Conn) (m : Message) (peek : Bool) (list : Bytes)
    (hne : list ≠ []) (hcls : ∀ b ∈ list, fieldClass b = true)
    (hfree : ∀ d ∈ registeredFetchParams.take 5,
      d.re.MatchString (headerFieldsToken peek list) = false) :
    (fetchParam env (str "UID") c m = answer (fetchUID env [str "UID"] c m false) ∧
      fetchParam env (str "FLAGS") c m = answer (fetchFlags env [str "FLAGS"] c m false) ∧
      fetchParam env (str "RFC822.SIZE") c m =
        answer (fetchRfcSize env [str "RFC822.SIZE"] c m false) ∧
      fetchParam env (str "INTERNALDATE") c m =
        answer (fetchInternalDate env [str "INTERNALDATE"] c m false) ∧
      fetchParam env (str "BODYSTRUCTURE") c m =
        answer (fetchBodyStructure env [str "BODYSTRUCTURE"] c m false) ∧
      fetchParam env (str "BODY[HEADER]") c m =
        answer (fetchHeaders env [str "BODY[HEADER]"] c m false) ∧
      fetchParam env (str "BODY.PEEK[HEADER]") c m =
        answer (fetchHeaders env [str "BODY.PEEK[HEADER]"] c m true) ∧
      fetchParam env (str "BODY[TEXT]") c m = answer (fetchBody env [str "BODY[TEXT]"] c m false) ∧
      fetchParam env (str "BODY.PEEK[TEXT]") c m =
        answer (fetchBody env [str "BODY.PEEK[TEXT]"] c m true) ∧
      fetchParam env (str "BODY[]") c m = answer (fetchFullText env [str "BODY[]"] c m false) ∧
      fetchParam env (str "BODY.PEEK[]") c m =
        answer (fetchFullText env [str "BODY.PEEK[]"] c m true)) ∧
      (headerFieldsRE.FindStringSubmatch (headerFieldsToken peek list) =
          [headerFieldsToken peek list, list] ∧
        fetchParam env (headerFieldsToken peek list) c m =
          answer (fetchHeaderSpecificFields env [headerFieldsToken peek list, list] c m
            (peekRE.MatchString (headerFieldsToken peek list)))) ∧
      ∀ t, fetchParam env t c m = .err .ErrUnrecognisedParameter ↔
        ∀ d ∈ registeredFetchParams, d.re.MatchString t = false := by
  refine ⟨⟨?_, ?_, ?_, ?_, ?_, ?_, ?_, ?_, ?_, ?_, ?_⟩, ⟨?_, ?_⟩, ?_⟩
  · exact fetchParam_exact env (str "UID") c m 0 ⟨uidRE, fetchUID⟩ [str "UID"] false rfl
      (by decide) (by decide) (by decide) (by decide)
  · exact fetchParam_exact env (str "FLAGS") c m 1 ⟨flagsRE, fetchFlags⟩ [str "FLAGS"] false rfl
      (by decide) (by decide) (by decide) (by decide)
  · exact fetchParam_exact env (str "RFC822.SIZE") c m 2 ⟨rfcSizeRE, fetchRfcSize⟩ [str "RFC822.SIZE"] false rfl
      (by decide) (by decide) (by decide) (by decide)
  · exact fetchParam_exact env (str "INTERNALDATE") c m 3 ⟨internalDateRE, fetchInternalDate⟩ [str "INTERNALDATE"] false rfl
      (by decide) (by decide) (by decide) (by decide)
  · exact fetchParam_exact env (str "BODYSTRUCTURE") c m 8 ⟨bodyStructureRE, fetchBodyStructure⟩ [str "BODYSTRUCTURE"] false rfl
      (by decide) (by decide) (by decide) (by decide)
  · exact fetchParam_exact env (str "BODY[HEADER]") c m 4 ⟨headersRE, fetchHeaders⟩ [str "BODY[HEADER]"] false rfl
      (by decide) (by decide) (by decide) (by decide)
  · exact fetchParam_exact env (str "BODY.PEEK[HEADER]") c m 4 ⟨headersRE, fetchHeaders⟩ [str "BODY.PEEK[HEADER]"] true rfl
      (by decide) (by decide) (by decide) (by decide)
  · exact fetchParam_exact env (str "BODY[TEXT]") c m 6 ⟨bodyTextRE, fetchBody⟩ [str "BODY[TEXT]"] false rfl
      (by decide) (by decide) (by decide) (by decide)
  · exact fetchParam_exact env (str "BODY.PEEK[TEXT]") c m 6 ⟨bodyTextRE, fetchBody⟩ [str "BODY.PEEK[TEXT]"] true rfl
      (by decide) (by decide) (by decide) (by decide)
  · exact fetchParam_exact env (str "BODY[]") c m 7 ⟨fullTextRE, fetchFullText⟩ [str "BODY[]"] false rfl
      (by decide) (by decide) (by decide) (by decide)
  · exact fetchParam_exact env (str "BODY.PEEK[]") c m 7 ⟨fullTextRE, fetchFullText⟩ [str "BODY.PEEK[]"] true rfl
      (by decide) (by decide) (by decide) (by decide)
  · exact headerFieldsRE_on_token peek list hne hcls
  · have hsub := headerFieldsRE_on_token peek list hne hcls
    have hd : headerFieldsRE.MatchString (headerFieldsToken peek list) = true := by
      unfold Regexp.MatchString
      unfold Regexp.FindStringSubmatch at hsub
      cases hf : headerFieldsRE.find (headerFieldsToken peek list) with
      | none => simp [hf] at hsub
      | some o => rfl
    exact fetchParam_exact env _ c m 5 ⟨headerFieldsRE, fetchHeaderSpecificFields⟩ _ _ rfl hfree
      hd hsub rfl
  · intro t
    rcases fetchParam_cases env t c m with ⟨hno, he⟩ | ⟨⟨d, hd, hm⟩, r, hr⟩
    · exact ⟨fun _ => hno, fun _ => he⟩
    · constructor
      · intro h
        rw [hr] at h
        exact Result.noConfusion h
      · intro h
        rw [h d hd] at hm
        exact Bool.noConfusion hm

/-- C14 (amended) on the token `BODY[HEADER.FIELDS (From To)]`. -/
theorem fetchParam_dispatch_witness :
    str "From To" ≠ [] ∧
      (∀ b ∈ str "From To", fieldClass b = true) ∧
      (∀ d ∈ registeredFetchParams.take 5,
        d.re.MatchString (headerFieldsToken false (str "From To")) = false) ∧
      headerFieldsToken false (str "From To") = str "BODY[HEADER.FIELDS (From To)]" ∧
      fetchParam sampleEnv (headerFieldsToken false (str "From To")) (sampleSelected .readOnly)
          (sampleMessage 101 1) =
        answer (fetchHeaderSpecificFields sampleEnv
          [headerFieldsToken false (str "From To"), str "From To"] (sampleSelected .readOnly)
          (sampleMessage 101 1) (peekRE.MatchString (headerFieldsToken false (str "From To")))) :=
  ⟨by decide, by decide, by decide, by decide,
    (fetchParam_dispatch sampleEnv (sampleSelected .readOnly) (sampleMessage 101 1) false
      (str "From To") (by decide) (by decide) (by decide)).2.1.2⟩

/-! ## Lemmas on letter case -/

theorem isPrefixOf_head (b : UInt8) (bs s : Bytes) (h : (b :: bs).isPrefixOf s = true) :
    b ∈ s := by
  cases s with
  | nil => simp [List.isPrefixOf] at h
  | cons x r =>
    simp only [List.isPrefixOf, Bool.and_eq_true, beq_iff_eq] at h
    rw [h.1]
    exact List.mem_cons_self _ _

/-- A pattern that starts with a literal matches only strings that hold the first byte of
the literal. -/
theorem lit_start_mem (b : UInt8) (bs : Bytes) (r : Regexp) (s : Bytes) :
    ((Regexp.lit (b :: bs)).MatchString s = true → b ∈ s) ∧
      ((Regexp.seq (.lit (b :: bs)) r).MatchString s = true → b ∈ s) := by
  constructor
  · intro h
    unfold Regexp.MatchString at h
    cases hf : (Regexp.lit (b :: bs)).find s with
    | none => simp [hf] at h
    | some out =>
      obtain ⟨t, ht, hm⟩ := find_some _ _ _ hf
      simp only [Regexp.matchAt] at hm
      split at hm
      · rename_i s' caps hk
        exact ht.subset (isPrefixOf_head b bs t (lit_inv _ _ _ _ _ hk).1)
      · simp at hm
  · intro h
    unfold Regexp.MatchString at h
    cases hf : (Regexp.seq (.lit (b :: bs)) r).find s with
    | none => simp [hf] at h
    | some out =>
      obtain ⟨t, ht, hm⟩ := find_some _ _ _ hf
      simp only [Regexp.matchAt] at hm
      split at hm
      · rename_i s' caps hk
        rw [seq_eq] at hk
        exact ht.subset (isPrefixOf_head b bs t (lit_inv _ _ _ _ _ hk).1)
      · simp at hm

/-- Every registered pattern starts with an upper-case letter: a token it matches holds
one. -/
theorem registered_needs_upper (d : fetchParamDefinition) (hd : d ∈ registeredFetchParams)
    (t : Bytes) (hm : d.re.MatchString t = true) :
    ∃ b ∈ t, 65 ≤ b.toNat ∧ b.toNat ≤ 90 := by
  have e₁ : str "UID" = 85 :: str "ID" := by decide
  have e₂ : str "FLAGS" = 70 :: str "LAGS" := by decide
  have e₃ : str "RFC822.SIZE" = 82 :: str "FC822.SIZE" := by decide
  have e₄ : str "INTERNALDATE" = 73 :: str "NTERNALDATE" := by decide
  have e₅ : str "BODY" = 66 :: str "ODY" := by decide
  have e₆ : str "BODYSTRUCTURE" = 66 :: str "ODYSTRUCTURE" := by decide
  simp only [registeredFetchParams, List.mem_cons, List.mem_singleton, List.not_mem_nil,
    or_false] at hd
  rcases hd with rfl | rfl | rfl | rfl | rfl | rfl | rfl | rfl | rfl
  · simp only [uidRE, e₁] at hm
    exact ⟨85, (lit_start_mem _ _ (.lit []) t).1 hm, by decide⟩
  · simp only [flagsRE, e₂] at hm
    exact ⟨70, (lit_start_mem _ _ (.lit []) t).1 hm, by decide⟩
  · simp only [rfcSizeRE, e₃] at hm
    exact ⟨82, (lit_start_mem _ _ (.lit []) t).1 hm, by decide⟩
  · simp only [internalDateRE, e₄] at hm
    exact ⟨73, (lit_start_mem _ _ (.lit []) t).1 hm, by decide⟩
  · simp only [headersRE, bodyRE, e₅] at hm
    exact ⟨66, (lit_start_mem _ _ _ t).2 hm, by decide⟩
  · simp only [headerFieldsRE, bodyRE, e₅] at hm
    exact ⟨66, (lit_start_mem _ _ _ t).2 hm, by decide⟩
  · simp only [bodyTextRE, bodyRE, e₅] at hm
    exact ⟨66, (lit_start_mem _ _ _ t).2 hm, by decide⟩
  · simp only [fullTextRE, bodyRE, e₅] at hm
    exact ⟨66, (lit_start_mem _ _ _ t).2 hm, by decide⟩
  · simp only [bodyStructureRE, e₆] at hm
    exact ⟨66, (lit_start_mem _ _ (.lit []) t).1 hm, by decide⟩

/-- C15 as stated fails: `UID`, `FLAGS` and `BODY[TEXT]` are answered, while `uid`,
`flags` and `body[text]` yield `ErrUnrecognisedParameter`. -/
theorem fetchParam_case_counterexample :
    fetchParam sampleEnv (str "UID") (sampleSelected .readOnly) (sampleMessage 101 1) =
        .ok (str "UID 101") ∧
      fetchParam sampleEnv (str "uid") (sampleSelected .readOnly) (sampleMessage 101 1) =
        .err .ErrUnrecognisedParameter ∧
      fetchParam sampleEnv (str "FLAGS") (sampleSelected .readOnly) (sampleMessage 101 1) =
        .ok (str "FLAGS (\\Recent)") ∧
      fetchParam sampleEnv (str "flags") (sampleSelected .readOnly) (sampleMessage 101 1) =
        .err .ErrUnrecognisedParameter ∧
      fetchParam sampleEnv (str "BODY[TEXT]") (sampleSelected .readOnly) (sampleMessage 101 1) =
        .ok (str "BODY[TEXT] \x7b7\x7d\r\nHello\r\n") ∧
      fetchParam sampleEnv (str "body[text]") (sampleSelected .readOnly) (sampleMessage 101 1) =
        .err .ErrUnrecognisedParameter := by
  decide

/-- C15 (amended): FETCH attribute keywords are matched in upper case only. Every token
without an upper-case letter, such as `uid`, `flags` or `body[text]`, yields
`ErrUnrecognisedParameter`, for every connection and message, while the token `UID` is
answered with the UID of the message. -/
theorem fetchParam_case_sensitive (env : Env) (c : Conn) (m : Message) (t : Bytes)
    (hlow : ∀ b ∈ t, ¬ (65 ≤ b.toNat ∧ b.toNat ≤ 90)) :
    fetchParam env t c m = .err .ErrUnrecognisedParameter ∧
      fetchParam env (str "UID") c m = .ok (str "UID " ++ decimal m.UID) := by
  constructor
  · rcases fetchParam_cases env t c m with ⟨-, he⟩ | ⟨⟨d, hd, hm⟩, -⟩
    · exact he
    · obtain ⟨b, hb, hup⟩ := registered_needs_upper d hd t hm
      exact absurd hup (hlow b hb)
  · exact fetchParam_uid env _ c m (by decide)

/-- C15 (amended) on the token `body[text]`. -/
theorem fetchParam_case_sensitive_witness :
    (∀ b ∈ str "body[text]", ¬ (65 ≤ b.toNat ∧ b.toNat ≤ 90)) ∧
      (fetchParam sampleEnv (str "body[text]") (sampleSelected .readOnly) (sampleMessage 101 1) =
          .err .ErrUnrecognisedParameter ∧
        fetchParam sampleEnv (str "UID") (sampleSelected .readOnly) (sampleMessage 101 1) =
          .ok (str "UID " ++ decimal (sampleMessage 101 1).UID)) :=
  ⟨by decide, fetchParam_case_sensitive sampleEnv (sampleSelected .readOnly)
    (sampleMessage 101 1) (str "body[text]") (by decide)⟩

/-! ## Lemmas on the reply lines of `cmdFetch` -/

/-- With every token recognised, `fetch` collects the fragment of each token, in token
order, after those already collected. -/
theorem fetchLoop_fragments (env : Env) (c : Conn) (m : Message) (toks acc : List Bytes)
    (h : ∀ t ∈ toks, ∃ d ∈ registeredFetchParams, d.re.MatchString t = true) :
    ∃ frs, fetchLoop env c m toks acc = .ok (acc ++ frs) ∧
      List.Forall₂ (fun t fr => fetchParam env t c m = .ok fr) toks frs := by
  induction toks generalizing acc with
  | nil => exact ⟨[], by simp [fetchLoop], List.Forall₂.nil⟩
  | cons p rest ih =>
    rcases fetchParam_cases env p c m with ⟨hno, -⟩ | ⟨-, r, hr⟩
    · obtain ⟨d, hd, hm⟩ := h p (List.mem_cons_self _ _)
      rw [hno d hd] at hm
      exact Bool.noConfusion hm
    · obtain ⟨frs, hfrs, hall⟩ := ih (acc ++ [r]) (fun t ht => h t (List.mem_cons_of_mem _ ht))
      exact ⟨r :: frs, by simp only [fetchLoop, hr, hfrs, List.append_assoc,
        List.singleton_append], List.Forall₂.cons hr hall⟩

theorem cmdFetch_loop_eq (env : Env) (args : CommandArgs) (c : Conn) (seqSet : SequenceSet)
    (mailbox : Mailbox)
    (hg : (env.assertSelected c args.ID .readOnly).1 = true)
    (hs : env.InterpretSequenceSet (args.Arg fetchArgRange) = .ok seqSet)
    (hm : c.SelectedMailbox = some mailbox) :
    cmdFetch env args c =
      cmdFetchLoop env args c (attributeString args) (resolvedMessages args mailbox seqSet)
        ((env.assertSelected c args.ID .readOnly).2 ++
          [if ToUpper (args.Arg fetchArgUID) = str "UID " then .messageSetByUID seqSet
            else .messageSetBySequenceNumber seqSet]) := by
  simp only [cmdFetch, hg, hs, hm, attributeString, resolvedMessages]
  by_cases hu : ToUpper (args.Arg fetchArgUID) = str "UID " <;>
    cases hc : Contains (args.Arg fetchArgParams) (str "UID") <;> simp [hu, hc]

/-- C17 as stated fails: in UID mode the reply line of the attribute list `FLAGS` holds
the fragment of `UID` before the fragment of the token `FLAGS`; and on the read-write
mailbox with a store whose `Save` returns the nil message and an error (the defect of
C11) no line is written at all for the three resolved messages. -/
theorem cmdFetch_reply_lines_counterexample :
    (sampleEnv.SplitParams (str "FLAGS") = [str "FLAGS"] ∧
        fetchParam sampleEnv (str "FLAGS") (sampleSelected .readOnly) (sampleMessage 102 2) =
          .ok (str "FLAGS (\\Recent)") ∧
        clientOutput (cmdFetch sampleEnv (sampleArgs "a1" "UID " "102" "FLAGS")
            (sampleSelected .readOnly)).trace =
          [(str "", str "2 FETCH (UID 102 FLAGS (\\Recent))"),
            (str "a1", str "OK FETCH Completed")]) ∧
      ((sampleMailbox sampleMessages).MessageSetBySequenceNumber [(.num 1, .largest)] =
          sampleMessages ∧
        clientOutput (cmdFetch failingSaveEnv (sampleArgs "a1" "" "1:*" "FLAGS")
          (sampleSelected .readWrite)).trace = [] ∧
        (cmdFetch failingSaveEnv (sampleArgs "a1" "" "1:*" "FLAGS")
          (sampleSelected .readWrite)).panicked = true) := by
  decide

/-- C17 (amended): past the guard, with a well-formed sequence set resolving to
`m1..mk`, when every token of the attribute string handed to `fetch` is recognised and,
on a read-write mailbox, `Save` hands back a message with the sequence number of the one
saved, `cmdFetch` writes `k` untagged lines, the i-th being the sequence number of `mi`,
` FETCH (`, the fragments of the tokens for `mi` in token order joined by single spaces,
and `)`, followed by the tagged `OK FETCH Completed` as last line, in UID mode and
without it. -/
theorem cmdFetch_reply_lines (env : Env) (args : CommandArgs) (c : Conn) (seqSet : SequenceSet)
    (mailbox : Mailbox)
    (hg : (env.assertSelected c args.ID .readOnly).1 = true)
    (hs : env.InterpretSequenceSet (args.Arg fetchArgRange) = .ok seqSet)
    (hm : c.SelectedMailbox = some mailbox)
    (hrec : ∀ t ∈ env.SplitParams (attributeString args),
      ∃ d ∈ registeredFetchParams, d.re.MatchString t = true)
    (hst : c.mailboxWritable = .readWrite → ∀ m ∈ resolvedMessages args mailbox seqSet,
      ∃ m', (env.Save (env.RemoveFlags m .FlagRecent)).1 = some m' ∧
        m'.SequenceNumber = m.SequenceNumber) :
    ∃ frs : Message → List Bytes,
      (∀ m, List.Forall₂ (fun t fr => fetchParam env t c m = .ok fr)
        (env.SplitParams (attributeString args)) (frs m)) ∧
      clientOutput (cmdFetch env args c).trace =
        clientOutput (env.assertSelected c args.ID .readOnly).2 ++
          (resolvedMessages args mailbox seqSet).map (fun m =>
            (str "", decimal m.SequenceNumber ++ str " FETCH (" ++ Join (frs m) (str " ") ++
              str ")")) ++
          [(args.ID, str "OK FETCH Completed")] ∧
      (cmdFetch env args c).panicked = false := by
  choose frs hfrs hall using fun m =>
    fetchLoop_fragments env c m (env.SplitParams (attributeString args)) [] hrec
  refine ⟨frs, hall, ?_⟩
  have hok : ∀ m ∈ resolvedMessages args mailbox seqSet,
      fetch env (attributeString args) c m = .ok (Join (frs m) (str " ")) := by
    intro m _
    simp [fetch, hfrs m]
  obtain ⟨h₁, h₂⟩ := cmdFetchLoop_lines env args c (attributeString args)
    (fun m => Join (frs m) (str " ")) (resolvedMessages args mailbox seqSet)
    ((env.assertSelected c args.ID .readOnly).2 ++
      [if ToUpper (args.Arg fetchArgUID) = str "UID " then .messageSetByUID seqSet
        else .messageSetBySequenceNumber seqSet]) hok hst
  rw [cmdFetch_loop_eq env args c seqSet mailbox hg hs hm]
  refine ⟨?_, h₂⟩
  rw [h₁, clientOutput_append]
  have e : clientOutput [if ToUpper (args.Arg fetchArgUID) = str "UID "
      then Event.messageSetByUID seqSet else Event.messageSetBySequenceNumber seqSet] = [] := by
    split <;> rfl
  rw [e, List.append_nil]

/-- C17 (amended) on the read-write sample mailbox: `UID FETCH 1:* FLAGS`. -/
theorem cmdFetch_reply_lines_witness :
    (sampleEnv.assertSelected (sampleSelected .readWrite)
        (sampleArgs "a1" "UID " "1:*" "FLAGS").ID .readOnly).1 = true ∧
      sampleEnv.InterpretSequenceSet ((sampleArgs "a1" "UID " "1:*" "FLAGS").Arg fetchArgRange) =
        .ok [(.num 1, .largest)] ∧
      (sampleSelected .readWrite).SelectedMailbox = some (sampleMailbox sampleMessages) ∧
      (∀ t ∈ sampleEnv.SplitParams (attributeString (sampleArgs "a1" "UID " "1:*" "FLAGS")),
        ∃ d ∈ registeredFetchParams, d.re.MatchString t = true) ∧
      ((sampleSelected .readWrite).mailboxWritable = .readWrite →
        ∀ m ∈ resolvedMessages (sampleArgs "a1" "UID " "1:*" "FLAGS")
            (sampleMailbox sampleMessages) [(.num 1, .largest)],
          ∃ m', (sampleEnv.Save (sampleEnv.RemoveFlags m .FlagRecent)).1 = some m' ∧
            m'.SequenceNumber = m.SequenceNumber) ∧
      clientOutput (cmdFetch sampleEnv (sampleArgs "a1" "UID " "1:*" "FLAGS")
          (sampleSelected .readWrite)).trace =
        [(str "", str "1 FETCH (UID 101 FLAGS (\\Recent))"),
          (str "", str "2 FETCH (UID 102 FLAGS (\\Recent))"),
          (str "", str "3 FETCH (UID 103 FLAGS (\\Recent))"),
          (str "a1", str "OK FETCH Completed")] ∧
      ∃ frs : Message → List Bytes,
        (∀ m, List.Forall₂
          (fun t fr => fetchParam sampleEnv t (sampleSelected .readWrite) m = .ok fr)
          (sampleEnv.SplitParams (attributeString (sampleArgs "a1" "UID " "1:*" "FLAGS")))
          (frs m)) ∧
        clientOutput (cmdFetch sampleEnv (sampleArgs "a1" "UID " "1:*" "FLAGS")
            (sampleSelected .readWrite)).trace =
          clientOutput (sampleEnv.assertSelected (sampleSelected .readWrite)
              (sampleArgs "a1" "UID " "1:*" "FLAGS").ID .readOnly).2 ++
            (resolvedMessages (sampleArgs "a1" "UID " "1:*" "FLAGS")
              (sampleMailbox sampleMessages) [(.num 1, .largest)]).map (fun m =>
              (str "", decimal m.SequenceNumber ++ str " FETCH (" ++ Join (frs m) (str " ") ++
                str ")")) ++
            [((sampleArgs "a1" "UID " "1:*" "FLAGS").ID, str "OK FETCH Completed")] ∧
        (cmdFetch sampleEnv (sampleArgs "a1" "UID " "1:*" "FLAGS")
          (sampleSelected .readWrite)).panicked = false :=
  ⟨by decide, by rfl, rfl, by decide, fun _ => by decide, by decide,
    cmdFetch_reply_lines sampleEnv (sampleArgs "a1" "UID " "1:*" "FLAGS")
      (sampleSelected .readWrite) [(.num 1, .largest)] (sampleMailbox sampleMessages)
      (by decide) (by rfl) rfl (by decide) (fun _ => by decide)⟩

/-! ## Lemmas on the groups of the login pattern -/

theorem find_of_submatch (r : Regexp) (s : Bytes) (x : Bytes) (xs : List Bytes)
    (h : r.FindStringSubmatch s = x :: xs) : r.find s = some (x :: xs) := by
  unfold Regexp.FindStringSubmatch at h
  cases hf : r.find s with
  | none => simp [hf] at h
  | some o =>
    rw [hf] at h
    simp only [Option.getD_some] at h
    rw [h]

theorem find_cons (r : Regexp) (b : UInt8) (rest : Bytes) :
    r.find (b :: rest) = (r.matchAt (b :: rest)).orElse (fun _ => r.find rest) := by
  rw [Regexp.find]

theorem submatch_of_find (r : Regexp) (s : Bytes) (out : List Bytes)
    (h : r.find s = some out) : r.FindStringSubmatch s = out := by
  simp [Regexp.FindStringSubmatch, h]

/-- After an authzid without NUL, the tail of the login pattern succeeds on a suffix of
the payload only at the NUL before authcid, with the groups authcid and password. -/
theorem loginTail_on_suffix (Z A W v : Bytes) (c₁ c₂ : Bytes) (res : Bytes × List Bytes)
    (hZ : ∀ b ∈ Z, b ≠ 0)
    (hA : A ≠ []) (hAc : ∀ b ∈ A, loginClass b = true)
    (hW : W ≠ []) (hWc : ∀ b ∈ W, notSpace b = true) (hW0 : ∀ b ∈ W, b ≠ 0)
    (hv : v <:+ Z ++ ([0] ++ (A ++ ([0] ++ (W ++ [])))))
    (h : (Regexp.seq (.lit [0]) (.seq (.cap 1 (.plus loginClass))
      (.seq (.lit [0]) (.cap 2 (.plus notSpace))))).matchK v [c₁, c₂]
        (fun s' caps => some (s', caps)) = some res) :
    res = ([], [A, W]) := by
  induction Z with
  | nil =>
    simp only [List.nil_append, List.singleton_append] at hv
    rcases List.suffix_cons_iff.1 hv with rfl | hv
    · have := loginTail_some A W c₁ c₂ hA hAc hW hWc
      simp only [List.singleton_append] at this
      rw [this] at h
      exact (Option.some.inj h).symm
    · rw [loginTail_suffix_none A W v _ _ hAc hW0 hv] at h
      exact Option.noConfusion h
  | cons z Z ih =>
    rcases List.suffix_cons_iff.1 hv with rfl | hv
    · rw [loginTail_none] at h
      · exact Option.noConfusion h
      · intro x r e
        simp only [List.cons_append, List.cons.injEq] at e
        rw [← e.1]
        exact hZ z (List.mem_cons_self _ _)
    · exact ih (fun b hb => hZ b (List.mem_cons_of_mem _ hb)) hv

/-- After an authzid without NUL, a match of the login pattern anchored at any place of
the payload has the groups authcid and password. -/
theorem loginRE_matchAt_groups (Z A W s : Bytes)
    (hZ : ∀ b ∈ Z, b ≠ 0)
    (hA : A ≠ []) (hAc : ∀ b ∈ A, loginClass b = true)
    (hW : W ≠ []) (hWc : ∀ b ∈ W, notSpace b = true) (hW0 : ∀ b ∈ W, b ≠ 0)
    (hs : s <:+ Z ++ ([0] ++ (A ++ ([0] ++ (W ++ [])))))
    (out : List Bytes) (h : loginRE.matchAt s = some out) :
    ∃ whole, out = [whole, A, W] := by
  have hcaps : List.replicate loginRE.numCap ([] : Bytes) = [[], []] := by decide
  simp only [Regexp.matchAt, hcaps] at h
  split at h
  · rename_i s' caps hk
    simp only [Option.some.injEq] at h
    rw [loginRE_unfold] at hk
    have hres : (s', caps) = ([], [A, W]) := by
      rcases opt_inv _ _ _ _ _ hk with h₁ | h₁
      · obtain ⟨n, -, -, h₂⟩ := plus_inv _ _ _ _ _ h₁
        exact loginTail_on_suffix Z A W _ [] [] _ hZ hA hAc hW hWc hW0
          ((List.drop_suffix _ _).trans hs) h₂
      · exact loginTail_on_suffix Z A W _ [] [] _ hZ hA hAc hW hWc hW0 hs h₁
    simp only [Prod.mk.injEq] at hres
    exact ⟨_, by rw [← h, hres.2]⟩
  · simp at h

/-- On a payload `[authzid] NUL authcid NUL password` whose authzid holds no NUL, or no
white space, whose authcid is in the class of the pattern and whose password holds
neither white space nor NUL, the groups of the login pattern are authcid and password. -/
theorem loginRE_groups (Z A W : Bytes)
    (hZ : (∀ b ∈ Z, b ≠ 0) ∨ (∀ b ∈ Z, notSpace b = true))
    (hA : A ≠ []) (hAc : ∀ b ∈ A, loginClass b = true)
    (hW : W ≠ []) (hWc : ∀ b ∈ W, notSpace b = true) (hW0 : ∀ b ∈ W, b ≠ 0) :
    ∃ whole, loginRE.FindStringSubmatch (Z ++ [0] ++ A ++ [0] ++ W) = [whole, A, W] := by
  rcases hZ with hZ | hZ
  · have hshape : Z ++ [0] ++ A ++ [0] ++ W = Z ++ ([0] ++ (A ++ ([0] ++ (W ++ [])))) := by simp
    rw [hshape]
    have key : ∀ Z' : Bytes, Z' <:+ Z →
        ∃ whole, loginRE.find (Z' ++ ([0] ++ (A ++ ([0] ++ (W ++ []))))) = some [whole, A, W] := by
      intro Z'
      induction Z' with
      | nil =>
        intro _
        have := loginRE_on_form [] A W (by simp) hA hAc hW hWc hW0
        have hsh : ([] : Bytes) ++ [0] ++ A ++ [0] ++ W =
            [] ++ ([0] ++ (A ++ ([0] ++ (W ++ [])))) := by simp
        rw [hsh] at this
        exact ⟨_, find_of_submatch _ _ _ _ this⟩
      | cons z Z' ih =>
        intro hsuf
        have hsuf' : Z' <:+ Z := (List.suffix_cons z Z').trans hsuf
        obtain ⟨whole, hw⟩ := ih hsuf'
        have e : (z :: Z') ++ ([0] ++ (A ++ ([0] ++ (W ++ [])))) =
            z :: (Z' ++ ([0] ++ (A ++ ([0] ++ (W ++ []))))) := rfl
        rw [e, find_cons]
        have hs : z :: (Z' ++ ([0] ++ (A ++ ([0] ++ (W ++ []))))) <:+
            Z ++ ([0] ++ (A ++ ([0] ++ (W ++ [])))) := by
          obtain ⟨pre, hpre⟩ := hsuf
          exact ⟨pre, by rw [← hpre]; simp⟩
        cases hm : loginRE.matchAt (z :: (Z' ++ ([0] ++ (A ++ ([0] ++ (W ++ [])))))) with
        | none =>
          simp only [Option.orElse]
          exact ⟨whole, hw⟩
        | some out =>
          simp only [Option.orElse]
          obtain ⟨whole', rfl⟩ := loginRE_matchAt_groups Z A W _ hZ hA hAc hW hWc hW0 hs out hm
          exact ⟨whole', rfl⟩
    obtain ⟨whole, hw⟩ := key Z (List.suffix_refl _)
    exact ⟨whole, submatch_of_find _ _ _ hw⟩
  · exact ⟨_, loginRE_on_form Z A W hZ hA hAc hW hWc hW0⟩

/-- The login pattern matches a payload exactly when `FindSubmatch` returns the three
slices. -/
theorem loginRE_match_iff (data : Bytes) :
    loginRE.MatchString data = true ↔
      ∃ whole u p, loginRE.FindStringSubmatch data = [whole, u, p] := by
  constructor
  · intro h
    cases hf : loginRE.find data with
    | none => simp [Regexp.MatchString, hf] at h
    | some out =>
      obtain ⟨whole, u, p, rfl, -⟩ := loginRE_find _ _ hf
      exact ⟨whole, u, p, submatch_of_find _ _ _ hf⟩
  · rintro ⟨whole, u, p, h⟩
    simp [Regexp.MatchString, find_of_submatch _ _ _ _ h]

/-! ## The credentials of `cmdAuthPlain` -/

/-- C4 as stated fails: the payload `\0al!ce\0secret` has the form of the credential
grammar, with authcid `al!ce` and password `secret`, and the store accepts every pair, but
the reply is the tagged `NO Incorrect username/password` and the state stays
`NotAuthenticated`: the class of the login pattern has no `!`. -/
theorem cmdAuthPlain_credentials_counterexample :
    DecodeString bangLine = some (0 :: str "al!ce" ++ 0 :: str "secret") ∧
      specCredentials (0 :: str "al!ce" ++ 0 :: str "secret") =
        some (str "al!ce", str "secret") ∧
      (acceptingMailstore.Authenticate (str "al!ce") (str "secret")).2 = none ∧
      clientOutput (cmdAuthPlain (sampleArgs "a1" "PLAIN" "" "") (acceptingConn [bangLine])).trace =
        [(str "+", str ""), (str "a1", str "NO Incorrect username/password")] ∧
      (cmdAuthPlain (sampleArgs "a1" "PLAIN" "" "") (acceptingConn [bangLine])).conn.state =
        .StateNotAuthenticated := by
  decide

/-- C4 (amended): when the continuation line decodes to a payload in which the login
pattern finds a match, `cmdAuthPlain` hands groups 1 and 2 to `Authenticate`; when it
accepts, the state becomes `Authenticated` and the reply is the tagged `OK Authenticated`;
when it rejects, the state is the one before the command and the reply is the tagged
`NO Incorrect username/password`. On a payload `[authzid] NUL authcid NUL password` whose
authzid holds no NUL, or no white space, whose authcid is a non-empty run of
`[A-z0-9@._-]` and whose password is a non-empty run without white space and NUL, the
pair handed over and answered for is (authcid, password). -/
theorem cmdAuthPlain_credentials (args : CommandArgs) (c : Conn) (line : Bytes)
    (pending : List Bytes) (data : Bytes)
    (hin : c.RwcScanner = line :: pending) (hdec : DecodeString line = some data) :
    (∀ whole username password : Bytes,
        loginRE.FindStringSubmatch data = [whole, username, password] →
        Event.authenticate username password ∈ (cmdAuthPlain args c).trace ∧
          (cmdAuthPlain args c).conn.state =
            (if (c.Mailstore.Authenticate username password).2 = none then .StateAuthenticated
              else c.state) ∧
          clientOutput (cmdAuthPlain args c).trace =
            [(str "+", str ""),
              (args.ID, if (c.Mailstore.Authenticate username password).2 = none
                then str "OK Authenticated" else str "NO Incorrect username/password")]) ∧
      ∀ Z A W : Bytes, data = Z ++ [0] ++ A ++ [0] ++ W →
        ((∀ b ∈ Z, b ≠ 0) ∨ (∀ b ∈ Z, notSpace b = true)) →
        A ≠ [] → (∀ b ∈ A, loginClass b = true) →
        W ≠ [] → (∀ b ∈ W, notSpace b = true) → (∀ b ∈ W, b ≠ 0) →
        Event.authenticate A W ∈ (cmdAuthPlain args c).trace ∧
          (∀ u p, Event.authenticate u p ∈ (cmdAuthPlain args c).trace → u = A ∧ p = W) ∧
          (cmdAuthPlain args c).conn.state =
            (if (c.Mailstore.Authenticate A W).2 = none then .StateAuthenticated
              else c.state) ∧
          clientOutput (cmdAuthPlain args c).trace =
            [(str "+", str ""),
              (args.ID, if (c.Mailstore.Authenticate A W).2 = none
                then str "OK Authenticated" else str "NO Incorrect username/password")] := by
  have hcall : ∀ whole username password : Bytes,
      loginRE.FindStringSubmatch data = [whole, username, password] →
      Event.authenticate username password ∈ (cmdAuthPlain args c).trace ∧
        (cmdAuthPlain args c).conn.state =
          (if (c.Mailstore.Authenticate username password).2 = none then .StateAuthenticated
            else c.state) ∧
        clientOutput (cmdAuthPlain args c).trace =
          [(str "+", str ""),
            (args.ID, if (c.Mailstore.Authenticate username password).2 = none
              then str "OK Authenticated" else str "NO Incorrect username/password")] := by
    intro whole username password hre
    cases hr : (c.Mailstore.Authenticate username password).2 with
    | none => simp [cmdAuthPlain, hin, hdec, hre, hr, clientOutput, Conn.SetState]
    | some e => simp [cmdAuthPlain, hin, hdec, hre, hr, clientOutput]
  refine ⟨hcall, ?_⟩
  intro Z A W hdata hZ hA hAc hW hWc hW0
  obtain ⟨whole, hre⟩ := loginRE_groups Z A W hZ hA hAc hW hWc hW0
  rw [← hdata] at hre
  obtain ⟨h₁, h₂, h₃⟩ := hcall whole A W hre
  refine ⟨h₁, ?_, h₂, h₃⟩
  intro u p hmem
  cases hr : (c.Mailstore.Authenticate A W).2 <;>
    simpa [cmdAuthPlain, hin, hdec, hre, hr] using hmem

/-- C4 (amended) on the sample store: the payload `\0alice\0secret` is accepted. -/
theorem cmdAuthPlain_credentials_witness :
    (sampleConn .StateNotAuthenticated [aliceLine]).RwcScanner = aliceLine :: [] ∧
      DecodeString aliceLine = some alicePayload ∧
      loginRE.FindStringSubmatch alicePayload = [alicePayload, str "alice", str "secret"] ∧
      alicePayload = [] ++ [0] ++ str "alice" ++ [0] ++ str "secret" ∧
      (Event.authenticate (str "alice") (str "secret") ∈
          (cmdAuthPlain (sampleArgs "a1" "PLAIN" "" "")
            (sampleConn .StateNotAuthenticated [aliceLine])).trace ∧
        (∀ u p, Event.authenticate u p ∈
            (cmdAuthPlain (sampleArgs "a1" "PLAIN" "" "")
              (sampleConn .StateNotAuthenticated [aliceLine])).trace →
          u = str "alice" ∧ p = str "secret") ∧
        (cmdAuthPlain (sampleArgs "a1" "PLAIN" "" "")
            (sampleConn .StateNotAuthenticated [aliceLine])).conn.state =
          (if ((sampleConn .StateNotAuthenticated [aliceLine]).Mailstore.Authenticate
              (str "alice") (str "secret")).2 = none then .StateAuthenticated
            else (sampleConn .StateNotAuthenticated [aliceLine]).state) ∧
        clientOutput (cmdAuthPlain (sampleArgs "a1" "PLAIN" "" "")
            (sampleConn .StateNotAuthenticated [aliceLine])).trace =
          [(str "+", str ""),
            ((sampleArgs "a1" "PLAIN" "" "").ID,
              if ((sampleConn .StateNotAuthenticated [aliceLine]).Mailstore.Authenticate
                (str "alice") (str "secret")).2 = none
              then str "OK Authenticated" else str "NO Incorrect username/password")]) ∧
      (cmdAuthPlain (sampleArgs "a1" "PLAIN" "" "")
          (sampleConn .StateNotAuthenticated [aliceLine])).conn.state = .StateAuthenticated ∧
      clientOutput (cmdAuthPlain (sampleArgs "a1" "PLAIN" "" "")
          (sampleConn .StateNotAuthenticated [aliceLine])).trace =
        [(str "+", str ""), (str "a1", str "OK Authenticated")] :=
  ⟨rfl, by decide, by decide, by decide,
    (cmdAuthPlain_credentials (sampleArgs "a1" "PLAIN" "" "")
      (sampleConn .StateNotAuthenticated [aliceLine]) aliceLine [] alicePayload rfl
      (by decide)).2 [] (str "alice") (str "secret") (by decide) (Or.inl (by decide))
      (by decide) (by decide) (by decide) (by decide) (by decide),
    by decide, by decide⟩

/-- C5 as stated fails: the payload `\0alice\0secret \0` is not of the credential grammar
(what follows its last NUL is empty), the payload `\0alice\0wrong` is of the grammar and
its pair is rejected by the store; with the same tag and starting state the first run
ends with the tagged `OK Authenticated`, the second with the tagged
`NO Incorrect username/password`. -/
theorem cmdAuthPlain_failures_counterexample :
    DecodeString trailLine = some (0 :: str "alice" ++ 0 :: str "secret " ++ [0]) ∧
      specCredentials (0 :: str "alice" ++ 0 :: str "secret " ++ [0]) = none ∧
      DecodeString wrongLine = some wrongPayload ∧
      specCredentials wrongPayload = some (str "alice", str "wrong") ∧
      (sampleMailstore.Authenticate (str "alice") (str "wrong")).2 ≠ none ∧
      clientOutput (cmdAuthPlain (sampleArgs "a1" "PLAIN" "" "")
          (sampleConn .StateNotAuthenticated [trailLine])).trace =
        [(str "+", str ""), (str "a1", str "OK Authenticated")] ∧
      clientOutput (cmdAuthPlain (sampleArgs "a1" "PLAIN" "" "")
          (sampleConn .StateNotAuthenticated [wrongLine])).trace =
        [(str "+", str ""), (str "a1", str "NO Incorrect username/password")] := by
  decide

/-- C13 as stated fails: the payload `\0alice\0sec ret` has the form of the claim, but
`Authenticate` gets the password `sec`, not `sec ret`; the payload `\0al!ce\0secret` has
the form, but `Authenticate` is not called; the payload `\0u\0p\0` has not the form, but
`Authenticate` is called, with the password `p\0`, which holds a NUL; the payload
`\0x\0y z\0alice\0secret` ends with the fields `alice` and `secret`, but `Authenticate`
gets the pair (`x`, `y`) found in the authzid. -/
theorem cmdAuthPlain_grammar_counterexample :
    (DecodeString spaceLine = some (0 :: str "alice" ++ 0 :: str "sec ret") ∧
        specCredentials (0 :: str "alice" ++ 0 :: str "sec ret") =
          some (str "alice", str "sec ret") ∧
        (cmdAuthPlain (sampleArgs "a1" "PLAIN" "" "")
            (sampleConn .StateNotAuthenticated [spaceLine])).trace =
          [.write (str "+") (str ""), .transcript (str "C: " ++ spaceLine),
            .transcript (str " (decoded) " ++ (0 :: str "alice" ++ 0 :: str "sec ret") ++ str "\n"),
            .authenticate (str "alice") (str "sec"),
            .write (str "a1") (str "NO Incorrect username/password")]) ∧
      (DecodeString bangLine = some (0 :: str "al!ce" ++ 0 :: str "secret") ∧
        specCredentials (0 :: str "al!ce" ++ 0 :: str "secret") =
          some (str "al!ce", str "secret") ∧
        (cmdAuthPlain (sampleArgs "a1" "PLAIN" "" "")
            (sampleConn .StateNotAuthenticated [bangLine])).trace =
          [.write (str "+") (str ""), .transcript (str "C: " ++ bangLine),
            .transcript (str " (decoded) " ++ (0 :: str "al!ce" ++ 0 :: str "secret") ++ str "\n"),
            .write (str "a1") (str "NO Incorrect username/password")]) ∧
      (DecodeString nulLine = some [0, 117, 0, 112, 0] ∧
        specCredentials [0, 117, 0, 112, 0] = none ∧
        (cmdAuthPlain (sampleArgs "a1" "PLAIN" "" "")
            (sampleConn .StateNotAuthenticated [nulLine])).trace =
          [.write (str "+") (str ""), .transcript (str "C: " ++ nulLine),
            .transcript (str " (decoded) " ++ [0, 117, 0, 112, 0] ++ str "\n"),
            .authenticate [117] [112, 0],
            .write (str "a1") (str "NO Incorrect username/password")]) ∧
      (DecodeString zLine =
          some (0 :: str "x" ++ 0 :: str "y z" ++ 0 :: str "alice" ++ 0 :: str "secret") ∧
        specCredentials (0 :: str "x" ++ 0 :: str "y z" ++ 0 :: str "alice" ++ 0 :: str "secret") =
          some (str "alice", str "secret") ∧
        (cmdAuthPlain (sampleArgs "a1" "PLAIN" "" "")
            (sampleConn .StateNotAuthenticated [zLine])).trace =
          [.write (str "+") (str ""), .transcript (str "C: " ++ zLine),
            .transcript (str " (decoded) " ++
              (0 :: str "x" ++ 0 :: str "y z" ++ 0 :: str "alice" ++ 0 :: str "secret") ++
              str "\n"),
            .authenticate (str "x") (str "y"),
            .write (str "a1") (str "NO Incorrect username/password")]) := by
  decide

/-- C13 (amended): `cmdAuthPlain` calls `Authenticate` exactly when the login pattern
finds a match in the decoded payload, once, with groups 1 and 2 of the match. On a payload
`[authzid] NUL authcid NUL password` whose authzid holds no NUL, or no white space, whose
authcid is a non-empty run of `[A-z0-9@._-]` and whose password is a non-empty run without
white space and NUL, it is called with exactly (authcid, password); on a payload without a
match it is not called and the reply is the tagged `NO Incorrect username/password`; the
user name it is called with is never empty and holds no NUL, the password is never empty
and holds no white space. -/
theorem cmdAuthPlain_grammar (args : CommandArgs) (c : Conn) (line : Bytes)
    (pending : List Bytes) (data : Bytes)
    (hin : c.RwcScanner = line :: pending) (hdec : DecodeString line = some data) :
    (loginRE.MatchString data = true ↔
        ∃ u p, Event.authenticate u p ∈ (cmdAuthPlain args c).trace) ∧
      (∀ whole u₀ p₀ : Bytes, loginRE.FindStringSubmatch data = [whole, u₀, p₀] →
        (cmdAuthPlain args c).trace.filter
            (fun e => match e with
              | .authenticate _ _ => true
              | _ => false) = [.authenticate u₀ p₀] ∧
          ∀ u p, Event.authenticate u p ∈ (cmdAuthPlain args c).trace ↔ (u = u₀ ∧ p = p₀)) ∧
      (∀ Z A W : Bytes, data = Z ++ [0] ++ A ++ [0] ++ W →
        ((∀ b ∈ Z, b ≠ 0) ∨ (∀ b ∈ Z, notSpace b = true)) →
        A ≠ [] → (∀ b ∈ A, loginClass b = true) →
        W ≠ [] → (∀ b ∈ W, notSpace b = true) → (∀ b ∈ W, b ≠ 0) →
        ∀ u p, Event.authenticate u p ∈ (cmdAuthPlain args c).trace ↔ (u = A ∧ p = W)) ∧
      ((loginRE.FindStringSubmatch data).length ≠ 3 →
        loginRE.MatchString data = false ∧
          (∀ u p, Event.authenticate u p ∉ (cmdAuthPlain args c).trace) ∧
          clientOutput (cmdAuthPlain args c).trace =
            [(str "+", str ""), (args.ID, str "NO Incorrect username/password")]) ∧
      ∀ u p, Event.authenticate u p ∈ (cmdAuthPlain args c).trace →
        u ≠ [] ∧ (∀ b ∈ u, loginClass b = true) ∧ (0 : UInt8) ∉ u ∧
          p ≠ [] ∧ ∀ b ∈ p, notSpace b = true := by
  have hcall : ∀ whole u₀ p₀ : Bytes, loginRE.FindStringSubmatch data = [whole, u₀, p₀] →
      (cmdAuthPlain args c).trace.filter
          (fun e => match e with
            | .authenticate _ _ => true
            | _ => false) = [.authenticate u₀ p₀] ∧
        ∀ u p, Event.authenticate u p ∈ (cmdAuthPlain args c).trace ↔ (u = u₀ ∧ p = p₀) := by
    intro whole u₀ p₀ hre
    cases hr : (c.Mailstore.Authenticate u₀ p₀).2 <;>
      simp [cmdAuthPlain, hin, hdec, hre, hr, List.filter]
  have hnone : (loginRE.FindStringSubmatch data).length ≠ 3 →
      ∀ u p, Event.authenticate u p ∉ (cmdAuthPlain args c).trace := by
    intro hlen u p
    rw [cmdAuthPlain_no_match args c line pending data hin hdec hlen]
    simp
  have hfind : ∀ u p, Event.authenticate u p ∈ (cmdAuthPlain args c).trace →
      ∃ whole, loginRE.find data = some [whole, u, p] ∧
        u ≠ [] ∧ (∀ b ∈ u, loginClass b = true) ∧ p ≠ [] ∧ ∀ b ∈ p, notSpace b = true := by
    intro u p hmem
    cases hf : loginRE.find data with
    | none =>
      have hlen : (loginRE.FindStringSubmatch data).length ≠ 3 := by
        simp [Regexp.FindStringSubmatch, hf]
      exact absurd hmem (hnone hlen u p)
    | some out =>
      obtain ⟨whole, u₀, p₀, rfl, hu, huc, hp, hpc⟩ := loginRE_find _ _ hf
      obtain ⟨rfl, rfl⟩ := ((hcall whole u₀ p₀ (submatch_of_find _ _ _ hf)).2 u p).1 hmem
      exact ⟨whole, rfl, hu, huc, hp, hpc⟩
  refine ⟨⟨?_, ?_⟩, hcall, ?_, ?_, ?_⟩
  · intro hmatch
    obtain ⟨whole, u, p, hre⟩ := (loginRE_match_iff data).1 hmatch
    exact ⟨u, p, ((hcall whole u p hre).2 u p).2 ⟨rfl, rfl⟩⟩
  · rintro ⟨u, p, hmem⟩
    obtain ⟨whole, hf, -⟩ := hfind u p hmem
    exact (loginRE_match_iff data).2 ⟨whole, u, p, submatch_of_find _ _ _ hf⟩
  · intro Z A W hdata hZ hA hAc hW hWc hW0
    obtain ⟨whole, hre⟩ := loginRE_groups Z A W hZ hA hAc hW hWc hW0
    rw [← hdata] at hre
    exact (hcall whole A W hre).2
  · intro hlen
    refine ⟨?_, hnone hlen, ?_⟩
    · cases hmatch : loginRE.MatchString data with
      | false => rfl
      | true =>
        obtain ⟨whole, u, p, hre⟩ := (loginRE_match_iff data).1 hmatch
        rw [hre] at hlen
        exact absurd rfl hlen
    · rw [cmdAuthPlain_no_match args c line pending data hin hdec hlen]
      simp [clientOutput]
  · intro u p hmem
    obtain ⟨whole, -, hu, huc, hp, hpc⟩ := hfind u p hmem
    refine ⟨hu, huc, ?_, hp, hpc⟩
    intro h0
    have := huc 0 h0
    revert this
    decide

/-- C13 (amended) on the payload `a b\0alice\0secret`, whose authzid holds a space and
no NUL. -/
theorem cmdAuthPlain_grammar_witness :
    (sampleConn .StateNotAuthenticated [str "YSBiAGFsaWNlAHNlY3JldA=="]).RwcScanner =
        str "YSBiAGFsaWNlAHNlY3JldA==" :: [] ∧
      DecodeString (str "YSBiAGFsaWNlAHNlY3JldA==") =
        some (str "a b" ++ [0] ++ str "alice" ++ [0] ++ str "secret") ∧
      (∀ u p, Event.authenticate u p ∈
          (cmdAuthPlain (sampleArgs "a1" "PLAIN" "" "")
            (sampleConn .StateNotAuthenticated [str "YSBiAGFsaWNlAHNlY3JldA=="])).trace ↔
        (u = str "alice" ∧ p = str "secret")) ∧
      clientOutput (cmdAuthPlain (sampleArgs "a1" "PLAIN" "" "")
          (sampleConn .StateNotAuthenticated [str "YSBiAGFsaWNlAHNlY3JldA=="])).trace =
        [(str "+", str ""), (str "a1", str "OK Authenticated")] :=
  ⟨rfl, by decide,
    (cmdAuthPlain_grammar (sampleArgs "a1" "PLAIN" "" "")
      (sampleConn .StateNotAuthenticated [str "YSBiAGFsaWNlAHNlY3JldA=="])
      (str "YSBiAGFsaWNlAHNlY3JldA==") []
      (str "a b" ++ [0] ++ str "alice" ++ [0] ++ str "secret") rfl
      (by decide)).2.2.1 (str "a b") (str "alice") (str "secret") rfl (Or.inl (by decide))
      (by decide) (by decide) (by decide) (by decide) (by decide),
    by decide⟩

/-! ## The reply lines of `cmdFetch`, message by message -/

/-- What the loop of `cmdFetch` writes to the client: one untagged line for each message
of an initial segment `done` of the messages, in order, each made of the sequence number
of the message printed for it, the result of `fetch` on that very message and the closing
bracket; then at most one tagged line. The segment is the whole list, closed by the
tagged `OK FETCH Completed`, when `fetch` succeeds on every message and no `Save` returns
the nil message. -/
theorem cmdFetchLoop_replies (env : Env) (args : CommandArgs) (c : Conn) (params : Bytes)
    (msgs : List Message) (out : List Event) :
    ∃ (done : List Message) (lines tail : List (Bytes × Bytes)),
      done <+: msgs ∧
      clientOutput (cmdFetchLoop env args c params msgs out).trace =
        clientOutput out ++ lines ++ tail ∧
      (tail = [] ∨ tail = [(args.ID, str "OK FETCH Completed")] ∨
        tail = [(args.ID, str "BAD Unrecognised Parameter")] ∨ tail = [(args.ID, str "BAD")]) ∧
      List.Forall₂ (fun m line => ∃ r m', fetch env params c m = .ok r ∧
        replyMessage env c m = some m' ∧
        line = (str "", decimal m'.SequenceNumber ++ str " FETCH (" ++ r ++ str ")"))
        done lines ∧
      ((∀ m ∈ msgs, (∃ r, fetch env params c m = .ok r) ∧
          ∃ m', replyMessage env c m = some m') →
        done = msgs ∧ tail = [(args.ID, str "OK FETCH Completed")]) := by
  induction msgs generalizing out with
  | nil =>
    exact ⟨[], [], [(args.ID, str "OK FETCH Completed")], List.prefix_refl _,
      by simp [cmdFetchLoop, clientOutput_append, clientOutput], Or.inr (Or.inl rfl),
      List.Forall₂.nil, fun _ => ⟨rfl, rfl⟩⟩
  | cons msg rest ih =>
    cases hf : fetch env params c msg with
    | panic =>
      refine ⟨[], [], [], List.nil_prefix, by simp [cmdFetchLoop, hf], Or.inl rfl,
        List.Forall₂.nil, fun h => ?_⟩
      obtain ⟨⟨r, hr⟩, -⟩ := h msg (List.mem_cons_self _ _)
      rw [hf] at hr
      exact Result.noConfusion hr
    | err e =>
      have hno : (∀ m ∈ msg :: rest, (∃ r, fetch env params c m = .ok r) ∧
          ∃ m', replyMessage env c m = some m') → False := by
        intro h
        obtain ⟨⟨r, hr⟩, -⟩ := h msg (List.mem_cons_self _ _)
        rw [hf] at hr
        exact Result.noConfusion hr
      cases e with
      | ErrUnrecognisedParameter =>
        exact ⟨[], [], [(args.ID, str "BAD Unrecognised Parameter")], List.nil_prefix,
          by simp [cmdFetchLoop, hf, clientOutput_append, clientOutput],
          Or.inr (Or.inr (Or.inl rfl)), List.Forall₂.nil, fun h => (hno h).elim⟩
      | other t =>
        exact ⟨[], [], [(args.ID, str "BAD")], List.nil_prefix,
          by simp [cmdFetchLoop, hf, clientOutput_append, clientOutput],
          Or.inr (Or.inr (Or.inr rfl)), List.Forall₂.nil, fun h => (hno h).elim⟩
    | ok r =>
      by_cases hrw : c.mailboxWritable = .readWrite
      · cases hsave : (env.Save (env.RemoveFlags msg .FlagRecent)).1 with
        | none =>
          refine ⟨[], [], [], List.nil_prefix,
            by simp [cmdFetchLoop, hf, hrw, hsave, clientOutput_append, clientOutput],
            Or.inl rfl, List.Forall₂.nil, fun h => ?_⟩
          obtain ⟨-, m', hm'⟩ := h msg (List.mem_cons_self _ _)
          simp [replyMessage, hrw, hsave] at hm'
        | some msg₂ =>
          obtain ⟨done, lines, tail, hpre, htr, htail, hall, hfull⟩ :=
            ih (out ++ [.removeFlags msg .FlagRecent,
              .save (env.RemoveFlags msg .FlagRecent),
              .write (str "") (decimal msg₂.SequenceNumber ++ str " FETCH (" ++ r ++ str ")")])
          have e : cmdFetchLoop env args c params (msg :: rest) out =
              cmdFetchLoop env args c params rest (out ++ [.removeFlags msg .FlagRecent,
                .save (env.RemoveFlags msg .FlagRecent),
                .write (str "") (decimal msg₂.SequenceNumber ++ str " FETCH (" ++ r ++ str ")")]) := by
            simp only [cmdFetchLoop, hf, hrw, hsave, if_true]
          refine ⟨msg :: done,
            (str "", decimal msg₂.SequenceNumber ++ str " FETCH (" ++ r ++ str ")") :: lines,
            tail, (List.prefix_cons_inj msg).2 hpre, ?_, htail,
            List.Forall₂.cons ⟨r, msg₂, hf, by simp [replyMessage, hrw, hsave], rfl⟩ hall,
            fun h => ?_⟩
          · rw [e, htr]
            simp [clientOutput_append, clientOutput]
          · obtain ⟨h₁, h₂⟩ := hfull (fun m hm => h m (List.mem_cons_of_mem _ hm))
            exact ⟨by rw [h₁], h₂⟩
      · obtain ⟨done, lines, tail, hpre, htr, htail, hall, hfull⟩ :=
          ih (out ++
            [.write (str "") (decimal msg.SequenceNumber ++ str " FETCH (" ++ r ++ str ")")])
        have e : cmdFetchLoop env args c params (msg :: rest) out =
            cmdFetchLoop env args c params rest (out ++
              [.write (str "") (decimal msg.SequenceNumber ++ str " FETCH (" ++ r ++ str ")")]) := by
          simp only [cmdFetchLoop, hf, hrw, if_false]
        refine ⟨msg :: done,
          (str "", decimal msg.SequenceNumber ++ str " FETCH (" ++ r ++ str ")") :: lines,
          tail, (List.prefix_cons_inj msg).2 hpre, ?_, htail,
          List.Forall₂.cons ⟨r, msg, hf, by simp [replyMessage, hrw], rfl⟩ hall,
          fun h => ?_⟩
        · rw [e, htr]
          simp [clientOutput_append, clientOutput]
        · obtain ⟨h₁, h₂⟩ := hfull (fun m hm => h m (List.mem_cons_of_mem _ hm))
          exact ⟨by rw [h₁], h₂⟩

/-- In UID mode the attribute string handed to `fetch` contains `UID`. -/
theorem attributeString_contains_uid (args : CommandArgs)
    (huid : ToUpper (args.Arg fetchArgUID) = str "UID ") :
    Contains (attributeString args) (str "UID") = true := by
  unfold attributeString
  cases hc : Contains (args.Arg fetchArgParams) (str "UID") with
  | true => simp [huid, hc]
  | false => simpa [huid, hc] using contains_uid_prefixed _

/-- C19: in UID mode, with a tokenizer that keeps a substring `UID` of the attribute
string inside one token (as splitting at spaces does), what `cmdFetch` writes after the
guard is one untagged line for each message of an initial segment of the messages the
UID lookup resolved, in order, then at most one tagged line. The line of a message `m`
is the sequence number printed for `m`, ` FETCH (`, the fragments `fetch` collected for
`m` joined by single spaces, and `)`, and `UID ` followed by the decimal UID of `m` is
one of these fragments, whether or not the attribute list mentions UID. When every token
is recognised and no `Save` returns the nil message, the segment is the whole list and
the tagged line is `OK FETCH Completed`. -/
theorem cmdFetch_uid_mode_reports_uid (env : Env) (args : CommandArgs) (c : Conn)
    (seqSet : SequenceSet) (mailbox : Mailbox)
    (hg : (env.assertSelected c args.ID .readOnly).1 = true)
    (hs : env.InterpretSequenceSet (args.Arg fetchArgRange) = .ok seqSet)
    (hm : c.SelectedMailbox = some mailbox)
    (huid : ToUpper (args.Arg fetchArgUID) = str "UID ")
    (hsplit : ∀ s, Contains s (str "UID") = true →
      ∃ t ∈ env.SplitParams s, Contains t (str "UID") = true) :
    ∃ (done : List Message) (lines tail : List (Bytes × Bytes)),
      done <+: mailbox.MessageSetByUID seqSet ∧
      clientOutput (cmdFetch env args c).trace =
        clientOutput (env.assertSelected c args.ID .readOnly).2 ++ lines ++ tail ∧
      (tail = [] ∨ tail = [(args.ID, str "OK FETCH Completed")] ∨
        tail = [(args.ID, str "BAD Unrecognised Parameter")] ∨ tail = [(args.ID, str "BAD")]) ∧
      List.Forall₂ (fun m line => ∃ (frs : List Bytes) (m' : Message),
        fetchLoop env c m (env.SplitParams (attributeString args)) [] = .ok frs ∧
        replyMessage env c m = some m' ∧
        (str "UID " ++ decimal m.UID) ∈ frs ∧
        line = (str "", decimal m'.SequenceNumber ++ str " FETCH (" ++ Join frs (str " ") ++
          str ")")) done lines ∧
      ((∀ t ∈ env.SplitParams (attributeString args),
          ∃ d ∈ registeredFetchParams, d.re.MatchString t = true) →
        (∀ m ∈ mailbox.MessageSetByUID seqSet, ∃ m', replyMessage env c m = some m') →
        done = mailbox.MessageSetByUID seqSet ∧
          lines.length = (mailbox.MessageSetByUID seqSet).length ∧
          tail = [(args.ID, str "OK FETCH Completed")]) := by
  have hres : resolvedMessages args mailbox seqSet = mailbox.MessageSetByUID seqSet := by
    simp [resolvedMessages, huid]
  obtain ⟨done, lines, tail, hpre, htr, htail, hall, hfull⟩ :=
    cmdFetchLoop_replies env args c (attributeString args) (mailbox.MessageSetByUID seqSet)
      ((env.assertSelected c args.ID .readOnly).2 ++ [.messageSetByUID seqSet])
  obtain ⟨t, ht, htc⟩ := hsplit _ (attributeString_contains_uid args huid)
  have hlines : List.Forall₂ (fun m line => ∃ (frs : List Bytes) (m' : Message),
      fetchLoop env c m (env.SplitParams (attributeString args)) [] = .ok frs ∧
      replyMessage env c m = some m' ∧
      (str "UID " ++ decimal m.UID) ∈ frs ∧
      line = (str "", decimal m'.SequenceNumber ++ str " FETCH (" ++ Join frs (str " ") ++
        str ")")) done lines := by
    refine List.Forall₂.imp ?_ hall
    rintro m line ⟨r, m', hf, hm', hline⟩
    simp only [fetch] at hf
    split at hf
    · rename_i frs hfrs
      simp only [Result.ok.injEq] at hf
      obtain ⟨fr, hfr, hfp⟩ := (fetchLoop_ok_mem env c m _ [] frs hfrs).2 t ht
      rw [fetchParam_uid env t c m htc] at hfp
      simp only [Result.ok.injEq] at hfp
      exact ⟨frs, m', hfrs, hm', by rw [hfp]; exact hfr, by rw [hline, ← hf]⟩
    · simp at hf
    · simp at hf
  refine ⟨done, lines, tail, hpre, ?_, htail, hlines, ?_⟩
  · rw [cmdFetch_loop_eq env args c seqSet mailbox hg hs hm, hres, if_pos huid, htr]
    simp [clientOutput_append, clientOutput]
  · intro htok hsave
    obtain ⟨h₁, h₂⟩ := hfull (fun m hmem => ⟨by
      obtain ⟨frs, hfrs⟩ := fetchLoop_recognised env c m _ [] htok
      exact ⟨Join frs (str " "), by simp [fetch, hfrs]⟩, hsave m hmem⟩)
    exact ⟨h₁, by rw [← h₁]; exact hall.length_eq.symm, h₂⟩

/-- C19 on the sample mailbox: `UID FETCH 102 FLAGS` in lower-case `uid `, on the mailbox
open read-only; the one line written is the line of the message with UID 102 and
sequence number 2. -/
theorem cmdFetch_uid_mode_reports_uid_witness :
    (sampleEnv.assertSelected (sampleSelected .readOnly) (sampleArgs "a1" "uid " "102" "FLAGS").ID
        .readOnly).1 = true ∧
      sampleEnv.InterpretSequenceSet ((sampleArgs "a1" "uid " "102" "FLAGS").Arg fetchArgRange) =
        .ok [(.num 102, .num 102)] ∧
      (sampleSelected .readOnly).SelectedMailbox = some (sampleMailbox sampleMessages) ∧
      ToUpper ((sampleArgs "a1" "uid " "102" "FLAGS").Arg fetchArgUID) = str "UID " ∧
      (∀ s, Contains s (str "UID") = true →
        ∃ t ∈ sampleEnv.SplitParams s, Contains t (str "UID") = true) ∧
      (sampleMailbox sampleMessages).MessageSetByUID [(.num 102, .num 102)] =
        [sampleMessage 102 2] ∧
      clientOutput (cmdFetch sampleEnv (sampleArgs "a1" "uid " "102" "FLAGS")
          (sampleSelected .readOnly)).trace =
        [(str "", str "2 FETCH (UID 102 FLAGS (\\Recent))"),
          (str "a1", str "OK FETCH Completed")] ∧
      ∃ (done : List Message) (lines tail : List (Bytes × Bytes)),
        done <+: (sampleMailbox sampleMessages).MessageSetByUID [(.num 102, .num 102)] ∧
        clientOutput (cmdFetch sampleEnv (sampleArgs "a1" "uid " "102" "FLAGS")
            (sampleSelected .readOnly)).trace =
          clientOutput (sampleEnv.assertSelected (sampleSelected .readOnly)
              (sampleArgs "a1" "uid " "102" "FLAGS").ID .readOnly).2 ++ lines ++ tail ∧
        (tail = [] ∨ tail = [((sampleArgs "a1" "uid " "102" "FLAGS").ID, str "OK FETCH Completed")] ∨
          tail = [((sampleArgs "a1" "uid " "102" "FLAGS").ID, str "BAD Unrecognised Parameter")] ∨
          tail = [((sampleArgs "a1" "uid " "102" "FLAGS").ID, str "BAD")]) ∧
        List.Forall₂ (fun m line => ∃ (frs : List Bytes) (m' : Message),
          fetchLoop sampleEnv (sampleSelected .readOnly) m
            (sampleEnv.SplitParams (attributeString (sampleArgs "a1" "uid " "102" "FLAGS"))) [] =
              .ok frs ∧
          replyMessage sampleEnv (sampleSelected .readOnly) m = some m' ∧
          (str "UID " ++ decimal m.UID) ∈ frs ∧
          line = (str "", decimal m'.SequenceNumber ++ str " FETCH (" ++ Join frs (str " ") ++
            str ")")) done lines ∧
        ((∀ t ∈ sampleEnv.SplitParams (attributeString (sampleArgs "a1" "uid " "102" "FLAGS")),
            ∃ d ∈ registeredFetchParams, d.re.MatchString t = true) →
          (∀ m ∈ (sampleMailbox sampleMessages).MessageSetByUID [(.num 102, .num 102)],
            ∃ m', replyMessage sampleEnv (sampleSelected .readOnly) m = some m') →
          done = (sampleMailbox sampleMessages).MessageSetByUID [(.num 102, .num 102)] ∧
            lines.length =
              ((sampleMailbox sampleMessages).MessageSetByUID [(.num 102, .num 102)]).length ∧
            tail = [((sampleArgs "a1" "uid " "102" "FLAGS").ID, str "OK FETCH Completed")]) :=
  ⟨by decide, by rfl, rfl, by decide, sampleEnv_keeps_uid, by decide, by decide,
    cmdFetch_uid_mode_reports_uid sampleEnv (sampleArgs "a1" "uid " "102" "FLAGS")
      (sampleSelected .readOnly) [(.num 102, .num 102)] (sampleMailbox sampleMessages)
      (by decide) (by rfl) rfl (by decide) sampleEnv_keeps_uid⟩

end ImapServer
